import Mathlib

/-!
Verification of the dsOS memory-management core against its specification.

The development shallowly embeds the three components of `src/kernel/mm/`
(`memory.c`, `paging.c`, `heap.c`) as executable Lean functions over explicit
state records and proves (or refutes) the spec's testable properties.

Conventions of the embedding:
* machine words (`uint64_t`, `size_t`, `uintptr_t`) are modelled as `Nat`;
  where C wrap-around is observable (counter increments/decrements, size
  subtraction) the operation is reduced modulo `2^64` explicitly, and the
  bit operations are the `Nat` bitwise operations, which agree with the
  64-bit ones on values below `2^64`;
* pointer arithmetic is ordinary `Nat` arithmetic (the states considered
  keep all addresses below `2^64`, where `uintptr_t` agrees with `ℕ`);
* physical memory holding page tables is a function from table base
  addresses and entry indices to 64-bit entry values;
* the heap is a function from block addresses to header records; payload
  bytes are not represented (no heap operation reads them, except the
  aligned-allocation offset stash, modelled by a separate word store);
* fallible scans return `Option`, mirroring the C sentinel `(size_t)-1`;
  functions whose C sentinel `0`/`NULL` is itself a representable value
  keep the sentinel, mirroring the source exactly.
-/

/-! ## Common constants (include/memory.h) -/

/-- Bytes per page, `PAGE_SIZE` in `include/memory.h`. -/
def PAGE_SIZE : Nat := 4096

/-- The 64-bit value `PAGE_MASK = 0xFFFFFFFFFFFFF000` (keeps bits 12..63). -/
def PAGE_MASK : Nat := 0xFFFFFFFFFFFFF000

/-- The value `PAGE_OFFSET_MASK = 0xFFF` (keeps bits 0..11). -/
def PAGE_OFFSET_MASK : Nat := 0xFFF

/-- Modulus of 64-bit machine arithmetic. -/
def U64 : Nat := 2 ^ 64

/-- All-ones 64-bit word, the value of `~0ULL`. -/
def MASK64 : Nat := U64 - 1

/-- 64-bit wrap-around subtraction `a - b` (for `a < 2^64`). -/
def sub64 (a b : Nat) : Nat := (a + (U64 - b % U64)) % U64

/-! ## Physical frame allocator (src/kernel/mm/memory.c)

State of the bitmap allocator: the static variables `page_bitmap`
(an array of `page_bitmap_entries` 64-bit words), `total_pages` and
`used_pages`.  `managed_memory_start` is the constant `0x100000`. -/

structure FrameState where
  bitmap : List Nat
  bitmapEntries : Nat
  totalPages : Nat
  usedPages : Nat
deriving Repr, DecidableEq

/-- The constant `managed_memory_start` (1 MiB). -/
def managed_memory_start : Nat := 0x100000

/-- Word of the bitmap at index `entry` (`page_bitmap[entry]`). -/
def FrameState.word (s : FrameState) (entry : Nat) : Nat :=
  s.bitmap.getD entry 0

/-- Lines 41-45 of memory.c: set bit `index` of the page bitmap. -/
def bitmap_set (s : FrameState) (index : Nat) : FrameState :=
  let entry := index / 64
  let bit := index % 64
  { s with bitmap := s.bitmap.set entry (s.word entry ||| (1 <<< bit)) }

/-- Lines 52-56 of memory.c: clear bit `index` of the page bitmap
(`&= ~(1ULL << bit)`, the complement taken in 64 bits). -/
def bitmap_clear (s : FrameState) (index : Nat) : FrameState :=
  let entry := index / 64
  let bit := index % 64
  { s with bitmap := s.bitmap.set entry (s.word entry &&& (MASK64 ^^^ (1 <<< bit))) }

/-- Lines 64-68 of memory.c: test bit `index` of the page bitmap. -/
def bitmap_test (s : FrameState) (index : Nat) : Bool :=
  s.word (index / 64) &&& (1 <<< (index % 64)) ≠ 0

/-- Inner loop of `bitmap_find_free` (lines 78-82): scan the 64 bits of
word `w` from bit `j`, with `r` iterations remaining. -/
def bitmap_scan_word (w : Nat) : Nat → Nat → Option Nat
  | _, 0 => none
  | j, r + 1 => if w &&& (1 <<< j) = 0 then some j else bitmap_scan_word w (j + 1) r

/-- Outer loop of `bitmap_find_free` (lines 75-86): scan words from index
`i`, with `r` words remaining; a word with a zero bit yields its first
zero bit's global index. -/
def bitmap_find_free_go (s : FrameState) : Nat → Nat → Option Nat
  | _, 0 => none
  | i, r + 1 =>
    if s.word i ≠ MASK64 then
      match bitmap_scan_word (s.word i) 0 64 with
      | some j => some (i * 64 + j)
      | none => bitmap_find_free_go s (i + 1) r
    else bitmap_find_free_go s (i + 1) r

/-- Lines 75-86 of memory.c: `bitmap_find_free`, first-fit scan over all
`page_bitmap_entries` words (`none` models the C sentinel `(size_t)-1`). -/
def bitmap_find_free (s : FrameState) : Option Nat :=
  bitmap_find_free_go s 0 s.bitmapEntries

/-- Loop of `bitmap_find_free_contiguous` (lines 101-109): `i` is the
current frame, `r` the remaining iterations (so that `i + r = total_pages`),
`start`/`count` the current run.  Returns `start` once the run length
reaches `n`; an allocated frame resets `count` to 0. -/
def bitmap_find_free_contiguous_go (s : FrameState) (n : Nat) :
    Nat → Nat → Nat → Nat → Option Nat
  | _, 0, _, _ => none
  | i, r + 1, start, count =>
    if !bitmap_test s i then
      let start' := if count = 0 then i else start
      if n ≤ count + 1 then some start'
      else bitmap_find_free_contiguous_go s n (i + 1) r start' (count + 1)
    else bitmap_find_free_contiguous_go s n (i + 1) r start 0

/-- Lines 94-112 of memory.c: `bitmap_find_free_contiguous n` — `n = 0`
returns the sentinel, `n = 1` delegates to `bitmap_find_free`, otherwise
a linear scan over frames `0 .. total_pages - 1`. -/
def bitmap_find_free_contiguous (s : FrameState) (n : Nat) : Option Nat :=
  if n = 0 then none
  else if n = 1 then bitmap_find_free s
  else bitmap_find_free_contiguous_go s n 0 s.totalPages 0 0

/-- Lines 214-225 of memory.c: `mm_alloc_page`, returning the physical
address (`0` on out-of-memory, as in the source) and the new state. -/
def mm_alloc_page (s : FrameState) : Nat × FrameState :=
  match bitmap_find_free s with
  | none => (0, s)
  | some page =>
    let s' := bitmap_set s page
    (page * PAGE_SIZE, { s' with usedPages := (s'.usedPages + 1) % U64 })

/-- Lines 233-247 of memory.c: `mm_alloc_pages pages`, contiguous-run
allocation; on success every frame of the run is marked used. -/
def mm_alloc_pages (s : FrameState) (pages : Nat) : Nat × FrameState :=
  match bitmap_find_free_contiguous s pages with
  | none => (0, s)
  | some page =>
    let s' := (List.range pages).foldl (fun st i => bitmap_set st (page + i)) s
    (page * PAGE_SIZE, { s' with usedPages := (s'.usedPages + pages) % U64 })

/-- Lines 254-268 of memory.c: `mm_free_page addr` — silently ignores
addresses below `managed_memory_start` and beyond `total_pages`, otherwise
clears the bit and decrements `used_pages` (with 64-bit wrap-around),
whether or not the bit was set. -/
def mm_free_page (s : FrameState) (addr : Nat) : FrameState :=
  if addr < managed_memory_start then s
  else
    let page := addr / PAGE_SIZE
    if s.totalPages ≤ page then s
    else
      let s' := bitmap_clear s page
      { s' with usedPages := (s'.usedPages + (U64 - 1)) % U64 }

/-- Lines 276-280 of memory.c: `mm_free_pages addr pages`. -/
def mm_free_pages (s : FrameState) (addr : Nat) (pages : Nat) : FrameState :=
  (List.range pages).foldl (fun st i => mm_free_page st (addr + i * PAGE_SIZE)) s

/-- Lines 287-289 of memory.c: `mm_get_total_pages`. -/
def mm_get_total_pages (s : FrameState) : Nat := s.totalPages

/-- Lines 296-298 of memory.c: `mm_get_free_pages`, the `size_t`
difference `total_pages - used_pages` (with 64-bit wrap-around). -/
def mm_get_free_pages (s : FrameState) : Nat :=
  (s.totalPages % U64 + (U64 - s.usedPages % U64)) % U64

/-- The virtual base `KERNEL_VIRTUAL_BASE` from include/memory.h. -/
def KERNEL_VIRTUAL_BASE : Nat := 0xFFFFFFFF80000000

/-- The recurring statement pair `bitmap_set(page); used_pages++;` of
`mm_init`/`setup_page_bitmap` (lines 148-150, 155-158, 188-190). -/
def markUsed (s : FrameState) (page : Nat) : FrameState :=
  let s' := bitmap_set s page
  { s' with usedPages := (s'.usedPages + 1) % U64 }

/-- Lines 119-169 and 174-192 of memory.c: `mm_init mem_upper` (KB) with
`setup_page_bitmap` inlined.  `kernelStart`/`kernelEnd` are the linker
symbols `_kernel_start`/`_kernel_end` (virtual addresses, external to the
sources), passed as parameters.  The bitmap lives at virtual
`KERNEL_VIRTUAL_BASE + 0x400000`, i.e. physical `0x400000`.  The
`map_kernel_memory` tail only reads CR3 and is outside the model. -/
def mm_init (memUpper kernelStart kernelEnd : Nat) : FrameState :=
  let totalMemory := (memUpper * 1024) % U64
  let totalPages := totalMemory / PAGE_SIZE
  let entries := (totalPages + 63) / 64
  let s0 : FrameState :=
    { bitmap := List.replicate entries 0, bitmapEntries := entries,
      totalPages := totalPages, usedPages := 0 }
  let s1 := (List.range (managed_memory_start / PAGE_SIZE)).foldl markUsed s0
  let kernelStartPhys := sub64 kernelStart KERNEL_VIRTUAL_BASE
  let kernelEndPhys := sub64 kernelEnd KERNEL_VIRTUAL_BASE
  let kernelPageCount := (kernelEndPhys - kernelStartPhys + (PAGE_SIZE - 1)) / PAGE_SIZE
  let s2 := (List.range kernelPageCount).foldl
    (fun st i => markUsed st ((kernelStartPhys + i * PAGE_SIZE) / PAGE_SIZE)) s1
  let bitmapSizePages := (entries * 8 + (PAGE_SIZE - 1)) / PAGE_SIZE
  (List.range bitmapSizePages).foldl
    (fun st i => markUsed st (0x400000 / PAGE_SIZE + i)) s2

/-! ## Claim C10: `mm_alloc_pages 0` -/

/-- Claim C10: `mm_alloc_pages` called with a count of 0 returns the
failure value 0 and leaves the bitmap and the used-frame count (the whole
allocator state) unchanged; it never reports success for an empty
allocation. -/
theorem C10_alloc_pages_zero (s : FrameState) : mm_alloc_pages s 0 = (0, s) := by
  simp [mm_alloc_pages, bitmap_find_free_contiguous]

/-! ## Bit-level and list-level helper lemmas -/

theorem land_two_pow_eq (w b : Nat) :
    w &&& (1 <<< b) = if w.testBit b then 2 ^ b else 0 := by
  rw [Nat.one_shiftLeft]
  apply Nat.eq_of_testBit_eq
  intro i
  rw [Nat.testBit_land]
  by_cases hib : b = i
  · subst hib
    by_cases h : w.testBit b <;> simp [h, Nat.testBit_two_pow_self]
  · have h2 : (2 ^ b).testBit i = false := Nat.testBit_two_pow_of_ne hib
    by_cases h : w.testBit b <;> simp [h, h2, Nat.testBit_two_pow_of_ne hib]

theorem bitmap_test_eq_testBit (s : FrameState) (i : Nat) :
    bitmap_test s i = (s.word (i / 64)).testBit (i % 64) := by
  rw [bitmap_test, land_two_pow_eq]
  by_cases h : (s.word (i / 64)).testBit (i % 64) <;>
    simp [h, (Nat.two_pow_pos (i % 64)).ne']

theorem mod_ne_of_div_eq_of_ne {a b : Nat} (hdiv : a / 64 = b / 64) (hne : a ≠ b) :
    a % 64 ≠ b % 64 := by
  intro h
  exact hne (by omega)

theorem word_set (s : FrameState) (idx j : Nat) (h : idx / 64 < s.bitmap.length) :
    (bitmap_set s idx).word j =
      if j = idx / 64 then s.word (idx / 64) ||| (1 <<< (idx % 64)) else s.word j := by
  unfold bitmap_set FrameState.word
  by_cases hj : j = idx / 64
  · subst hj
    simp [List.getElem?_set, h]
  · simp [List.getElem?_set_ne (Ne.symm hj), hj]

theorem word_clear (s : FrameState) (idx j : Nat) (h : idx / 64 < s.bitmap.length) :
    (bitmap_clear s idx).word j =
      if j = idx / 64 then s.word (idx / 64) &&& (MASK64 ^^^ (1 <<< (idx % 64)))
      else s.word j := by
  unfold bitmap_clear FrameState.word
  by_cases hj : j = idx / 64
  · subst hj
    simp [List.getElem?_set, h]
  · simp [List.getElem?_set_ne (Ne.symm hj), hj]

theorem bitmap_test_set (s : FrameState) (idx k : Nat) (h : idx / 64 < s.bitmap.length) :
    bitmap_test (bitmap_set s idx) k = if k = idx then true else bitmap_test s k := by
  have hw : ∀ j, (bitmap_set s idx).word j =
      if j = idx / 64 then s.word (idx / 64) ||| (1 <<< (idx % 64)) else s.word j :=
    fun j => word_set s idx j h
  rw [bitmap_test_eq_testBit, bitmap_test_eq_testBit, hw]
  by_cases hk : k = idx
  · subst hk
    simp [Nat.one_shiftLeft, Nat.testBit_lor, Nat.testBit_two_pow_self]
  · by_cases hdiv : k / 64 = idx / 64
    · rw [if_pos hdiv, if_neg hk, hdiv, Nat.one_shiftLeft, Nat.testBit_lor,
        Nat.testBit_two_pow_of_ne (Ne.symm (mod_ne_of_div_eq_of_ne hdiv hk))]
      simp
    · rw [if_neg hdiv, if_neg hk]

theorem testBit_MASK64 (i : Nat) : MASK64.testBit i = decide (i < 64) := by
  show Nat.testBit (2 ^ 64 - 1) i = decide (i < 64)
  exact Nat.testBit_two_pow_sub_one 64 i

theorem bitmap_test_clear (s : FrameState) (idx k : Nat) (h : idx / 64 < s.bitmap.length) :
    bitmap_test (bitmap_clear s idx) k = if k = idx then false else bitmap_test s k := by
  have hw : ∀ j, (bitmap_clear s idx).word j =
      if j = idx / 64 then s.word (idx / 64) &&& (MASK64 ^^^ (1 <<< (idx % 64)))
      else s.word j :=
    fun j => word_clear s idx j h
  rw [bitmap_test_eq_testBit, bitmap_test_eq_testBit, hw]
  by_cases hk : k = idx
  · subst hk
    rw [if_pos rfl, if_pos rfl, Nat.one_shiftLeft, Nat.testBit_land, Nat.testBit_xor,
      testBit_MASK64, Nat.testBit_two_pow_self]
    simp [Nat.mod_lt k (by decide : 0 < 64)]
  · by_cases hdiv : k / 64 = idx / 64
    · rw [if_pos hdiv, if_neg hk, hdiv, Nat.one_shiftLeft, Nat.testBit_land,
        Nat.testBit_xor, testBit_MASK64,
        Nat.testBit_two_pow_of_ne (Ne.symm (mod_ne_of_div_eq_of_ne hdiv hk))]
      simp [Nat.mod_lt k (by decide : 0 < 64)]
    · rw [if_neg hdiv, if_neg hk]

theorem bitmap_length_set (s : FrameState) (idx : Nat) :
    (bitmap_set s idx).bitmap.length = s.bitmap.length := by
  simp [bitmap_set]

theorem totalPages_set (s : FrameState) (idx : Nat) :
    (bitmap_set s idx).totalPages = s.totalPages := rfl

theorem foldl_totalPages {α : Type} (f : FrameState → α → FrameState)
    (hf : ∀ s a, (f s a).totalPages = s.totalPages) :
    ∀ (l : List α) (s : FrameState), (l.foldl f s).totalPages = s.totalPages := by
  intro l
  induction l with
  | nil => intro s; rfl
  | cons a t ih => intro s; rw [List.foldl_cons, ih, hf]

/-! ## Claim C6: total frame count after init with 16 MiB -/

set_option maxRecDepth 100000

/-- Counterexample to claim C6: with 16 MiB of physical memory (`mem_upper`
16384 KB) and any kernel placement (here 1 MiB..2 MiB), `mm_get_total_pages`
returns 4096, not `(16 MiB - 1 MiB)/4096 = 3840`: `mm_init` computes
`total_pages = total_memory / PAGE_SIZE` without subtracting the managed
start. -/
theorem C6_counterexample :
    mm_get_total_pages (mm_init 16384 0xFFFFFFFF80100000 0xFFFFFFFF80200000) ≠ 3840 := by
  decide

/-- Claim C6 (amended): after `mm_init` with 16 MiB of physical memory
(`mem_upper = 16384` KB, kernel image at physical 1 MiB..2 MiB),
`mm_get_total_pages` returns `16*1024*1024 / 4096 = 4096`, not 3840:
the frames below the 1 MiB managed start are counted in the total (they
are instead marked permanently allocated at init). -/
theorem C6_total_pages :
    mm_get_total_pages (mm_init 16384 0xFFFFFFFF80100000 0xFFFFFFFF80200000) = 4096 := by
  decide

/-! ## Claim C5: free count vs popcount machinery -/

/-- Number of set bits among bits 0..63 of a word (the spec's `popcount`
of one bitmap word). -/
def bitCount64 (w : Nat) : Nat :=
  ((Finset.range 64).filter (fun j => w.testBit j = true)).card

/-- The spec's `popcount(bitmap)`: total number of set bits in the words
of the page bitmap. -/
def popcountBitmap (s : FrameState) : Nat :=
  (s.bitmap.map bitCount64).sum

/-- Structural well-formedness of the allocator state as established by
`mm_init`: the word list has exactly `page_bitmap_entries` entries, the
frames fit in the bitmap, and the bitmap is far from the `size_t` range. -/
def FrameWF (s : FrameState) : Prop :=
  s.bitmap.length = s.bitmapEntries ∧ s.totalPages ≤ 64 * s.bitmapEntries ∧
    s.bitmapEntries < 2 ^ 32

/-- The claim's invariant: `used_pages` equals the number of set bits. -/
def FrameInv (s : FrameState) : Prop :=
  s.usedPages = popcountBitmap s

instance (s : FrameState) : Decidable (FrameWF s) := by
  unfold FrameWF; infer_instance

instance (s : FrameState) : Decidable (FrameInv s) := by
  unfold FrameInv; infer_instance

theorem bitCount64_le (w : Nat) : bitCount64 w ≤ 64 := by
  unfold bitCount64
  calc ((Finset.range 64).filter _).card ≤ (Finset.range 64).card :=
        Finset.card_filter_le _ _
    _ = 64 := Finset.card_range 64

theorem popSum_le : ∀ l : List Nat, (l.map bitCount64).sum ≤ 64 * l.length := by
  intro l
  induction l with
  | nil => simp
  | cons a t ih =>
    simp only [List.map_cons, List.sum_cons, List.length_cons]
    have := bitCount64_le a
    omega

theorem popSum_set : ∀ (l : List Nat) (i w : Nat), i < l.length →
    ((l.set i w).map bitCount64).sum + bitCount64 (l.getD i 0)
      = (l.map bitCount64).sum + bitCount64 w := by
  intro l
  induction l with
  | nil => intro i w h; simp at h
  | cons a t ih =>
    intro i w h
    cases i with
    | zero => simp [List.set]; omega
    | succ j =>
      simp only [List.set, List.map_cons, List.sum_cons, List.getD_cons_succ]
      have := ih j w (by simpa using Nat.lt_of_succ_lt_succ h)
      omega

theorem popSum_getD_le : ∀ (l : List Nat) (i : Nat), i < l.length →
    bitCount64 (l.getD i 0) ≤ (l.map bitCount64).sum := by
  intro l
  induction l with
  | nil => intro i h; simp at h
  | cons a t ih =>
    intro i h
    cases i with
    | zero => simp
    | succ j =>
      simp only [List.getD_cons_succ, List.map_cons, List.sum_cons]
      have := ih j (by simpa using Nat.lt_of_succ_lt_succ h)
      omega

theorem bitCount64_set_bit (w b : Nat) (hb : b < 64) (h : w.testBit b = false) :
    bitCount64 (w ||| (1 <<< b)) = bitCount64 w + 1 := by
  unfold bitCount64
  have hfilter : (Finset.range 64).filter (fun j => (w ||| (1 <<< b)).testBit j = true)
      = insert b ((Finset.range 64).filter (fun j => w.testBit j = true)) := by
    ext j
    simp only [Finset.mem_filter, Finset.mem_range, Finset.mem_insert,
      Nat.one_shiftLeft, Nat.testBit_lor]
    constructor
    · rintro ⟨hj, hor⟩
      rcases Bool.or_eq_true_iff.mp hor with h1 | h2
      · exact Or.inr ⟨hj, h1⟩
      · exact Or.inl (by
          by_contra hne
          rw [Nat.testBit_two_pow_of_ne (fun he => hne he.symm)] at h2
          exact Bool.false_ne_true h2)
    · rintro (rfl | ⟨hj, hw⟩)
      · exact ⟨hb, by simp [Nat.testBit_two_pow_self]⟩
      · exact ⟨hj, by simp [hw]⟩
  rw [hfilter, Finset.card_insert_of_not_mem (by simp [Finset.mem_filter, h])]

theorem bitCount64_clear_bit (w b : Nat) (hb : b < 64) (h : w.testBit b = true) :
    bitCount64 (w &&& (MASK64 ^^^ (1 <<< b))) + 1 = bitCount64 w := by
  unfold bitCount64
  have hfilter : (Finset.range 64).filter
        (fun j => (w &&& (MASK64 ^^^ (1 <<< b))).testBit j = true)
      = ((Finset.range 64).filter (fun j => w.testBit j = true)).erase b := by
    ext j
    simp only [Finset.mem_filter, Finset.mem_range, Finset.mem_erase,
      Nat.one_shiftLeft, Nat.testBit_land, Nat.testBit_xor, testBit_MASK64]
    constructor
    · rintro ⟨hj, hand⟩
      rcases Bool.and_eq_true_iff.mp hand with ⟨h1, h2⟩
      refine ⟨?_, hj, h1⟩
      intro he
      subst he
      simp [Nat.testBit_two_pow_self, hj] at h2
    · rintro ⟨hne, hj, hw⟩
      refine ⟨hj, ?_⟩
      rw [Nat.testBit_two_pow_of_ne (fun he => hne he.symm)]
      simp [hw, hj]
  rw [hfilter, Finset.card_erase_of_mem (by simp [Finset.mem_filter, h, hb])]
  have hmem : b ∈ (Finset.range 64).filter (fun j => w.testBit j = true) := by
    simp [Finset.mem_filter, h, hb]
  have : 0 < ((Finset.range 64).filter (fun j => w.testBit j = true)).card :=
    Finset.card_pos.mpr ⟨b, hmem⟩
  omega

theorem popcount_bitmap_set (s : FrameState) (idx : Nat)
    (hlen : idx / 64 < s.bitmap.length) (hclear : bitmap_test s idx = false) :
    popcountBitmap (bitmap_set s idx) = popcountBitmap s + 1 := by
  have hbit : (s.word (idx / 64)).testBit (idx % 64) = false := by
    rw [← bitmap_test_eq_testBit]; exact hclear
  have hset := popSum_set s.bitmap (idx / 64)
    (s.word (idx / 64) ||| (1 <<< (idx % 64))) hlen
  have hinc := bitCount64_set_bit (s.word (idx / 64)) (idx % 64)
    (Nat.mod_lt idx (by decide)) hbit
  unfold popcountBitmap bitmap_set
  simp only
  unfold FrameState.word at hset hinc ⊢
  omega

theorem popcount_bitmap_clear (s : FrameState) (idx : Nat)
    (hlen : idx / 64 < s.bitmap.length) (hset : bitmap_test s idx = true) :
    popcountBitmap (bitmap_clear s idx) + 1 = popcountBitmap s := by
  have hbit : (s.word (idx / 64)).testBit (idx % 64) = true := by
    rw [← bitmap_test_eq_testBit]; exact hset
  have hs := popSum_set s.bitmap (idx / 64)
    (s.word (idx / 64) &&& (MASK64 ^^^ (1 <<< (idx % 64)))) hlen
  have hdec := bitCount64_clear_bit (s.word (idx / 64)) (idx % 64)
    (Nat.mod_lt idx (by decide)) hbit
  unfold popcountBitmap bitmap_clear
  simp only
  unfold FrameState.word at hs hdec ⊢
  omega

theorem popcount_pos_of_test (s : FrameState) (idx : Nat)
    (hlen : idx / 64 < s.bitmap.length) (hset : bitmap_test s idx = true) :
    1 ≤ popcountBitmap s := by
  have hbit : (s.word (idx / 64)).testBit (idx % 64) = true := by
    rw [← bitmap_test_eq_testBit]; exact hset
  have h1 : 1 ≤ bitCount64 (s.bitmap.getD (idx / 64) 0) := by
    apply Finset.card_pos.mpr
    exact ⟨idx % 64, by
      simp only [Finset.mem_filter, Finset.mem_range]
      exact ⟨Nat.mod_lt idx (by decide), hbit⟩⟩
  have h2 := popSum_getD_le s.bitmap (idx / 64) hlen
  unfold popcountBitmap
  omega

theorem bitmap_scan_word_some (w : Nat) :
    ∀ (r j0 j : Nat), bitmap_scan_word w j0 r = some j →
      w &&& (1 <<< j) = 0 ∧ j0 ≤ j ∧ j < j0 + r := by
  intro r
  induction r with
  | zero => intro j0 j h; simp [bitmap_scan_word] at h
  | succ r ih =>
    intro j0 j h
    rw [bitmap_scan_word] at h
    by_cases hz : w &&& (1 <<< j0) = 0
    · rw [if_pos hz] at h
      cases h
      exact ⟨hz, Nat.le_refl _, by omega⟩
    · rw [if_neg hz] at h
      have := ih (j0 + 1) j h
      exact ⟨this.1, by omega, by omega⟩

theorem bitmap_find_free_go_some (s : FrameState) :
    ∀ (r i page : Nat), bitmap_find_free_go s i r = some page →
      bitmap_test s page = false ∧ i * 64 ≤ page ∧ page < (i + r) * 64 := by
  intro r
  induction r with
  | zero => intro i page h; simp [bitmap_find_free_go] at h
  | succ r ih =>
    intro i page h
    rw [bitmap_find_free_go] at h
    by_cases hw : s.word i ≠ MASK64
    · rw [if_pos hw] at h
      rcases hscan : bitmap_scan_word (s.word i) 0 64 with _ | j
      · rw [hscan] at h
        have := ih (i + 1) page h
        exact ⟨this.1, by omega, by omega⟩
      · rw [hscan] at h
        cases h
        have hj := bitmap_scan_word_some (s.word i) 64 0 j hscan
        have hdiv : (i * 64 + j) / 64 = i := by omega
        have hmod : (i * 64 + j) % 64 = j := by omega
        refine ⟨?_, by omega, by omega⟩
        rw [bitmap_test, hdiv, hmod]
        simp [hj.1]
    · rw [if_neg hw] at h
      have := ih (i + 1) page h
      exact ⟨this.1, by omega, by omega⟩

theorem bitmap_find_free_some (s : FrameState) (page : Nat)
    (h : bitmap_find_free s = some page) :
    bitmap_test s page = false ∧ page < 64 * s.bitmapEntries := by
  have := bitmap_find_free_go_some s s.bitmapEntries 0 page h
  exact ⟨this.1, by omega⟩

theorem bfc_go_sound (s : FrameState) (n : Nat) (hn : 2 ≤ n) :
    ∀ (r i start count : Nat), i + r = s.totalPages → count < n →
      (count ≠ 0 → start + count = i ∧ ∀ k, k < count → bitmap_test s (start + k) = false) →
      ∀ st, bitmap_find_free_contiguous_go s n i r start count = some st →
        (∀ k, k < n → bitmap_test s (st + k) = false) ∧ st + n ≤ s.totalPages := by
  intro r
  induction r with
  | zero =>
    intro i start count _ _ _ st h
    simp [bitmap_find_free_contiguous_go] at h
  | succ r ih =>
    intro i start count hir hcount hrun st h
    rw [bitmap_find_free_contiguous_go] at h
    cases htest : bitmap_test s i with
    | false =>
      simp only [htest, Bool.not_false, if_true] at h
      by_cases hfull : n ≤ count + 1
      · rw [if_pos hfull] at h
        have hceq : count + 1 = n := by omega
        have hcnz : count ≠ 0 := by omega
        obtain ⟨hstart, hfree⟩ := hrun hcnz
        have hst : st = start := by
          by_cases hc0 : count = 0
          · omega
          · simpa [hc0] using h.symm
        subst hst
        refine ⟨?_, by omega⟩
        intro k hk
        by_cases hklt : k < count
        · exact hfree k hklt
        · have : k = count := by omega
          subst this
          rw [hstart]
          exact htest
      · rw [if_neg hfull] at h
        apply ih (i + 1) (if count = 0 then i else start) (count + 1)
          (by omega) (by omega) ?_ st h
        intro _
        constructor
        · by_cases hc0 : count = 0
          · rw [if_pos hc0]; omega
          · rw [if_neg hc0]; have := (hrun hc0).1; omega
        · intro k hk
          by_cases hc0 : count = 0
          · have : k = 0 := by omega
            subst this
            simpa [hc0] using htest
          · simp only [hc0, if_false]
            by_cases hklt : k < count
            · exact (hrun hc0).2 k hklt
            · have hkeq : k = count := by omega
              subst hkeq
              rw [(hrun hc0).1]
              exact htest
    | true =>
      simp only [htest, Bool.not_true, if_false] at h
      exact ih (i + 1) start 0 (by omega) (by omega) (by simp) st h

theorem bfc_go_none (s : FrameState) (n : Nat) (hn : 2 ≤ n) :
    ∀ (r i start count : Nat), i + r = s.totalPages → count < n →
      (count ≠ 0 → start + count = i ∧
        (∀ k, k < count → bitmap_test s (start + k) = false) ∧
        (start = 0 ∨ bitmap_test s (start - 1) = true)) →
      (count = 0 → i = 0 ∨ bitmap_test s (i - 1) = true) →
      (∀ w, w + n ≤ i → ∃ k, k < n ∧ bitmap_test s (w + k) = true) →
      bitmap_find_free_contiguous_go s n i r start count = none →
      ∀ w, w + n ≤ s.totalPages → ∃ k, k < n ∧ bitmap_test s (w + k) = true := by
  intro r
  induction r with
  | zero =>
    intro i start count hir _ _ _ hcomp _ w hw
    exact hcomp w (by omega)
  | succ r ih =>
    intro i start count hir hcount hrun hzero hcomp h
    rw [bitmap_find_free_contiguous_go] at h
    cases htest : bitmap_test s i with
    | false =>
      simp only [htest, Bool.not_false, if_true] at h
      by_cases hfull : n ≤ count + 1
      · rw [if_pos hfull] at h
        cases h
      · rw [if_neg hfull] at h
        apply ih (i + 1) (if count = 0 then i else start) (count + 1)
          (by omega) (by omega) ?_ (by omega) ?_ h
        · intro _
          refine ⟨?_, ?_, ?_⟩
          · by_cases hc0 : count = 0
            · rw [if_pos hc0]; omega
            · rw [if_neg hc0]; have := (hrun hc0).1; omega
          · intro k hk
            by_cases hc0 : count = 0
            · have : k = 0 := by omega
              subst this
              simpa [hc0] using htest
            · simp only [hc0, if_false]
              by_cases hklt : k < count
              · exact (hrun hc0).2.1 k hklt
              · have hkeq : k = count := by omega
                subst hkeq
                rw [(hrun hc0).1]
                exact htest
          · by_cases hc0 : count = 0
            · simpa [hc0] using hzero hc0
            · simpa [hc0] using (hrun hc0).2.2
        · intro w hw
          by_cases hwi : w + n ≤ i
          · exact hcomp w hwi
          · have hweq : w + n = i + 1 := by omega
            have hstart : (if count = 0 then i else start) + (count + 1) = i + 1 := by
              by_cases hc0 : count = 0
              · rw [if_pos hc0]; omega
              · rw [if_neg hc0]; have := (hrun hc0).1; omega
            set start' := if count = 0 then i else start with hstart'
            have hw_lt : w < start' := by omega
            have hs1 : start' = 0 ∨ bitmap_test s (start' - 1) = true := by
              by_cases hc0 : count = 0
              · simpa [hstart', hc0] using hzero hc0
              · simpa [hstart', hc0] using (hrun hc0).2.2
            rcases hs1 with h0 | hprev
            · omega
            · exact ⟨start' - 1 - w, by omega, by
                have : w + (start' - 1 - w) = start' - 1 := by omega
                rw [this]; exact hprev⟩
    | true =>
      simp only [htest, Bool.not_true, if_false] at h
      apply ih (i + 1) start 0 (by omega) (by omega) (by simp) ?_ ?_ h
      · intro _
        right
        simpa using htest
      · intro w hw
        by_cases hwi : w + n ≤ i
        · exact hcomp w hwi
        · have hweq : w + n = i + 1 := by omega
          exact ⟨n - 1, by omega, by
            have : w + (n - 1) = i := by omega
            rw [this]; exact htest⟩

theorem bitmap_find_free_contiguous_sound (s : FrameState) (n : Nat) (hn : 2 ≤ n)
    (page : Nat) (h : bitmap_find_free_contiguous s n = some page) :
    (∀ k, k < n → bitmap_test s (page + k) = false) ∧ page + n ≤ s.totalPages := by
  rw [bitmap_find_free_contiguous, if_neg (by omega), if_neg (by omega)] at h
  exact bfc_go_sound s n hn s.totalPages 0 0 0 (by omega) (by omega) (by simp) page h

theorem bitmap_find_free_contiguous_none (s : FrameState) (n : Nat) (hn : 2 ≤ n)
    (h : bitmap_find_free_contiguous s n = none) :
    ∀ w, w + n ≤ s.totalPages → ∃ k, k < n ∧ bitmap_test s (w + k) = true := by
  rw [bitmap_find_free_contiguous, if_neg (by omega), if_neg (by omega)] at h
  exact bfc_go_none s n hn s.totalPages 0 0 0 (by omega) (by omega) (by simp)
    (by intro _; left; rfl) (by intro w hw; omega) h

theorem foldl_bitmap_set_spec (s : FrameState) (page : Nat) :
    ∀ n : Nat, (∀ i, i < n → (page + i) / 64 < s.bitmap.length) →
      (∀ i, i < n → bitmap_test s (page + i) = false) →
      ((List.range n).foldl (fun st i => bitmap_set st (page + i)) s).bitmap.length
          = s.bitmap.length ∧
      ((List.range n).foldl (fun st i => bitmap_set st (page + i)) s).usedPages
          = s.usedPages ∧
      ((List.range n).foldl (fun st i => bitmap_set st (page + i)) s).totalPages
          = s.totalPages ∧
      ((List.range n).foldl (fun st i => bitmap_set st (page + i)) s).bitmapEntries
          = s.bitmapEntries ∧
      popcountBitmap ((List.range n).foldl (fun st i => bitmap_set st (page + i)) s)
          = popcountBitmap s + n ∧
      (∀ k, bitmap_test ((List.range n).foldl (fun st i => bitmap_set st (page + i)) s) k
          = (decide (page ≤ k ∧ k < page + n) || bitmap_test s k)) := by
  intro n
  induction n with
  | zero =>
    intro _ _
    refine ⟨rfl, rfl, rfl, rfl, rfl, ?_⟩
    intro k
    simp
  | succ n ih =>
    intro hlen hfree
    obtain ⟨ihlen, ihused, ihtot, ihent, ihpop, ihtest⟩ :=
      ih (fun i hi => hlen i (by omega)) (fun i hi => hfree i (by omega))
    set sn := (List.range n).foldl (fun st i => bitmap_set st (page + i)) s with hsn
    have hstep : (List.range (n + 1)).foldl (fun st i => bitmap_set st (page + i)) s
        = bitmap_set sn (page + n) := by
      rw [List.range_succ, List.foldl_append, List.foldl_cons, List.foldl_nil]
    have hlen_n : (page + n) / 64 < sn.bitmap.length := by
      rw [ihlen]; exact hlen n (by omega)
    have hfree_n : bitmap_test sn (page + n) = false := by
      rw [ihtest]
      simp only [Bool.or_eq_false_iff]
      exact ⟨by simp, hfree n (by omega)⟩
    rw [hstep]
    refine ⟨?_, ?_, ?_, ?_, ?_, ?_⟩
    · rw [bitmap_length_set, ihlen]
    · rw [show (bitmap_set sn (page + n)).usedPages = sn.usedPages from rfl, ihused]
    · rw [totalPages_set, ihtot]
    · rw [show (bitmap_set sn (page + n)).bitmapEntries = sn.bitmapEntries from rfl, ihent]
    · rw [popcount_bitmap_set sn (page + n) hlen_n hfree_n, ihpop]
      omega
    · intro k
      rw [bitmap_test_set sn (page + n) k hlen_n, ihtest]
      by_cases hk : k = page + n
      · subst hk
        simp [hfree n (by omega)]
      · rw [if_neg hk]
        by_cases hin : page ≤ k ∧ k < page + n
        · have h2 : page ≤ k ∧ k < page + (n + 1) := by omega
          simp only [decide_eq_true hin, decide_eq_true h2]
        · have h1 : ¬(page ≤ k ∧ k < page + (n + 1)) := by omega
          simp only [decide_eq_false hin, decide_eq_false h1]


theorem U64_eq : U64 = 18446744073709551616 := by norm_num [U64]

@[simp] theorem bitmap_set_bitmapEntries (s : FrameState) (i : Nat) :
    (bitmap_set s i).bitmapEntries = s.bitmapEntries := rfl

@[simp] theorem bitmap_set_totalPages' (s : FrameState) (i : Nat) :
    (bitmap_set s i).totalPages = s.totalPages := rfl

@[simp] theorem bitmap_set_usedPages (s : FrameState) (i : Nat) :
    (bitmap_set s i).usedPages = s.usedPages := rfl

@[simp] theorem bitmap_clear_bitmapEntries (s : FrameState) (i : Nat) :
    (bitmap_clear s i).bitmapEntries = s.bitmapEntries := rfl

@[simp] theorem bitmap_clear_totalPages (s : FrameState) (i : Nat) :
    (bitmap_clear s i).totalPages = s.totalPages := rfl

@[simp] theorem bitmap_clear_usedPages (s : FrameState) (i : Nat) :
    (bitmap_clear s i).usedPages = s.usedPages := rfl

@[simp] theorem bitmap_clear_length (s : FrameState) (i : Nat) :
    (bitmap_clear s i).bitmap.length = s.bitmap.length := by
  simp [bitmap_clear]

@[simp] theorem popcountBitmap_withUsed (s : FrameState) (u : Nat) :
    popcountBitmap { s with usedPages := u } = popcountBitmap s := rfl

@[simp] theorem bitmap_test_withUsed (s : FrameState) (u k : Nat) :
    bitmap_test { s with usedPages := u } k = bitmap_test s k := rfl

theorem frameWF_withUsed (s : FrameState) (u : Nat) :
    FrameWF { s with usedPages := u } ↔ FrameWF s := Iff.rfl

theorem popcount_lt_U64 (s : FrameState) (hWF : FrameWF s) :
    popcountBitmap s ≤ 64 * s.bitmapEntries ∧ 64 * s.bitmapEntries < U64 := by
  obtain ⟨hlen, _, hent⟩ := hWF
  have h1 : popcountBitmap s ≤ 64 * s.bitmap.length := popSum_le s.bitmap
  rw [hlen] at h1
  have hent' : s.bitmapEntries < 4294967296 := hent
  exact ⟨h1, by rw [U64_eq]; omega⟩

theorem mm_alloc_page_inv (s : FrameState) (hWF : FrameWF s) (hInv : FrameInv s) :
    FrameWF (mm_alloc_page s).2 ∧ FrameInv (mm_alloc_page s).2 := by
  obtain ⟨hlen, htot, hent⟩ := hWF
  rcases hfind : bitmap_find_free s with _ | page
  · simp only [mm_alloc_page, hfind]
    exact ⟨⟨hlen, htot, hent⟩, hInv⟩
  · obtain ⟨hfree, hrange⟩ := bitmap_find_free_some s page hfind
    have hplen : page / 64 < s.bitmap.length := by rw [hlen]; omega
    have hpop := popcount_bitmap_set s page hplen hfree
    obtain ⟨hple, hltU⟩ := popcount_lt_U64 s ⟨hlen, htot, hent⟩
    simp only [mm_alloc_page, hfind]
    refine ⟨⟨?_, ?_, ?_⟩, ?_⟩
    · show (bitmap_set s page).bitmap.length = s.bitmapEntries
      rw [bitmap_length_set]; exact hlen
    · show s.totalPages ≤ 64 * s.bitmapEntries
      exact htot
    · show s.bitmapEntries < 2 ^ 32
      exact hent
    · show (s.usedPages + 1) % U64 = popcountBitmap (bitmap_set s page)
      rw [hInv, hpop, Nat.mod_eq_of_lt (by rw [U64_eq] at hltU ⊢; omega)]

theorem mm_alloc_pages_inv (s : FrameState) (n : Nat)
    (hWF : FrameWF s) (hInv : FrameInv s) :
    FrameWF (mm_alloc_pages s n).2 ∧ FrameInv (mm_alloc_pages s n).2 := by
  obtain ⟨hlen, htot, hent⟩ := hWF
  rcases hfind : bitmap_find_free_contiguous s n with _ | page
  · simp only [mm_alloc_pages, hfind]
    exact ⟨⟨hlen, htot, hent⟩, hInv⟩
  · have hbits : (∀ k, k < n → bitmap_test s (page + k) = false) ∧
        (∀ k, k < n → (page + k) / 64 < s.bitmap.length) ∧ n ≤ 64 * s.bitmapEntries := by
      rcases Nat.lt_or_ge n 2 with h2 | h2
      · match n, h2 with
        | 0, _ => simp [bitmap_find_free_contiguous] at hfind
        | 1, _ =>
          rw [bitmap_find_free_contiguous, if_neg (by omega), if_pos rfl] at hfind
          obtain ⟨hfree1, hrange1⟩ := bitmap_find_free_some s page hfind
          refine ⟨?_, ?_, by omega⟩
          · intro k hk
            have hk0 : k = 0 := by omega
            subst hk0
            simpa using hfree1
          · intro k hk
            have hk0 : k = 0 := by omega
            subst hk0
            rw [hlen]
            omega
      · obtain ⟨hfree2, hrange2⟩ := bitmap_find_free_contiguous_sound s n h2 page hfind
        refine ⟨hfree2, ?_, by omega⟩
        intro k hk
        rw [hlen]
        have hlt : page + k < 64 * s.bitmapEntries := by omega
        omega
    obtain ⟨hfree, hklen, hn⟩ := hbits
    set sn := (List.range n).foldl (fun st i => bitmap_set st (page + i)) s with hsn
    obtain ⟨flen, fused, ftot, fent, fpop, _⟩ :=
      foldl_bitmap_set_spec s page n hklen hfree
    obtain ⟨hple, hltU⟩ := popcount_lt_U64 s ⟨hlen, htot, hent⟩
    have hs2 : (mm_alloc_pages s n).2 = { sn with usedPages := (sn.usedPages + n) % U64 } := by
      simp only [mm_alloc_pages, hfind]
    rw [hs2]
    constructor
    · rw [frameWF_withUsed]
      exact ⟨by rw [flen, hlen, fent], by rw [ftot, fent]; exact htot,
        by rw [fent]; exact hent⟩
    · unfold FrameInv
      rw [popcountBitmap_withUsed]
      show (sn.usedPages + n) % U64 = popcountBitmap sn
      rw [fused, hInv, fpop, Nat.mod_eq_of_lt (by rw [U64_eq] at hltU ⊢; omega)]

theorem mm_free_page_inv (s : FrameState) (addr : Nat)
    (hWF : FrameWF s) (hInv : FrameInv s)
    (htest : bitmap_test s (addr / PAGE_SIZE) = true) :
    FrameWF (mm_free_page s addr) ∧ FrameInv (mm_free_page s addr) ∧
      (∀ k, k ≠ addr / PAGE_SIZE →
        bitmap_test (mm_free_page s addr) k = bitmap_test s k) := by
  obtain ⟨hlen, htot, hent⟩ := hWF
  simp only [mm_free_page]
  by_cases h1 : addr < managed_memory_start
  · rw [if_pos h1]
    exact ⟨⟨hlen, htot, hent⟩, hInv, fun _ _ => rfl⟩
  · rw [if_neg h1]
    by_cases h2 : s.totalPages ≤ addr / PAGE_SIZE
    · rw [if_pos h2]
      exact ⟨⟨hlen, htot, hent⟩, hInv, fun _ _ => rfl⟩
    · rw [if_neg h2]
      have hplen : addr / PAGE_SIZE / 64 < s.bitmap.length := by
        rw [hlen]
        have hp : addr / PAGE_SIZE < 64 * s.bitmapEntries := by omega
        omega
      have hpop := popcount_bitmap_clear s (addr / PAGE_SIZE) hplen htest
      have hpos := popcount_pos_of_test s (addr / PAGE_SIZE) hplen htest
      obtain ⟨hple, hltU⟩ := popcount_lt_U64 s ⟨hlen, htot, hent⟩
      refine ⟨⟨?_, ?_, ?_⟩, ?_, ?_⟩
      · show (bitmap_clear s (addr / PAGE_SIZE)).bitmap.length = s.bitmapEntries
        rw [bitmap_clear_length]; exact hlen
      · show s.totalPages ≤ 64 * s.bitmapEntries
        exact htot
      · show s.bitmapEntries < 2 ^ 32
        exact hent
      · unfold FrameInv
        rw [popcountBitmap_withUsed]
        show ((bitmap_clear s (addr / PAGE_SIZE)).usedPages + (U64 - 1)) % U64
            = popcountBitmap (bitmap_clear s (addr / PAGE_SIZE))
        rw [bitmap_clear_usedPages, hInv]
        rw [U64_eq] at hltU ⊢
        omega
      · intro k hk
        rw [bitmap_test_withUsed]
        rw [bitmap_test_clear s (addr / PAGE_SIZE) k hplen, if_neg hk]

theorem mm_free_pages_inv (s : FrameState) (addr : Nat) :
    ∀ n, FrameWF s → FrameInv s →
      (∀ i, i < n → bitmap_test s (addr / PAGE_SIZE + i) = true) →
      FrameWF (mm_free_pages s addr n) ∧ FrameInv (mm_free_pages s addr n) ∧
        (∀ k, (∀ i, i < n → k ≠ addr / PAGE_SIZE + i) →
          bitmap_test (mm_free_pages s addr n) k = bitmap_test s k) := by
  intro n
  induction n with
  | zero =>
    intro hWF hInv _
    exact ⟨hWF, hInv, fun _ _ => rfl⟩
  | succ n ih =>
    intro hWF hInv htests
    obtain ⟨ihWF, ihInv, ihtests⟩ := ih hWF hInv (fun i hi => htests i (by omega))
    have hstep : mm_free_pages s addr (n + 1)
        = mm_free_page (mm_free_pages s addr n) (addr + n * PAGE_SIZE) := by
      rw [mm_free_pages, mm_free_pages, List.range_succ, List.foldl_append,
        List.foldl_cons, List.foldl_nil]
    have hpage : (addr + n * PAGE_SIZE) / PAGE_SIZE = addr / PAGE_SIZE + n := by
      show (addr + n * 4096) / 4096 = addr / 4096 + n
      omega
    have htestn : bitmap_test (mm_free_pages s addr n) ((addr + n * PAGE_SIZE) / PAGE_SIZE)
        = true := by
      rw [hpage, ihtests (addr / PAGE_SIZE + n) (fun i hi => by omega)]
      exact htests n (by omega)
    obtain ⟨sWF, sInv, stests⟩ :=
      mm_free_page_inv (mm_free_pages s addr n) (addr + n * PAGE_SIZE) ihWF ihInv htestn
    rw [hstep]
    refine ⟨sWF, sInv, ?_⟩
    intro k hk
    rw [stests k (by rw [hpage]; exact hk n (by omega)),
      ihtests k (fun i hi => hk i (by omega))]

/-! ## Claims C5 and C7 -/

/-- Counterexample to claim C5: starting from `mm_init` with 16 MiB
(kernel at 1..2 MiB, bitmap page at 4 MiB) and calling `mm_free_page` on
the free frame at 3 MiB (an allowed call in "any sequence"), `used_pages`
is decremented although no bitmap bit changes, so
`free_frame_count = total_frames - popcount(bitmap)` no longer holds. -/
theorem C5_counterexample :
    mm_get_free_pages
        (mm_free_page (mm_init 16384 0xFFFFFFFF80100000 0xFFFFFFFF80200000) 0x300000)
      ≠ mm_get_total_pages
          (mm_free_page (mm_init 16384 0xFFFFFFFF80100000 0xFFFFFFFF80200000) 0x300000)
        - popcountBitmap
            (mm_free_page (mm_init 16384 0xFFFFFFFF80100000 0xFFFFFFFF80200000) 0x300000) := by
  decide

/-- Claim C5 (amended): `free_frame_count() = total_frames - popcount(bitmap)`
holds after frame-allocator init and is preserved by every `mm_alloc_page`,
`mm_alloc_pages`, `mm_free_page` and `mm_free_pages` call, provided each
free targets currently-allocated frames; a free of an already-free frame
(`mm_free_page` silently decrements `used_pages` without clearing any bit)
breaks the equation.  Stated as: (1) the used-count invariant `FrameInv`
implies the claimed equation; (2) `FrameInv` holds after `mm_init` with
16 MiB; (3)-(6) each operation preserves `FrameInv` (frees under the
allocated-target proviso). -/
theorem C5_free_count_invariant :
    (∀ s : FrameState, FrameWF s → FrameInv s → popcountBitmap s ≤ s.totalPages →
      mm_get_free_pages s = mm_get_total_pages s - popcountBitmap s)
    ∧ (FrameWF (mm_init 16384 0xFFFFFFFF80100000 0xFFFFFFFF80200000)
        ∧ FrameInv (mm_init 16384 0xFFFFFFFF80100000 0xFFFFFFFF80200000))
    ∧ (∀ s : FrameState, FrameWF s → FrameInv s →
        FrameWF (mm_alloc_page s).2 ∧ FrameInv (mm_alloc_page s).2)
    ∧ (∀ (s : FrameState) (n : Nat), FrameWF s → FrameInv s →
        FrameWF (mm_alloc_pages s n).2 ∧ FrameInv (mm_alloc_pages s n).2)
    ∧ (∀ (s : FrameState) (addr : Nat), FrameWF s → FrameInv s →
        bitmap_test s (addr / PAGE_SIZE) = true →
        FrameWF (mm_free_page s addr) ∧ FrameInv (mm_free_page s addr))
    ∧ (∀ (s : FrameState) (addr n : Nat), FrameWF s → FrameInv s →
        (∀ i, i < n → bitmap_test s (addr / PAGE_SIZE + i) = true) →
        FrameWF (mm_free_pages s addr n) ∧ FrameInv (mm_free_pages s addr n)) := by
  refine ⟨?_, ⟨⟨by decide, by decide, by decide⟩, by decide⟩, ?_, ?_, ?_, ?_⟩
  · intro s hWF hInv hple2
    obtain ⟨hlen, htot, hent⟩ := hWF
    obtain ⟨hple, hltU⟩ := popcount_lt_U64 s ⟨hlen, htot, hent⟩
    unfold mm_get_free_pages mm_get_total_pages
    rw [hInv]
    rw [U64_eq] at hltU ⊢
    omega
  · exact fun s hWF hInv => mm_alloc_page_inv s hWF hInv
  · exact fun s n hWF hInv => mm_alloc_pages_inv s n hWF hInv
  · exact fun s addr hWF hInv htest =>
      ⟨(mm_free_page_inv s addr hWF hInv htest).1, (mm_free_page_inv s addr hWF hInv htest).2.1⟩
  · exact fun s addr n hWF hInv htests =>
      ⟨(mm_free_pages_inv s addr n hWF hInv htests).1,
       (mm_free_pages_inv s addr n hWF hInv htests).2.1⟩

/-- Witness for claim C5's theorem at concrete states: the equation at the
all-free one-word allocator, and preservation across a valid `mm_free_page`
of frame 256 (address `0x100000`). -/
theorem C5_witness :
    mm_get_free_pages ⟨[0], 1, 64, 0⟩
        = mm_get_total_pages ⟨[0], 1, 64, 0⟩ - popcountBitmap ⟨[0], 1, 64, 0⟩
    ∧ (FrameWF (mm_free_page ⟨[0, 0, 0, 0, 1], 5, 320, 1⟩ 0x100000)
        ∧ FrameInv (mm_free_page ⟨[0, 0, 0, 0, 1], 5, 320, 1⟩ 0x100000)) :=
  ⟨C5_free_count_invariant.1 ⟨[0], 1, 64, 0⟩ ⟨by decide, by decide, by decide⟩
      (by decide) (by decide),
   C5_free_count_invariant.2.2.2.2.1 ⟨[0, 0, 0, 0, 1], 5, 320, 1⟩ 0x100000
      ⟨by decide, by decide, by decide⟩ (by decide) (by decide)⟩

/-- Counterexample to claim C7: with one 64-bit bitmap word, a single frame
(`total_pages = 1`) that is allocated, `mm_alloc_pages 1` does not return
the failure value: the first-fit delegate scans all 64 bits of the word,
treats the padding bit at index 1 (beyond `total_pages`) as a free frame,
and returns address `0x1000`, although no free frame exists in the bitmap's
frame range. -/
theorem C7_counterexample :
    (∀ f, f < mm_get_total_pages ⟨[1], 1, 1, 1⟩ → bitmap_test ⟨[1], 1, 1, 1⟩ f = true)
    ∧ (mm_alloc_pages ⟨[1], 1, 1, 1⟩ 1).1 = 0x1000
    ∧ mm_get_total_pages ⟨[1], 1, 1, 1⟩ ≤ 0x1000 / PAGE_SIZE := by
  refine ⟨?_, by decide, by decide⟩
  intro f hf
  have hf0 : f = 0 := by
    have : mm_get_total_pages ⟨[1], 1, 1, 1⟩ = 1 := rfl
    omega
  subst hf0
  decide

/-- Claim C7 (amended): for every `n ≥ 2`, `mm_alloc_pages n` either
returns `page * PAGE_SIZE` where frames `page .. page+n-1` lie below
`total_pages`, were all free immediately before and are all allocated
immediately after, or returns the failure value with the state unchanged
when no run of `n` contiguous free frames exists among frames
`0 .. total_pages - 1` (the scan resumes after each allocated frame, which
is what the completeness disjunct expresses).  For `n = 1` the delegated
first-fit scan also treats the padding bits of the final bitmap word
(frame indices at or beyond `total_pages`) as free, so it may return such
an out-of-range frame instead of failing. -/
theorem C7_alloc_pages_contiguous (s : FrameState) (n : Nat) (h2 : 2 ≤ n)
    (hWF : FrameWF s) :
    (∃ page, bitmap_find_free_contiguous s n = some page ∧
      (mm_alloc_pages s n).1 = page * PAGE_SIZE ∧
      page + n ≤ s.totalPages ∧
      (∀ i, i < n → bitmap_test s (page + i) = false) ∧
      (∀ i, i < n → bitmap_test (mm_alloc_pages s n).2 (page + i) = true))
    ∨ (bitmap_find_free_contiguous s n = none ∧ mm_alloc_pages s n = (0, s) ∧
      ∀ start, start + n ≤ s.totalPages →
        ∃ k, k < n ∧ bitmap_test s (start + k) = true) := by
  obtain ⟨hlen, htot, hent⟩ := hWF
  rcases hfind : bitmap_find_free_contiguous s n with _ | page
  · right
    refine ⟨rfl, ?_, bitmap_find_free_contiguous_none s n h2 hfind⟩
    simp only [mm_alloc_pages, hfind]
  · left
    obtain ⟨hfree, hrange⟩ := bitmap_find_free_contiguous_sound s n h2 page hfind
    have hklen : ∀ k, k < n → (page + k) / 64 < s.bitmap.length := by
      intro k hk
      rw [hlen]
      have : page + k < 64 * s.bitmapEntries := by omega
      omega
    obtain ⟨flen, fused, ftot, fent, fpop, ftest⟩ :=
      foldl_bitmap_set_spec s page n hklen hfree
    refine ⟨page, rfl, ?_, hrange, hfree, ?_⟩
    · simp only [mm_alloc_pages, hfind]
    · intro i hi
      have hs2 : (mm_alloc_pages s n).2
          = { (List.range n).foldl (fun st i => bitmap_set st (page + i)) s with
              usedPages := (((List.range n).foldl (fun st i => bitmap_set st (page + i)) s).usedPages + n) % U64 } := by
        simp only [mm_alloc_pages, hfind]
      rw [hs2, bitmap_test_withUsed, ftest]
      simp
      omega

/-- Witness for claim C7's theorem: allocator with one word `0b1011`
(frames 0, 1, 3 allocated, 8 frames total); a request for 2 contiguous
frames must skip past the free frame 2 (blocked by frame 3) and succeed
at frames 4-5, exactly as the theorem's success disjunct states. -/
theorem C7_witness :
    (mm_alloc_pages ⟨[11], 1, 8, 3⟩ 2).1 = 4 * PAGE_SIZE
    ∧ bitmap_test ⟨[11], 1, 8, 3⟩ 4 = false
    ∧ bitmap_test (mm_alloc_pages ⟨[11], 1, 8, 3⟩ 2).2 4 = true
    ∧ bitmap_test (mm_alloc_pages ⟨[11], 1, 8, 3⟩ 2).2 5 = true := by
  have h := C7_alloc_pages_contiguous ⟨[11], 1, 8, 3⟩ 2 (by decide)
    ⟨by decide, by decide, by decide⟩
  rcases h with ⟨page, hfind, haddr, hrange, hfree, htrue⟩ | ⟨hnone, _, _⟩
  · have hp : page = 4 := by
      rw [show bitmap_find_free_contiguous ⟨[11], 1, 8, 3⟩ 2 = some 4 from by decide] at hfind
      injection hfind with h'
      exact h'.symm
    subst hp
    exact ⟨haddr, hfree 0 (by decide), htrue 0 (by decide), htrue 1 (by decide)⟩
  · exact absurd hnone (by decide)

/-! ## Virtual address-space mapper (src/kernel/mm/paging.c)

Physical memory holding page tables is modelled as `mem : Nat → Nat → Nat`:
`mem f i` is 64-bit entry `i` of the page table stored in the physical
frame with base address `f`.  The source reads and writes intermediate
tables through the fixed recursive-mapping windows
(`PDP_SELF_REF + ((virt >> 39) & 0xFF8)` and so on, paging.c lines
314-337); under an intact recursive slot those windows address exactly the
physical table frame that the parent entry points to, which is what the
model reads (`parent entry &&& PAGE_MASK`).  The TLB-invalidate
instructions are cache effects outside the model. -/

abbrev PTMem := Nat → Nat → Nat

/-- One 64-bit entry write through a table window (`*entry = value`). -/
def wr (m : PTMem) (f i v : Nat) : PTMem :=
  fun f2 i2 => if f2 = f ∧ i2 = i then v else m f2 i2

/-- Zeroing the 512 entries of the table in frame `f` (the
`for (i = 0; i < 512; i++) table[i] = 0;` loops of map_page_internal). -/
def zt (m : PTMem) (f : Nat) : PTMem :=
  fun f2 i2 => if f2 = f then 0 else m f2 i2

/-- State of the mapper: the table memory, the PML4 frame (static
`pml4_table`, held at a fixed physical frame) and the frame allocator that
`alloc_physical_page` draws from. -/
structure PagingState where
  mem : PTMem
  pml4Phys : Nat
  frames : FrameState

/-- Page flag `PF_PRESENT` (paging.c line 23). -/
def PF_PRESENT : Nat := 0x0001

/-- Page flag `PF_WRITABLE`. -/
def PF_WRITABLE : Nat := 0x0002

/-- Page flag `PF_USER`. -/
def PF_USER : Nat := 0x0004

/-- Page flag `PF_WRITE_THROUGH`. -/
def PF_WRITE_THROUGH : Nat := 0x0008

/-- Page flag `PF_CACHE_DISABLE`. -/
def PF_CACHE_DISABLE : Nat := 0x0010

/-- Page flag `PF_GLOBAL`. -/
def PF_GLOBAL : Nat := 0x0100

/-- Page flag `PF_NX` (bit 63). -/
def PF_NX : Nat := 0x8000000000000000

/-- Portable flag `PTE_WRITABLE` (include/memory.h). -/
def PTE_WRITABLE : Nat := 2

/-- Portable flag `PTE_USER`. -/
def PTE_USER : Nat := 4

/-- Portable flag `PTE_WRITE_THROUGH`. -/
def PTE_WRITE_THROUGH : Nat := 8

/-- Portable flag `PTE_CACHE_DISABLE`. -/
def PTE_CACHE_DISABLE : Nat := 16

/-- Portable flag `PTE_GLOBAL`. -/
def PTE_GLOBAL : Nat := 256

/-- Portable flag `PTE_NX` (bit 63). -/
def PTE_NX : Nat := 0x8000000000000000

/-- Modelled from the spec: `alloc_physical_page` is declared in
`include/memory.h` and called by paging.c lines 118/135/152, but no
definition exists under `src/`.  Spec section 4.1's `alloc_frame()`:
"linear scan for the first zero bit (first-fit); sets it, decrements free
count, returns `frame_index * PAGE_SIZE`", returning the no-frame value
(`0`) on exhaustion — exactly the behaviour of `mm_alloc_page`, which the
model reuses. -/
def alloc_physical_page (s : FrameState) : Nat × FrameState :=
  mm_alloc_page s

/-- Bits 39-47 of the virtual address (`(virt >> 39) & 0x1FF`). -/
def pml4_index (virt : Nat) : Nat := (virt >>> 39) &&& 0x1FF

/-- Bits 30-38 of the virtual address. -/
def pdp_index (virt : Nat) : Nat := (virt >>> 30) &&& 0x1FF

/-- Bits 21-29 of the virtual address. -/
def pd_index (virt : Nat) : Nat := (virt >>> 21) &&& 0x1FF

/-- Bits 12-20 of the virtual address. -/
def pt_index (virt : Nat) : Nat := (virt >>> 12) &&& 0x1FF

/-- Lines 303-305 of paging.c: `*get_pml4_entry(virt)`. -/
def get_pml4_entry (s : PagingState) (virt : Nat) : Nat :=
  s.mem s.pml4Phys (pml4_index virt)

/-- Base address of the PDP table on `virt`'s path: the frame the present
PML4 entry points to (what the `PDP_SELF_REF` window resolves to). -/
def pdp_table_phys (s : PagingState) (virt : Nat) : Nat :=
  get_pml4_entry s virt &&& PAGE_MASK

/-- Lines 313-316 of paging.c: `*get_pdp_entry(virt)`. -/
def get_pdp_entry (s : PagingState) (virt : Nat) : Nat :=
  s.mem (pdp_table_phys s virt) (pdp_index virt)

/-- Base address of the PD table on `virt`'s path. -/
def pd_table_phys (s : PagingState) (virt : Nat) : Nat :=
  get_pdp_entry s virt &&& PAGE_MASK

/-- Lines 324-327 of paging.c: `*get_pd_entry(virt)`. -/
def get_pd_entry (s : PagingState) (virt : Nat) : Nat :=
  s.mem (pd_table_phys s virt) (pd_index virt)

/-- Base address of the leaf page table on `virt`'s path. -/
def pt_table_phys (s : PagingState) (virt : Nat) : Nat :=
  get_pd_entry s virt &&& PAGE_MASK

/-- Lines 335-338 of paging.c: `*get_pt_entry(virt)`. -/
def get_pt_entry (s : PagingState) (virt : Nat) : Nat :=
  s.mem (pt_table_phys s virt) (pt_index virt)

/-- Lines 276-295 of paging.c: `is_page_mapped`, the four-level presence
walk. -/
def is_page_mapped (s : PagingState) (virt : Nat) : Bool :=
  if get_pml4_entry s virt &&& PF_PRESENT = 0 then false
  else if get_pdp_entry s virt &&& PF_PRESENT = 0 then false
  else if get_pd_entry s virt &&& PF_PRESENT = 0 then false
  else get_pt_entry s virt &&& PF_PRESENT ≠ 0

/-- Lines 76-91 of paging.c: conversion of the portable `PTE_*` flags to
the hardware `PF_*` encoding, always including `PF_PRESENT`. -/
def entry_flags_of (flags : Nat) : Nat :=
  let f := PF_PRESENT
  let f := if flags &&& PTE_WRITABLE ≠ 0 then f ||| PF_WRITABLE else f
  let f := if flags &&& PTE_USER ≠ 0 then f ||| PF_USER else f
  let f := if flags &&& PTE_WRITE_THROUGH ≠ 0 then f ||| PF_WRITE_THROUGH else f
  let f := if flags &&& PTE_CACHE_DISABLE ≠ 0 then f ||| PF_CACHE_DISABLE else f
  let f := if flags &&& PTE_GLOBAL ≠ 0 then f ||| PF_GLOBAL else f
  if flags &&& PTE_NX ≠ 0 then f ||| PF_NX else f

/-- Lines 167-174 of paging.c: the final leaf write
`*pt_entry = (phys_addr & PAGE_MASK) | flags` (plus `invlpg`, outside the
model). -/
def map_page_leaf (s : PagingState) (phys virt flags : Nat) : Int × PagingState :=
  (0, { s with mem := (wr s.mem (pt_table_phys s virt) (pt_index virt)
      ((phys &&& PAGE_MASK) ||| flags)) })

/-- Lines 150-165 of paging.c: ensure the PD entry is present (allocating
and zeroing a fresh page table if not), then fall through to the leaf
write. -/
def map_page_level_pd (s : PagingState) (phys virt flags : Nat) : Int × PagingState :=
  if get_pd_entry s virt &&& PF_PRESENT = 0 then
    let r := alloc_physical_page s.frames
    if r.1 = 0 then (-1, { s with frames := r.2 })
    else
      map_page_leaf
        { s with
          mem := zt (wr s.mem (pd_table_phys s virt) (pd_index virt)
            (r.1 ||| (PF_PRESENT ||| PF_WRITABLE ||| PF_USER))) r.1,
          frames := r.2 } phys virt flags
  else map_page_leaf s phys virt flags

/-- Lines 133-148 of paging.c: ensure the PDP entry is present, then
continue at the PD level. -/
def map_page_level_pdp (s : PagingState) (phys virt flags : Nat) : Int × PagingState :=
  if get_pdp_entry s virt &&& PF_PRESENT = 0 then
    let r := alloc_physical_page s.frames
    if r.1 = 0 then (-1, { s with frames := r.2 })
    else
      map_page_level_pd
        { s with
          mem := zt (wr s.mem (pdp_table_phys s virt) (pdp_index virt)
            (r.1 ||| (PF_PRESENT ||| PF_WRITABLE ||| PF_USER))) r.1,
          frames := r.2 } phys virt flags
  else map_page_level_pd s phys virt flags

/-- Lines 105-175 of paging.c: `map_page_internal` — the already-mapped
overwrite fast path, then the PML4-level ensure followed by the lower
levels. -/
def map_page_internal (s : PagingState) (phys virt flags : Nat) : Int × PagingState :=
  if is_page_mapped s virt then
    (0, { s with mem := (wr s.mem (pt_table_phys s virt) (pt_index virt)
        ((phys &&& PAGE_MASK) ||| flags)) })
  else
    if get_pml4_entry s virt &&& PF_PRESENT = 0 then
      let r := alloc_physical_page s.frames
      if r.1 = 0 then (-1, { s with frames := r.2 })
      else
        map_page_level_pdp
          { s with
            mem := zt (wr s.mem s.pml4Phys (pml4_index virt)
              (r.1 ||| (PF_PRESENT ||| PF_WRITABLE ||| PF_USER))) r.1,
            frames := r.2 } phys virt flags
    else map_page_level_pdp s phys virt flags

/-- Lines 71-95 of paging.c: `map_page` — masks both addresses to page
boundaries, converts the flags, and calls `map_page_internal`. -/
def map_page (s : PagingState) (phys virt flags : Nat) : Int × PagingState :=
  map_page_internal s (phys &&& PAGE_MASK) (virt &&& PAGE_MASK) (entry_flags_of flags)

/-- Lines 183-197 of paging.c: `unmap_page` — fails with -1 when the page
is not mapped, otherwise zeroes the leaf entry. -/
def unmap_page (s : PagingState) (virt : Nat) : Int × PagingState :=
  if ¬is_page_mapped s virt then (-1, s)
  else (0, { s with mem := wr s.mem (pt_table_phys s virt) (pt_index virt) 0 })

/-- Lines 205-216 of paging.c: `virtual_to_physical` — 0 when unmapped,
otherwise `(*pt_entry & PAGE_MASK) | (virt & PAGE_OFFSET_MASK)`. -/
def virtual_to_physical (s : PagingState) (virt : Nat) : Nat :=
  if ¬is_page_mapped s virt then 0
  else (get_pt_entry s virt &&& PAGE_MASK) ||| (virt &&& PAGE_OFFSET_MASK)

/-- Lines 236-239 of paging.c: the clean-up loop of `map_pages` —
`for (j = 0; j < i; j++) unmap_page(virt_addr - j * PAGE_SIZE)`, where
`virt` is the already-advanced loop variable at the failing iteration. -/
def unmap_cleanup (s : PagingState) (virt i : Nat) : PagingState :=
  (List.range i).foldl (fun st j => (unmap_page st (virt - j * PAGE_SIZE)).2) s

/-- Loop of `map_pages` (lines 233-245): `i` pages already mapped, `r`
remaining; on a failing `map_page` the clean-up loop runs and the error is
returned. -/
def map_pages_go (flags : Nat) :
    Nat → PagingState → Nat → Nat → Nat → Int × PagingState
  | 0, s, _, _, _ => (0, s)
  | r + 1, s, phys, virt, i =>
    let res := map_page s phys virt flags
    if res.1 ≠ 0 then (res.1, unmap_cleanup res.2 virt i)
    else map_pages_go flags r res.2 (phys + PAGE_SIZE) (virt + PAGE_SIZE) (i + 1)

/-- Lines 227-248 of paging.c: `map_pages count` — masks the start
addresses and maps the pages one by one. -/
def map_pages (s : PagingState) (phys virt count flags : Nat) : Int × PagingState :=
  map_pages_go flags count s (phys &&& PAGE_MASK) (virt &&& PAGE_MASK) 0

/-- A concrete mapper state: empty page tables (PML4 frame `0x1000`, all
entries zero) and a one-word frame allocator in which exactly the three
frames 10, 11, 12 (addresses `0xA000`-`0xC000`) are free — just enough for
one full intermediate-table chain. -/
def pagingTestState : PagingState where
  mem := fun _ _ => 0
  pml4Phys := 0x1000
  frames := ⟨[18446744073709544447], 1, 64, 61⟩

/-- Claim C4 fails as a code bug: mapping 2 pages at `virt = 0x1FF000`
(so the second page needs a fresh page table) with only three free frames
maps page 0, fails on page 1, and the clean-up loop
`unmap_page(virt_addr - j * PAGE_SIZE)` — with `virt_addr` already
advanced to the failing page — unmaps the failed page instead of page 0:
`map_pages` returns -1 yet `0x1FF000` remains mapped. -/
theorem C4_rollback_misses_first_page :
    (map_pages pagingTestState 0x9000 0x1FF000 2 PTE_WRITABLE).1 = -1
    ∧ is_page_mapped (map_pages pagingTestState 0x9000 0x1FF000 2 PTE_WRITABLE).2
        0x1FF000 = true := by
  decide

/-- Counterexample to claim C1: mapping with `flags = PTE_NX` succeeds,
but `virtual_to_physical` returns `phys | 2^63`, not `phys`:
`PAGE_MASK = 0xFFFFFFFFFFFFF000` keeps bit 63, so the NX bit of the leaf
entry survives the mask in `virtual_to_physical` (paging.c line 215). -/
theorem C1_counterexample :
    (map_page pagingTestState 0x9000 0x2000 PTE_NX).1 = 0
    ∧ virtual_to_physical (map_page pagingTestState 0x9000 0x2000 PTE_NX).2 0x2000
        ≠ 0x9000 := by
  decide

/-! ## Bit lemmas for the translation proof -/

theorem PAGE_MASK_testBit (i : Nat) :
    PAGE_MASK.testBit i = decide (12 ≤ i ∧ i < 64) := by
  show ((2 ^ 52 - 1) <<< 12).testBit i = decide (12 ≤ i ∧ i < 64)
  rw [Nat.testBit_shiftLeft, Nat.testBit_two_pow_sub_one]
  rcases Nat.lt_or_ge i 12 with h1 | h1
  · have hc : ¬(12 ≤ i ∧ i < 64) := by omega
    have h1' : ¬i ≥ 12 := by omega
    simp [hc, h1']
  · rcases Nat.lt_or_ge i 64 with h2 | h2
    · have hc : 12 ≤ i ∧ i < 64 := ⟨h1, h2⟩
      have h3 : i - 12 < 52 := by omega
      simp [hc, h3, h1]
    · have hc : ¬(12 ≤ i ∧ i < 64) := by omega
      have h3 : ¬(i - 12 < 52) := by omega
      simp [hc, h3]

theorem low_bit_zero (a i : Nat) (ha : a % PAGE_SIZE = 0) (hi : i < 12) :
    a.testBit i = false := by
  have h := Nat.testBit_mod_two_pow a 12 i
  have ha' : a % 2 ^ 12 = 0 := ha
  rw [ha'] at h
  simp only [Nat.zero_testBit] at h
  have := h.symm
  rw [decide_eq_true hi] at this
  simpa using this

theorem high_bit_zero (a i : Nat) (ha : a < 2 ^ 64) (hi : 64 ≤ i) :
    a.testBit i = false :=
  Nat.testBit_lt_two_pow (Nat.lt_of_lt_of_le ha (Nat.pow_le_pow_right (by decide) hi))

theorem mask_align (a : Nat) (ha : a % PAGE_SIZE = 0) (hlt : a < U64) :
    a &&& PAGE_MASK = a := by
  apply Nat.eq_of_testBit_eq
  intro i
  rw [Nat.testBit_land, PAGE_MASK_testBit]
  rcases Nat.lt_or_ge i 12 with h1 | h1
  · rw [low_bit_zero a i ha h1]
    simp
  · rcases Nat.lt_or_ge i 64 with h2 | h2
    · simp [h1, h2]
    · rw [high_bit_zero a i hlt h2]
      simp

theorem small_bit_zero (b i : Nat) (hb : b < PAGE_SIZE) (hi : 12 ≤ i) :
    b.testBit i = false := by
  have hb' : b < 2 ^ 12 := hb
  exact Nat.testBit_lt_two_pow
    (Nat.lt_of_lt_of_le hb' (Nat.pow_le_pow_right (by decide) hi))

theorem mask_or_small (a b : Nat) (ha : a % PAGE_SIZE = 0) (hlt : a < U64)
    (hb : b < PAGE_SIZE) : (a ||| b) &&& PAGE_MASK = a := by
  apply Nat.eq_of_testBit_eq
  intro i
  rw [Nat.testBit_land, Nat.testBit_lor, PAGE_MASK_testBit]
  rcases Nat.lt_or_ge i 12 with h1 | h1
  · rw [low_bit_zero a i ha h1]
    have hc : ¬(12 ≤ i ∧ i < 64) := by omega
    simp [hc]
  · rw [small_bit_zero b i hb h1]
    rcases Nat.lt_or_ge i 64 with h2 | h2
    · simp [h1, h2]
    · rw [high_bit_zero a i hlt h2]
      simp

theorem or_low_eq_add (a b : Nat) (ha : a % PAGE_SIZE = 0) (hb : b < PAGE_SIZE) :
    a ||| b = a + b := by
  have hmod : (a ||| b) % 4096 = b := by
    have hext : (a ||| b) % 2 ^ 12 = b := by
      apply Nat.eq_of_testBit_eq
      intro i
      rw [Nat.testBit_mod_two_pow, Nat.testBit_lor]
      rcases Nat.lt_or_ge i 12 with h1 | h1
      · rw [low_bit_zero a i ha h1, decide_eq_true h1]
        simp
      · rw [small_bit_zero b i hb h1]
        have hc : ¬i < 12 := by omega
        simp [hc]
    exact hext
  have hdiv : (a ||| b) / 4096 = a / 4096 := by
    have hext : (a ||| b) >>> 12 = a >>> 12 := by
      apply Nat.eq_of_testBit_eq
      intro i
      rw [Nat.testBit_shiftRight, Nat.testBit_shiftRight, Nat.testBit_lor,
        small_bit_zero b (12 + i) hb (by omega)]
      simp
    rw [Nat.shiftRight_eq_div_pow, Nat.shiftRight_eq_div_pow] at hext
    exact hext
  have ha4 : a % 4096 = 0 := ha
  have hb4 : b < 4096 := hb
  omega

theorem land_one_eq (w : Nat) : w &&& 1 = if w.testBit 0 then 1 else 0 := by
  have h := land_two_pow_eq w 0
  simpa using h

theorem or_present (a b : Nat) (hb : b &&& 1 = 1) : (a ||| b) &&& 1 ≠ 0 := by
  rw [land_one_eq] at hb ⊢
  rw [Nat.testBit_lor]
  by_cases h : b.testBit 0
  · simp [h]
  · simp [h] at hb

/-- The four path indices depend only on `virt / PAGE_SIZE`, so they agree
on every address of the same page. -/
theorem path_index_eq (virt k : Nat) (hv : virt % PAGE_SIZE = 0) (hk : k < PAGE_SIZE) :
    pml4_index (virt + k) = pml4_index virt ∧
    pdp_index (virt + k) = pdp_index virt ∧
    pd_index (virt + k) = pd_index virt ∧
    pt_index (virt + k) = pt_index virt := by
  have hv4 : virt % 4096 = 0 := hv
  have hk4 : k < 4096 := hk
  have h12 : (virt + k) >>> 12 = virt >>> 12 := by
    rw [Nat.shiftRight_eq_div_pow, Nat.shiftRight_eq_div_pow]
    show (virt + k) / 4096 = virt / 4096
    omega
  refine ⟨?_, ?_, ?_, ?_⟩
  · unfold pml4_index
    rw [show (39 : Nat) = 12 + 27 from rfl, Nat.shiftRight_add, h12, ← Nat.shiftRight_add]
  · unfold pdp_index
    rw [show (30 : Nat) = 12 + 18 from rfl, Nat.shiftRight_add, h12, ← Nat.shiftRight_add]
  · unfold pd_index
    rw [show (21 : Nat) = 12 + 9 from rfl, Nat.shiftRight_add, h12, ← Nat.shiftRight_add]
  · unfold pt_index
    rw [h12]

theorem offset_of_aligned (virt k : Nat) (hv : virt % PAGE_SIZE = 0) (hk : k < PAGE_SIZE) :
    (virt + k) &&& PAGE_OFFSET_MASK = k := by
  show (virt + k) &&& (2 ^ 12 - 1) = k
  rw [Nat.and_pow_two_sub_one_eq_mod]
  have hv4 : virt % 4096 = 0 := hv
  have hk4 : k < 4096 := hk
  show (virt + k) % 4096 = k
  omega

/-! ## Read-over-write lemmas for the table memory -/

theorem wr_ne_frame (m : PTMem) (f i v f2 i2 : Nat) (h : f2 ≠ f) :
    wr m f i v f2 i2 = m f2 i2 := by
  simp [wr, h]

theorem wr_hit (m : PTMem) (f i v : Nat) : wr m f i v f i = v := by
  simp [wr]

theorem zt_ne (m : PTMem) (f f2 i2 : Nat) (h : f2 ≠ f) : zt m f f2 i2 = m f2 i2 := by
  simp [zt, h]

theorem zt_hit (m : PTMem) (f i2 : Nat) : zt m f f i2 = 0 := by
  simp [zt]

/-- A frame address that the allocator bitmap records as allocated:
page-aligned, within the bitmap's bit range, with its bit set. -/
def Marked (fs : FrameState) (f : Nat) : Prop :=
  f % PAGE_SIZE = 0 ∧ f / PAGE_SIZE < 64 * fs.bitmapEntries ∧
    bitmap_test fs (f / PAGE_SIZE) = true

instance (fs : FrameState) (f : Nat) : Decidable (Marked fs f) := by
  unfold Marked; infer_instance

/-- Well-formedness of the mapper state along the path of `virt`: the
bitmap is structurally sound, the PML4 frame and every present
intermediate-table frame on `virt`'s path are allocator-marked, and the
present path frames are pairwise distinct.  This is the state shape
`vm_init` plus any sequence of mapper operations maintains. -/
def MapSafe (s : PagingState) (virt : Nat) : Prop :=
  s.frames.bitmap.length = s.frames.bitmapEntries ∧
  s.frames.bitmapEntries < 2 ^ 32 ∧
  Marked s.frames s.pml4Phys ∧
  (get_pml4_entry s virt &&& PF_PRESENT ≠ 0 →
    Marked s.frames (pdp_table_phys s virt) ∧ pdp_table_phys s virt ≠ s.pml4Phys) ∧
  (get_pml4_entry s virt &&& PF_PRESENT ≠ 0 → get_pdp_entry s virt &&& PF_PRESENT ≠ 0 →
    Marked s.frames (pd_table_phys s virt) ∧ pd_table_phys s virt ≠ s.pml4Phys ∧
      pd_table_phys s virt ≠ pdp_table_phys s virt) ∧
  (get_pml4_entry s virt &&& PF_PRESENT ≠ 0 → get_pdp_entry s virt &&& PF_PRESENT ≠ 0 →
    get_pd_entry s virt &&& PF_PRESENT ≠ 0 →
    Marked s.frames (pt_table_phys s virt) ∧ pt_table_phys s virt ≠ s.pml4Phys ∧
      pt_table_phys s virt ≠ pdp_table_phys s virt ∧
      pt_table_phys s virt ≠ pd_table_phys s virt)

/-- Success characterisation of the spec-modelled `alloc_physical_page`:
a nonzero result is a page-aligned address of a frame that was free, is in
the bitmap range, and becomes (exactly this frame) allocated. -/
theorem alloc_physical_page_fresh (fs : FrameState)
    (hlen : fs.bitmap.length = fs.bitmapEntries) (hent : fs.bitmapEntries < 2 ^ 32) :
    ∀ a fs2, alloc_physical_page fs = (a, fs2) → a ≠ 0 →
      a % PAGE_SIZE = 0 ∧ a < 2 ^ 51 ∧ bitmap_test fs (a / PAGE_SIZE) = false ∧
      a / PAGE_SIZE < 64 * fs.bitmapEntries ∧
      fs2.bitmap.length = fs.bitmapEntries ∧ fs2.bitmapEntries = fs.bitmapEntries ∧
      (∀ q, bitmap_test fs2 q = if q = a / PAGE_SIZE then true else bitmap_test fs q) := by
  intro a fs2 halloc hne
  rcases hfind : bitmap_find_free fs with _ | page
  · simp only [alloc_physical_page, mm_alloc_page, hfind] at halloc
    rw [Prod.mk.injEq] at halloc
    exact absurd halloc.1.symm hne
  · obtain ⟨hfree, hrange⟩ := bitmap_find_free_some fs page hfind
    simp only [alloc_physical_page, mm_alloc_page, hfind] at halloc
    rw [Prod.mk.injEq] at halloc
    have ha : a = page * PAGE_SIZE := halloc.1.symm
    have hs : fs2 = { bitmap_set fs page with
        usedPages := ((bitmap_set fs page).usedPages + 1) % U64 } := halloc.2.symm
    have hap : a / PAGE_SIZE = page := by
      rw [ha]
      exact Nat.mul_div_cancel page (by decide : 0 < PAGE_SIZE)
    have hplen : page / 64 < fs.bitmap.length := by rw [hlen]; omega
    refine ⟨by rw [ha]; exact Nat.mul_mod_left page PAGE_SIZE, ?_, ?_, ?_, ?_, ?_, ?_⟩
    · rw [ha]
      have hent' : fs.bitmapEntries < 4294967296 := hent
      show page * 4096 < 2 ^ 51
      omega
    · rw [hap]; exact hfree
    · rw [hap]; omega
    · rw [hs]
      show (bitmap_set fs page).bitmap.length = fs.bitmapEntries
      rw [bitmap_length_set]; exact hlen
    · rw [hs]; rfl
    · intro q
      rw [hs, hap]
      show bitmap_test (bitmap_set fs page) q = _
      rw [bitmap_test_set fs page q hplen]

/-- The converted flags always contain `PF_PRESENT`. -/
theorem entry_flags_of_present (flags : Nat) : entry_flags_of flags &&& 1 = 1 := by
  unfold entry_flags_of
  simp only
  repeat' split
  all_goals decide

/-- Without `PTE_NX` the converted flags fit in the low 12 bits. -/
theorem entry_flags_of_lt (flags : Nat) (hnx : flags &&& PTE_NX = 0) :
    entry_flags_of flags < PAGE_SIZE := by
  unfold entry_flags_of
  simp only [hnx]
  norm_num
  repeat' split
  all_goals decide

theorem get_pml4_entry_upd (s : PagingState) (M : PTMem) (F : FrameState) (virt : Nat) :
    get_pml4_entry { s with mem := M, frames := F } virt
      = M s.pml4Phys (pml4_index virt) := rfl

theorem get_pdp_entry_upd (s : PagingState) (M : PTMem) (F : FrameState) (virt : Nat) :
    get_pdp_entry { s with mem := M, frames := F } virt
      = M (M s.pml4Phys (pml4_index virt) &&& PAGE_MASK) (pdp_index virt) := rfl

theorem get_pd_entry_upd (s : PagingState) (M : PTMem) (F : FrameState) (virt : Nat) :
    get_pd_entry { s with mem := M, frames := F } virt
      = M (M (M s.pml4Phys (pml4_index virt) &&& PAGE_MASK) (pdp_index virt) &&& PAGE_MASK)
          (pd_index virt) := rfl

theorem get_pt_entry_upd (s : PagingState) (M : PTMem) (F : FrameState) (virt : Nat) :
    get_pt_entry { s with mem := M, frames := F } virt
      = M (M (M (M s.pml4Phys (pml4_index virt) &&& PAGE_MASK) (pdp_index virt)
              &&& PAGE_MASK) (pd_index virt) &&& PAGE_MASK) (pt_index virt) := rfl

theorem get_pml4_entry_updm (s : PagingState) (M : PTMem) (virt : Nat) :
    get_pml4_entry { s with mem := M } virt = M s.pml4Phys (pml4_index virt) := rfl

theorem get_pdp_entry_updm (s : PagingState) (M : PTMem) (virt : Nat) :
    get_pdp_entry { s with mem := M } virt
      = M (M s.pml4Phys (pml4_index virt) &&& PAGE_MASK) (pdp_index virt) := rfl

theorem get_pd_entry_updm (s : PagingState) (M : PTMem) (virt : Nat) :
    get_pd_entry { s with mem := M } virt
      = M (M (M s.pml4Phys (pml4_index virt) &&& PAGE_MASK) (pdp_index virt) &&& PAGE_MASK)
          (pd_index virt) := rfl

theorem get_pt_entry_updm (s : PagingState) (M : PTMem) (virt : Nat) :
    get_pt_entry { s with mem := M } virt
      = M (M (M (M s.pml4Phys (pml4_index virt) &&& PAGE_MASK) (pdp_index virt)
              &&& PAGE_MASK) (pd_index virt) &&& PAGE_MASK) (pt_index virt) := rfl

theorem fresh_ne_marked (F : FrameState) (a f : Nat)
    (hfree : bitmap_test F (a / PAGE_SIZE) = false) (hm : Marked F f) : a ≠ f := by
  intro he
  subst he
  rw [hm.2.2] at hfree
  cases hfree

theorem marked_after_alloc (F F2 : FrameState) (a f : Nat)
    (hent2 : F2.bitmapEntries = F.bitmapEntries)
    (htests : ∀ q, bitmap_test F2 q = if q = a / PAGE_SIZE then true else bitmap_test F q)
    (hm : Marked F f) : Marked F2 f := by
  refine ⟨hm.1, by rw [hent2]; exact hm.2.1, ?_⟩
  rw [htests]
  by_cases h : f / PAGE_SIZE = a / PAGE_SIZE <;> simp [h, hm.2.2]

theorem fresh_marked (F F2 : FrameState) (a : Nat) (hal : a % PAGE_SIZE = 0)
    (hrange : a / PAGE_SIZE < 64 * F.bitmapEntries)
    (hent2 : F2.bitmapEntries = F.bitmapEntries)
    (htests : ∀ q, bitmap_test F2 q = if q = a / PAGE_SIZE then true else bitmap_test F q) :
    Marked F2 a :=
  ⟨hal, by rw [hent2]; exact hrange, by rw [htests]; simp⟩

theorem is_page_mapped_elim (s : PagingState) (virt : Nat)
    (h : is_page_mapped s virt = true) :
    get_pml4_entry s virt &&& PF_PRESENT ≠ 0 ∧
    get_pdp_entry s virt &&& PF_PRESENT ≠ 0 ∧
    get_pd_entry s virt &&& PF_PRESENT ≠ 0 ∧
    get_pt_entry s virt &&& PF_PRESENT ≠ 0 := by
  unfold is_page_mapped at h
  by_cases h4 : get_pml4_entry s virt &&& PF_PRESENT = 0
  · rw [if_pos h4] at h; cases h
  · rw [if_neg h4] at h
    by_cases h3 : get_pdp_entry s virt &&& PF_PRESENT = 0
    · rw [if_pos h3] at h; cases h
    · rw [if_neg h3] at h
      by_cases h2 : get_pd_entry s virt &&& PF_PRESENT = 0
      · rw [if_pos h2] at h; cases h
      · rw [if_neg h2] at h
        exact ⟨h4, h3, h2, by simpa using h⟩

theorem is_page_mapped_intro (s : PagingState) (virt : Nat)
    (h4 : get_pml4_entry s virt &&& PF_PRESENT ≠ 0)
    (h3 : get_pdp_entry s virt &&& PF_PRESENT ≠ 0)
    (h2 : get_pd_entry s virt &&& PF_PRESENT ≠ 0)
    (h1 : get_pt_entry s virt &&& PF_PRESENT ≠ 0) :
    is_page_mapped s virt = true := by
  unfold is_page_mapped
  rw [if_neg h4, if_neg h3, if_neg h2]
  simpa using h1

theorem lt_U64_of_lt_two_pow_51 (a : Nat) (h : a < 2 ^ 51) : a < U64 := by
  rw [U64_eq]
  have h' : a < 2251799813685248 := h
  omega

/-- All four entry reads agree on every address within the same page. -/
theorem walk_eq_of_page (s : PagingState) (virt k : Nat)
    (hv : virt % PAGE_SIZE = 0) (hk : k < PAGE_SIZE) :
    get_pml4_entry s (virt + k) = get_pml4_entry s virt ∧
    get_pdp_entry s (virt + k) = get_pdp_entry s virt ∧
    get_pd_entry s (virt + k) = get_pd_entry s virt ∧
    get_pt_entry s (virt + k) = get_pt_entry s virt := by
  obtain ⟨e4, e3, e2, e1⟩ := path_index_eq virt k hv hk
  refine ⟨?_, ?_, ?_, ?_⟩
  · unfold get_pml4_entry
    rw [e4]
  · unfold get_pdp_entry pdp_table_phys get_pml4_entry
    rw [e4, e3]
  · unfold get_pd_entry pd_table_phys get_pdp_entry pdp_table_phys get_pml4_entry
    rw [e4, e3, e2]
  · unfold get_pt_entry pt_table_phys get_pd_entry pd_table_phys get_pdp_entry
      pdp_table_phys get_pml4_entry
    rw [e4, e3, e2, e1]

/-- Effect of the leaf write (`map_page_leaf`) on the four-level walk: when
the leaf table's frame is distinct from the three upper table frames on
`virt`'s path, only the PT entry changes, and it receives the written
value. -/
theorem map_page_leaf_walk (s : PagingState) (phys virt eflags : Nat)
    (hne4 : pt_table_phys s virt ≠ s.pml4Phys)
    (hne3 : pt_table_phys s virt ≠ pdp_table_phys s virt)
    (hne2 : pt_table_phys s virt ≠ pd_table_phys s virt) :
    (map_page_leaf s phys virt eflags).1 = 0 ∧
    (map_page_leaf s phys virt eflags).2.pml4Phys = s.pml4Phys ∧
    (map_page_leaf s phys virt eflags).2.frames = s.frames ∧
    get_pml4_entry (map_page_leaf s phys virt eflags).2 virt = get_pml4_entry s virt ∧
    get_pdp_entry (map_page_leaf s phys virt eflags).2 virt = get_pdp_entry s virt ∧
    get_pd_entry (map_page_leaf s phys virt eflags).2 virt = get_pd_entry s virt ∧
    get_pt_entry (map_page_leaf s phys virt eflags).2 virt
      = (phys &&& PAGE_MASK) ||| eflags := by
  refine ⟨rfl, rfl, rfl, ?_, ?_, ?_, ?_⟩
  · show wr s.mem (pt_table_phys s virt) (pt_index virt) ((phys &&& PAGE_MASK) ||| eflags)
      s.pml4Phys (pml4_index virt) = get_pml4_entry s virt
    rw [wr_ne_frame _ _ _ _ _ _ (Ne.symm hne4)]
    rfl
  · show wr s.mem (pt_table_phys s virt) (pt_index virt) ((phys &&& PAGE_MASK) ||| eflags)
      (wr s.mem (pt_table_phys s virt) (pt_index virt) ((phys &&& PAGE_MASK) ||| eflags)
        s.pml4Phys (pml4_index virt) &&& PAGE_MASK)
      (pdp_index virt) = get_pdp_entry s virt
    rw [wr_ne_frame _ _ _ _ _ _ (Ne.symm hne4)]
    rw [show s.mem s.pml4Phys (pml4_index virt) &&& PAGE_MASK = pdp_table_phys s virt
      from rfl]
    rw [wr_ne_frame _ _ _ _ _ _ (Ne.symm hne3)]
    rfl
  · show wr s.mem (pt_table_phys s virt) (pt_index virt) ((phys &&& PAGE_MASK) ||| eflags)
      (wr s.mem (pt_table_phys s virt) (pt_index virt) ((phys &&& PAGE_MASK) ||| eflags)
        (wr s.mem (pt_table_phys s virt) (pt_index virt) ((phys &&& PAGE_MASK) ||| eflags)
          s.pml4Phys (pml4_index virt) &&& PAGE_MASK)
        (pdp_index virt) &&& PAGE_MASK)
      (pd_index virt) = get_pd_entry s virt
    rw [wr_ne_frame _ _ _ _ _ _ (Ne.symm hne4)]
    rw [show s.mem s.pml4Phys (pml4_index virt) &&& PAGE_MASK = pdp_table_phys s virt
      from rfl]
    rw [wr_ne_frame _ _ _ _ _ _ (Ne.symm hne3)]
    rw [show s.mem (pdp_table_phys s virt) (pdp_index virt) &&& PAGE_MASK
      = pd_table_phys s virt from rfl]
    rw [wr_ne_frame _ _ _ _ _ _ (Ne.symm hne2)]
    rfl
  · show wr s.mem (pt_table_phys s virt) (pt_index virt) ((phys &&& PAGE_MASK) ||| eflags)
      (wr s.mem (pt_table_phys s virt) (pt_index virt) ((phys &&& PAGE_MASK) ||| eflags)
        (wr s.mem (pt_table_phys s virt) (pt_index virt) ((phys &&& PAGE_MASK) ||| eflags)
          (wr s.mem (pt_table_phys s virt) (pt_index virt)
            ((phys &&& PAGE_MASK) ||| eflags)
            s.pml4Phys (pml4_index virt) &&& PAGE_MASK)
          (pdp_index virt) &&& PAGE_MASK)
        (pd_index virt) &&& PAGE_MASK)
      (pt_index virt) = (phys &&& PAGE_MASK) ||| eflags
    rw [wr_ne_frame _ _ _ _ _ _ (Ne.symm hne4)]
    rw [show s.mem s.pml4Phys (pml4_index virt) &&& PAGE_MASK = pdp_table_phys s virt
      from rfl]
    rw [wr_ne_frame _ _ _ _ _ _ (Ne.symm hne3)]
    rw [show s.mem (pdp_table_phys s virt) (pdp_index virt) &&& PAGE_MASK
      = pd_table_phys s virt from rfl]
    rw [wr_ne_frame _ _ _ _ _ _ (Ne.symm hne2)]
    rw [show s.mem (pd_table_phys s virt) (pd_index virt) &&& PAGE_MASK
      = pt_table_phys s virt from rfl]
    rw [wr_hit]

/-- Effect of the PD-level step (`map_page_level_pd`) on the walk, given
that the PML4 frame and the PDP/PD table frames on `virt`'s path are
allocator-marked and pairwise distinct: on success the upper two entries
are unchanged, the PD entry is present and the PT entry holds the written
value. -/
theorem map_page_level_pd_walk (s : PagingState) (phys virt eflags : Nat)
    (hlen : s.frames.bitmap.length = s.frames.bitmapEntries)
    (hent : s.frames.bitmapEntries < 2 ^ 32)
    (hM4 : Marked s.frames s.pml4Phys)
    (hM3 : Marked s.frames (pdp_table_phys s virt))
    (hM2 : Marked s.frames (pd_table_phys s virt))
    (hne2p : pd_table_phys s virt ≠ s.pml4Phys)
    (hne23 : pd_table_phys s virt ≠ pdp_table_phys s virt)
    (hpt : get_pd_entry s virt &&& PF_PRESENT ≠ 0 →
      Marked s.frames (pt_table_phys s virt) ∧ pt_table_phys s virt ≠ s.pml4Phys ∧
      pt_table_phys s virt ≠ pdp_table_phys s virt ∧
      pt_table_phys s virt ≠ pd_table_phys s virt) :
    ∀ r s2, map_page_level_pd s phys virt eflags = (r, s2) → r = 0 →
      s2.pml4Phys = s.pml4Phys ∧
      get_pml4_entry s2 virt = get_pml4_entry s virt ∧
      get_pdp_entry s2 virt = get_pdp_entry s virt ∧
      get_pd_entry s2 virt &&& PF_PRESENT ≠ 0 ∧
      get_pt_entry s2 virt = (phys &&& PAGE_MASK) ||| eflags := by
  intro r s2 hmap hr0
  subst hr0
  by_cases h2z : get_pd_entry s virt &&& PF_PRESENT = 0
  · simp only [map_page_level_pd] at hmap
    rw [if_pos h2z] at hmap
    rcases halloc : alloc_physical_page s.frames with ⟨a, F2⟩
    simp only [halloc] at hmap
    by_cases ha0 : a = 0
    · rw [if_pos ha0] at hmap
      injection hmap with h1 h2
      exact absurd h1 (by decide)
    · rw [if_neg ha0] at hmap
      generalize hM1 : zt (wr s.mem (pd_table_phys s virt) (pd_index virt)
        (a ||| (PF_PRESENT ||| PF_WRITABLE ||| PF_USER))) a = M1 at hmap
      obtain ⟨hal, h51, hfree, hrange, hlen2, hent2, htests⟩ :=
        alloc_physical_page_fresh s.frames hlen hent a F2 halloc ha0
      have ha64 : a < U64 := lt_U64_of_lt_two_pow_51 a h51
      have hap4 : a ≠ s.pml4Phys := fresh_ne_marked s.frames a _ hfree hM4
      have haf3 : a ≠ pdp_table_phys s virt := fresh_ne_marked s.frames a _ hfree hM3
      have haf2 : a ≠ pd_table_phys s virt := fresh_ne_marked s.frames a _ hfree hM2
      have EM1p4 : M1 s.pml4Phys (pml4_index virt)
          = s.mem s.pml4Phys (pml4_index virt) := by
        rw [← hM1, zt_ne _ _ _ _ (Ne.symm hap4),
          wr_ne_frame _ _ _ _ _ _ (Ne.symm hne2p)]
      have EM1f3 : M1 (pdp_table_phys s virt) (pdp_index virt)
          = s.mem (pdp_table_phys s virt) (pdp_index virt) := by
        rw [← hM1, zt_ne _ _ _ _ (Ne.symm haf3),
          wr_ne_frame _ _ _ _ _ _ (Ne.symm hne23)]
      have EM1f2 : M1 (pd_table_phys s virt) (pd_index virt)
          = a ||| (PF_PRESENT ||| PF_WRITABLE ||| PF_USER) := by
        rw [← hM1, zt_ne _ _ _ _ (Ne.symm haf2), wr_hit]
      have E4 : get_pml4_entry (⟨M1, s.pml4Phys, F2⟩ : PagingState) virt
          = get_pml4_entry s virt := EM1p4
      have E3tab : pdp_table_phys (⟨M1, s.pml4Phys, F2⟩ : PagingState) virt
          = pdp_table_phys s virt := by
        show M1 s.pml4Phys (pml4_index virt) &&& PAGE_MASK = pdp_table_phys s virt
        rw [EM1p4]
        rfl
      have E3 : get_pdp_entry (⟨M1, s.pml4Phys, F2⟩ : PagingState) virt
          = get_pdp_entry s virt := by
        show M1 (pdp_table_phys (⟨M1, s.pml4Phys, F2⟩ : PagingState) virt)
          (pdp_index virt) = get_pdp_entry s virt
        rw [E3tab, EM1f3]
        rfl
      have E2tab : pd_table_phys (⟨M1, s.pml4Phys, F2⟩ : PagingState) virt
          = pd_table_phys s virt := by
        show get_pdp_entry (⟨M1, s.pml4Phys, F2⟩ : PagingState) virt &&& PAGE_MASK
          = pd_table_phys s virt
        rw [E3]
        rfl
      have E2 : get_pd_entry (⟨M1, s.pml4Phys, F2⟩ : PagingState) virt
          = a ||| (PF_PRESENT ||| PF_WRITABLE ||| PF_USER) := by
        show M1 (pd_table_phys (⟨M1, s.pml4Phys, F2⟩ : PagingState) virt)
          (pd_index virt) = _
        rw [E2tab, EM1f2]
      have E1tab : pt_table_phys (⟨M1, s.pml4Phys, F2⟩ : PagingState) virt = a := by
        show get_pd_entry (⟨M1, s.pml4Phys, F2⟩ : PagingState) virt &&& PAGE_MASK = a
        rw [E2]
        exact mask_or_small a _ hal ha64 (by decide)
      obtain ⟨L0, Lp, Lf, L4, L3, L2, L1⟩ :=
        map_page_leaf_walk (⟨M1, s.pml4Phys, F2⟩ : PagingState) phys virt eflags
          (by rw [E1tab]; exact hap4) (by rw [E1tab, E3tab]; exact haf3)
          (by rw [E1tab, E2tab]; exact haf2)
      have hs2 : s2
          = (map_page_leaf (⟨M1, s.pml4Phys, F2⟩ : PagingState) phys virt eflags).2 := by
        rw [hmap]
      subst hs2
      refine ⟨Lp, ?_, ?_, ?_, L1⟩
      · rw [L4]
        exact E4
      · rw [L3]
        exact E3
      · rw [L2, E2]
        show (a ||| (PF_PRESENT ||| PF_WRITABLE ||| PF_USER)) &&& 1 ≠ 0
        exact or_present _ _ (by decide)
  · simp only [map_page_level_pd] at hmap
    rw [if_neg h2z] at hmap
    obtain ⟨hMpt, hq4, hq3, hq2⟩ := hpt h2z
    obtain ⟨L0, Lp, Lf, L4, L3, L2, L1⟩ := map_page_leaf_walk s phys virt eflags hq4 hq3 hq2
    have hs2 : s2 = (map_page_leaf s phys virt eflags).2 := by rw [hmap]
    subst hs2
    exact ⟨Lp, L4, L3, by rw [L2]; exact h2z, L1⟩

/-- Effect of the PDP-level step (`map_page_level_pdp`) on the walk: on
success the PML4 entry is unchanged and the three lower entries are
present, the leaf holding the written value. -/
theorem map_page_level_pdp_walk (s : PagingState) (phys virt eflags : Nat)
    (hlen : s.frames.bitmap.length = s.frames.bitmapEntries)
    (hent : s.frames.bitmapEntries < 2 ^ 32)
    (hM4 : Marked s.frames s.pml4Phys)
    (hM3 : Marked s.frames (pdp_table_phys s virt))
    (hne3p : pdp_table_phys s virt ≠ s.pml4Phys)
    (hpd : get_pdp_entry s virt &&& PF_PRESENT ≠ 0 →
      Marked s.frames (pd_table_phys s virt) ∧ pd_table_phys s virt ≠ s.pml4Phys ∧
      pd_table_phys s virt ≠ pdp_table_phys s virt)
    (hpt : get_pdp_entry s virt &&& PF_PRESENT ≠ 0 →
      get_pd_entry s virt &&& PF_PRESENT ≠ 0 →
      Marked s.frames (pt_table_phys s virt) ∧ pt_table_phys s virt ≠ s.pml4Phys ∧
      pt_table_phys s virt ≠ pdp_table_phys s virt ∧
      pt_table_phys s virt ≠ pd_table_phys s virt) :
    ∀ r s2, map_page_level_pdp s phys virt eflags = (r, s2) → r = 0 →
      s2.pml4Phys = s.pml4Phys ∧
      get_pml4_entry s2 virt = get_pml4_entry s virt ∧
      get_pdp_entry s2 virt &&& PF_PRESENT ≠ 0 ∧
      get_pd_entry s2 virt &&& PF_PRESENT ≠ 0 ∧
      get_pt_entry s2 virt = (phys &&& PAGE_MASK) ||| eflags := by
  intro r s2 hmap hr0
  subst hr0
  by_cases h3z : get_pdp_entry s virt &&& PF_PRESENT = 0
  · simp only [map_page_level_pdp] at hmap
    rw [if_pos h3z] at hmap
    rcases halloc : alloc_physical_page s.frames with ⟨a, F2⟩
    simp only [halloc] at hmap
    by_cases ha0 : a = 0
    · rw [if_pos ha0] at hmap
      injection hmap with h1 h2
      exact absurd h1 (by decide)
    · rw [if_neg ha0] at hmap
      generalize hM1 : zt (wr s.mem (pdp_table_phys s virt) (pdp_index virt)
        (a ||| (PF_PRESENT ||| PF_WRITABLE ||| PF_USER))) a = M1 at hmap
      obtain ⟨hal, h51, hfree, hrange, hlen2, hent2, htests⟩ :=
        alloc_physical_page_fresh s.frames hlen hent a F2 halloc ha0
      have ha64 : a < U64 := lt_U64_of_lt_two_pow_51 a h51
      have hap4 : a ≠ s.pml4Phys := fresh_ne_marked s.frames a _ hfree hM4
      have haf3 : a ≠ pdp_table_phys s virt := fresh_ne_marked s.frames a _ hfree hM3
      have EM1p4 : M1 s.pml4Phys (pml4_index virt)
          = s.mem s.pml4Phys (pml4_index virt) := by
        rw [← hM1, zt_ne _ _ _ _ (Ne.symm hap4),
          wr_ne_frame _ _ _ _ _ _ (Ne.symm hne3p)]
      have EM1f3 : M1 (pdp_table_phys s virt) (pdp_index virt)
          = a ||| (PF_PRESENT ||| PF_WRITABLE ||| PF_USER) := by
        rw [← hM1, zt_ne _ _ _ _ (Ne.symm haf3), wr_hit]
      have EM1a : ∀ i, M1 a i = 0 := fun i => by rw [← hM1, zt_hit]
      have E4 : get_pml4_entry (⟨M1, s.pml4Phys, F2⟩ : PagingState) virt
          = get_pml4_entry s virt := EM1p4
      have E3tab : pdp_table_phys (⟨M1, s.pml4Phys, F2⟩ : PagingState) virt
          = pdp_table_phys s virt := by
        show M1 s.pml4Phys (pml4_index virt) &&& PAGE_MASK = pdp_table_phys s virt
        rw [EM1p4]
        rfl
      have E3 : get_pdp_entry (⟨M1, s.pml4Phys, F2⟩ : PagingState) virt
          = a ||| (PF_PRESENT ||| PF_WRITABLE ||| PF_USER) := by
        show M1 (pdp_table_phys (⟨M1, s.pml4Phys, F2⟩ : PagingState) virt)
          (pdp_index virt) = _
        rw [E3tab, EM1f3]
      have E2tab : pd_table_phys (⟨M1, s.pml4Phys, F2⟩ : PagingState) virt = a := by
        show get_pdp_entry (⟨M1, s.pml4Phys, F2⟩ : PagingState) virt &&& PAGE_MASK = a
        rw [E3]
        exact mask_or_small a _ hal ha64 (by decide)
      have E2 : get_pd_entry (⟨M1, s.pml4Phys, F2⟩ : PagingState) virt = 0 := by
        show M1 (pd_table_phys (⟨M1, s.pml4Phys, F2⟩ : PagingState) virt)
          (pd_index virt) = 0
        rw [E2tab]
        exact EM1a _
      obtain ⟨W1, W2, W3, W4, W5⟩ :=
        map_page_level_pd_walk (⟨M1, s.pml4Phys, F2⟩ : PagingState) phys virt eflags
          (by rw [hlen2, hent2])
          (by rw [hent2]; exact hent)
          (marked_after_alloc s.frames F2 a s.pml4Phys hent2 htests hM4)
          (by rw [E3tab]; exact marked_after_alloc s.frames F2 a _ hent2 htests hM3)
          (by rw [E2tab]; exact fresh_marked s.frames F2 a hal hrange hent2 htests)
          (by rw [E2tab]; exact hap4)
          (by rw [E2tab, E3tab]; exact haf3)
          (by intro h2; rw [E2] at h2; exact absurd (by decide) h2)
          0 s2 hmap rfl
      refine ⟨W1, ?_, ?_, W4, W5⟩
      · rw [W2]
        exact E4
      · rw [W3, E3]
        show (a ||| (PF_PRESENT ||| PF_WRITABLE ||| PF_USER)) &&& 1 ≠ 0
        exact or_present _ _ (by decide)
  · simp only [map_page_level_pdp] at hmap
    rw [if_neg h3z] at hmap
    obtain ⟨hM2, hne2p, hne23⟩ := hpd h3z
    obtain ⟨W1, W2, W3, W4, W5⟩ :=
      map_page_level_pd_walk s phys virt eflags hlen hent hM4 hM3 hM2 hne2p hne23
        (hpt h3z) 0 s2 hmap rfl
    exact ⟨W1, W2, by rw [W3]; exact h3z, W4, W5⟩

/-- Effect of `map_page_internal` on the walk under `MapSafe`: when it
returns 0, all four entries on `virt`'s path are present and the leaf
entry holds `(phys & PAGE_MASK) | flags`. -/
theorem map_page_internal_walk (s : PagingState) (phys virt eflags : Nat)
    (hsafe : MapSafe s virt) :
    ∀ r s2, map_page_internal s phys virt eflags = (r, s2) → r = 0 →
      s2.pml4Phys = s.pml4Phys ∧
      get_pml4_entry s2 virt &&& PF_PRESENT ≠ 0 ∧
      get_pdp_entry s2 virt &&& PF_PRESENT ≠ 0 ∧
      get_pd_entry s2 virt &&& PF_PRESENT ≠ 0 ∧
      get_pt_entry s2 virt = (phys &&& PAGE_MASK) ||| eflags := by
  obtain ⟨hlen, hent, hM4, hPDP, hPD, hPT⟩ := hsafe
  intro r s2 hmap hr0
  subst hr0
  by_cases hmapped : is_page_mapped s virt = true
  · simp only [map_page_internal] at hmap
    rw [if_pos hmapped] at hmap
    have hleaf : map_page_leaf s phys virt eflags = ((0 : Int), s2) := hmap
    obtain ⟨m4, m3, m2, m1⟩ := is_page_mapped_elim s virt hmapped
    obtain ⟨hMpt, hq4, hq3, hq2⟩ := hPT m4 m3 m2
    obtain ⟨L0, Lp, Lf, L4, L3, L2, L1⟩ := map_page_leaf_walk s phys virt eflags hq4 hq3 hq2
    have hs2 : s2 = (map_page_leaf s phys virt eflags).2 := by rw [hleaf]
    subst hs2
    exact ⟨Lp, by rw [L4]; exact m4, by rw [L3]; exact m3, by rw [L2]; exact m2, L1⟩
  · simp only [map_page_internal] at hmap
    rw [if_neg hmapped] at hmap
    by_cases h4z : get_pml4_entry s virt &&& PF_PRESENT = 0
    · rw [if_pos h4z] at hmap
      rcases halloc : alloc_physical_page s.frames with ⟨a, F2⟩
      simp only [halloc] at hmap
      by_cases ha0 : a = 0
      · rw [if_pos ha0] at hmap
        injection hmap with h1 h2
        exact absurd h1 (by decide)
      · rw [if_neg ha0] at hmap
        generalize hM1 : zt (wr s.mem s.pml4Phys (pml4_index virt)
          (a ||| (PF_PRESENT ||| PF_WRITABLE ||| PF_USER))) a = M1 at hmap
        obtain ⟨hal, h51, hfree, hrange, hlen2, hent2, htests⟩ :=
          alloc_physical_page_fresh s.frames hlen hent a F2 halloc ha0
        have ha64 : a < U64 := lt_U64_of_lt_two_pow_51 a h51
        have hap4 : a ≠ s.pml4Phys := fresh_ne_marked s.frames a _ hfree hM4
        have EM1p4 : M1 s.pml4Phys (pml4_index virt)
            = a ||| (PF_PRESENT ||| PF_WRITABLE ||| PF_USER) := by
          rw [← hM1, zt_ne _ _ _ _ (Ne.symm hap4), wr_hit]
        have EM1a : ∀ i, M1 a i = 0 := fun i => by rw [← hM1, zt_hit]
        have E4 : get_pml4_entry (⟨M1, s.pml4Phys, F2⟩ : PagingState) virt
            = a ||| (PF_PRESENT ||| PF_WRITABLE ||| PF_USER) := EM1p4
        have E3tab : pdp_table_phys (⟨M1, s.pml4Phys, F2⟩ : PagingState) virt = a := by
          show M1 s.pml4Phys (pml4_index virt) &&& PAGE_MASK = a
          rw [EM1p4]
          exact mask_or_small a _ hal ha64 (by decide)
        have E3 : get_pdp_entry (⟨M1, s.pml4Phys, F2⟩ : PagingState) virt = 0 := by
          show M1 (pdp_table_phys (⟨M1, s.pml4Phys, F2⟩ : PagingState) virt)
            (pdp_index virt) = 0
          rw [E3tab]
          exact EM1a _
        obtain ⟨W1, W2, W3, W4, W5⟩ :=
          map_page_level_pdp_walk (⟨M1, s.pml4Phys, F2⟩ : PagingState) phys virt eflags
            (by rw [hlen2, hent2])
            (by rw [hent2]; exact hent)
            (marked_after_alloc s.frames F2 a s.pml4Phys hent2 htests hM4)
            (by rw [E3tab]; exact fresh_marked s.frames F2 a hal hrange hent2 htests)
            (by rw [E3tab]; exact hap4)
            (by intro h3; rw [E3] at h3; exact absurd (by decide) h3)
            (by intro h3; rw [E3] at h3; exact absurd (by decide) h3)
            0 s2 hmap rfl
        refine ⟨W1, ?_, W3, W4, W5⟩
        rw [W2, E4]
        show (a ||| (PF_PRESENT ||| PF_WRITABLE ||| PF_USER)) &&& 1 ≠ 0
        exact or_present _ _ (by decide)
    · rw [if_neg h4z] at hmap
      obtain ⟨hM3, hne3p⟩ := hPDP h4z
      obtain ⟨W1, W2, W3, W4, W5⟩ :=
        map_page_level_pdp_walk s phys virt eflags hlen hent hM4 hM3 hne3p
          (hPD h4z) (hPT h4z) 0 s2 hmap rfl
      exact ⟨W1, by rw [W2]; exact h4z, W3, W4, W5⟩

/-- Claim C1 (amended).  The original claim fails for flag sets containing
`PTE_NX` (see `C1_counterexample`): `PAGE_MASK` keeps bit 63, so the NX bit
leaks through `virtual_to_physical`.  Amended map/translate round-trip:
for a `MapSafe` mapper state, page-aligned `phys` and `virt` below `2^64`,
and any `flags` without `PTE_NX`, if `map_page(phys, virt, flags)` succeeds
then `is_page_mapped(virt)` is true, `virtual_to_physical(virt) = phys`,
and `virtual_to_physical(virt + k) = phys + k` for every `0 ≤ k <
PAGE_SIZE`. -/
theorem C1_map_translate (s : PagingState) (phys virt flags : Nat)
    (hsafe : MapSafe s virt)
    (hphys : phys % PAGE_SIZE = 0) (hphys64 : phys < U64)
    (hvirt : virt % PAGE_SIZE = 0) (hvirt64 : virt < U64)
    (hnx : flags &&& PTE_NX = 0)
    (hr : (map_page s phys virt flags).1 = 0) :
    is_page_mapped (map_page s phys virt flags).2 virt = true ∧
    virtual_to_physical (map_page s phys virt flags).2 virt = phys ∧
    ∀ k, k < PAGE_SIZE →
      virtual_to_physical (map_page s phys virt flags).2 (virt + k) = phys + k := by
  have hmp : map_page s phys virt flags
      = map_page_internal s phys virt (entry_flags_of flags) := by
    unfold map_page
    rw [mask_align phys hphys hphys64, mask_align virt hvirt hvirt64]
  rcases hint : map_page_internal s phys virt (entry_flags_of flags) with ⟨r, s2⟩
  have hr' : r = 0 := by
    rw [hmp, hint] at hr
    exact hr
  obtain ⟨Wp, W4, W3, W2, W1⟩ :=
    map_page_internal_walk s phys virt (entry_flags_of flags) hsafe r s2 hint hr'
  have W1' : get_pt_entry s2 virt = phys ||| entry_flags_of flags := by
    rw [W1, mask_align phys hphys hphys64]
  have Hmapped : is_page_mapped s2 virt = true :=
    is_page_mapped_intro s2 virt W4 W3 W2 (by
      rw [W1']
      show (phys ||| entry_flags_of flags) &&& 1 ≠ 0
      exact or_present _ _ (entry_flags_of_present flags))
  have Htrans : ∀ k, k < PAGE_SIZE → virtual_to_physical s2 (virt + k) = phys + k := by
    intro k hk
    obtain ⟨q4, q3, q2, q1⟩ := walk_eq_of_page s2 virt k hvirt hk
    have hmk : is_page_mapped s2 (virt + k) = true := by
      obtain ⟨m4, m3, m2, m1⟩ := is_page_mapped_elim s2 virt Hmapped
      exact is_page_mapped_intro s2 (virt + k) (by rw [q4]; exact m4)
        (by rw [q3]; exact m3) (by rw [q2]; exact m2) (by rw [q1]; exact m1)
    unfold virtual_to_physical
    rw [if_neg (not_not_intro hmk)]
    rw [q1, W1', offset_of_aligned virt k hvirt hk,
      mask_or_small phys (entry_flags_of flags) hphys hphys64 (entry_flags_of_lt flags hnx)]
    exact or_low_eq_add phys k hphys hk
  have Hvirt : virtual_to_physical s2 virt = phys := by
    have h0 := Htrans 0 (by decide)
    simpa using h0
  have hs2 : (map_page s phys virt flags).2 = s2 := by rw [hmp, hint]
  rw [hs2]
  exact ⟨Hmapped, Hvirt, Htrans⟩

/-- Witness for C1 (amended): on the concrete test state, mapping
`phys = 0x9000` at `virt = 0x2000` with `PTE_WRITABLE` succeeds, the page
reports mapped, and translation returns `0x9000` at offset 0 and
`0x9005` at offset 5. -/
theorem C1_map_translate_witness :
    is_page_mapped (map_page pagingTestState 0x9000 0x2000 PTE_WRITABLE).2 0x2000 = true ∧
    virtual_to_physical (map_page pagingTestState 0x9000 0x2000 PTE_WRITABLE).2 0x2000
      = 0x9000 ∧
    virtual_to_physical (map_page pagingTestState 0x9000 0x2000 PTE_WRITABLE).2
      (0x2000 + 5) = 0x9000 + 5 := by
  have H := C1_map_translate pagingTestState 0x9000 0x2000 PTE_WRITABLE
    ⟨by decide, by decide, by decide, fun h => absurd (by decide) h,
      fun h _ => absurd (by decide) h, fun h _ _ => absurd (by decide) h⟩
    (by decide) (by decide) (by decide) (by decide) (by decide) (by decide)
  exact ⟨H.1, H.2.1, H.2.2 5 (by decide)⟩

/-! ## Kernel heap (src/kernel/mm/heap.c) -/

/-- `HEAP_MAGIC` (heap.c line 13). -/
def HEAP_MAGIC : Nat := 0x1BADB002

/-- `HEAP_MIN_SIZE` (heap.c line 14). -/
def HEAP_MIN_SIZE : Nat := 4096

/-- `HEAP_MIN_ALLOC` (heap.c line 15). -/
def HEAP_MIN_ALLOC : Nat := 16

/-- `HEAP_MAX_ALLOC` (heap.c line 16). -/
def HEAP_MAX_ALLOC : Nat := 0x10000000

/-- `sizeof(block_header_t)`: u32 magic + u32 flags + size_t size + two
pointers = 32 bytes on x86-64. -/
def HDR : Nat := 32

/-- `BLOCK_FREE` (heap.c line 33). -/
def BLOCK_FREE : Nat := 1

/-- `BLOCK_LAST` (heap.c line 34). -/
def BLOCK_LAST : Nat := 2

/-- `block_header_t` (heap.c lines 24-30); the two pointers are addresses,
0 standing for NULL. -/
structure Header where
  magic : Nat
  flags : Nat
  size : Nat
  prev : Nat
  next : Nat
deriving DecidableEq

/-- The heap's mutable state: header memory (headers indexed by their
block address), the raw words read by `kfree`'s aligned-allocation probe,
and the five statics of heap.c lines 37-41. -/
structure HeapState where
  mem : Nat → Header
  words : Nat → Nat
  heapStart : Nat
  heapEnd : Nat
  heapSize : Nat
  usedSpace : Nat
  freeList : Nat

/-- Header store at one address. -/
def updH (m : Nat → Header) (a : Nat) (h : Header) : Nat → Header :=
  fun x => if x = a then h else m x

/-- One header write (`*block = ...` on a single field group). -/
def wrH (s : HeapState) (a : Nat) (h : Header) : HeapState :=
  { s with mem := updH s.mem a h }

/-- An uninitialized heap: all statics zero (heap.c lines 37-41). -/
def heap0 : HeapState :=
  ⟨fun _ => ⟨0, 0, 0, 0, 0⟩, fun _ => 0, 0, 0, 0, 0, 0⟩

/-- Lines 58-91 of heap.c: `heap_init` — rejects sizes below
`HEAP_MIN_SIZE`, 8-aligns the start, shrinks the size accordingly, and
installs the single initial free+last block covering the arena.  All five
fields of the initial header are assigned, so the block write is one
header store. -/
def heap_init (s : HeapState) (start size : Nat) : HeapState :=
  if size < HEAP_MIN_SIZE then s
  else
    let aligned_start : Nat := ((start + 7) % U64) &&& (U64 - 8)
    let size2 : Nat := sub64 size (sub64 aligned_start start)
    let s1 : HeapState := { s with
      heapStart := aligned_start,
      heapSize := size2,
      heapEnd := (aligned_start + size2) % U64 }
    let s2 : HeapState := wrH s1 aligned_start
      ⟨HEAP_MAGIC, BLOCK_FREE ||| BLOCK_LAST, sub64 size2 HDR, 0, 0⟩
    { s2 with freeList := aligned_start, usedSpace := 0 }

/-- Lines 456-482 of heap.c: the best-fit scan over the free list,
`fuel` bounding the traversal (the C loop runs until the NULL link). -/
def heap_find_free_go (s : HeapState) (size : Nat) :
    Nat → Nat → Nat → Nat → Nat
  | 0, _, best_block, _ => best_block
  | fuel + 1, block, best_block, best_size =>
    if block = 0 then best_block
    else
      if (s.mem block).flags &&& BLOCK_FREE ≠ 0 ∧ size ≤ (s.mem block).size then
        if (s.mem block).size < best_size then
          if (s.mem block).size = size then block
          else heap_find_free_go s size fuel ((s.mem block).next) block ((s.mem block).size)
        else heap_find_free_go s size fuel ((s.mem block).next) best_block best_size
      else heap_find_free_go s size fuel ((s.mem block).next) best_block best_size

/-- Lines 456-482 of heap.c: `heap_find_free_block` — best-fit with
`best_size` starting at `SIZE_MAX` and an early exit on an exact fit.
`heapSize` over-approximates the block count, so it bounds any acyclic
free list. -/
def heap_find_free_block (s : HeapState) (size : Nat) : Nat :=
  heap_find_free_go s size s.heapSize s.freeList 0 (U64 - 1)

/-- Lines 496-500 of heap.c: the five field writes initializing the new
block carved off at `nb`, one C statement at a time (reads happen on the
current memory, as in the source). -/
def heap_split_write_new (s : HeapState) (block nb size : Nat) : HeapState :=
  let s1 : HeapState := wrH s nb { s.mem nb with magic := HEAP_MAGIC }
  let s2 : HeapState := wrH s1 nb { s1.mem nb with flags := BLOCK_FREE }
  let s3 : HeapState := wrH s2 nb
    { s2.mem nb with size := sub64 (sub64 ((s2.mem block).size) size) HDR }
  let s4 : HeapState := wrH s3 nb { s3.mem nb with prev := block }
  wrH s4 nb { s4.mem nb with next := (s4.mem block).next }

/-- Lines 502-515 of heap.c: fix the physical neighbour's back pointer, or
transfer the LAST flag when `block` was the last block. -/
def heap_split_neighbor (s : HeapState) (block nb : Nat) : HeapState :=
  if (s.mem block).flags &&& BLOCK_LAST = 0 then
    let next_block : Nat := (block + HDR + (s.mem block).size) % U64
    if (s.mem next_block).magic = HEAP_MAGIC then
      wrH s next_block { s.mem next_block with prev := nb }
    else s
  else
    let s6a : HeapState := wrH s nb
      { s.mem nb with flags := (s.mem nb).flags ||| BLOCK_LAST }
    wrH s6a block { s6a.mem block with flags := (s6a.mem block).flags &&& 0xFFFFFFFD }

/-- Lines 517-526 of heap.c: shrink `block` to `size`, link it to the new
block, and push the new block onto the free list. -/
def heap_split_close (s : HeapState) (block nb size : Nat) : HeapState :=
  let s7 : HeapState := wrH s block { s.mem block with size := size }
  let s8 : HeapState := wrH s7 block { s7.mem block with next := nb }
  let s9 : HeapState := wrH s8 nb { s8.mem nb with next := s8.freeList }
  let s10 : HeapState := if s9.freeList ≠ 0 then
      wrH s9 s9.freeList { s9.mem s9.freeList with prev := nb }
    else s9
  { s10 with freeList := nb }

/-- Lines 491-529 of heap.c: `heap_split_block` — carves `size` bytes off
the front of `block` (header writes in source statement order) and
returns `block` itself. -/
def heap_split_block (s : HeapState) (block size : Nat) : Nat × HeapState :=
  let nb : Nat := (block + HDR + size) % U64
  (block,
    heap_split_close (heap_split_neighbor (heap_split_write_new s block nb size) block nb)
      block nb size)

/-- Free-list unlink of block `b` (heap.c lines 383-391, and the same
pattern at 548-556 and 581-589): route the predecessor link (or the list
head) past `b`, then fix the successor's back pointer. -/
def heap_unlink (s : HeapState) (b : Nat) : HeapState :=
  let s1 : HeapState := if (s.mem b).prev ≠ 0 ∧
      (s.mem ((s.mem b).prev)).flags &&& BLOCK_FREE ≠ 0 then
      wrH s ((s.mem b).prev) { s.mem ((s.mem b).prev) with next := (s.mem b).next }
    else { s with freeList := (s.mem b).next }
  if (s1.mem b).next ≠ 0 ∧ (s1.mem ((s1.mem b).next)).flags &&& BLOCK_FREE ≠ 0 then
    wrH s1 ((s1.mem b).next) { s1.mem ((s1.mem b).next) with prev := (s1.mem b).prev }
  else s1

/-- Lines 368-406 of heap.c: `heap_allocate_block` — find a free block,
unlink it, split when oversized, clear its FREE bit, account the space,
and return the data pointer (`block + sizeof(header)`); 0 models NULL. -/
def heap_allocate_block (s : HeapState) (size : Nat) : Nat × HeapState :=
  if s.heapStart = 0 then (0, s)
  else
    let block : Nat := heap_find_free_block s size
    if block = 0 then (0, s)
    else
      let s2 : HeapState := heap_unlink s block
      let r : Nat × HeapState := if (size + HDR + HEAP_MIN_ALLOC) % U64 < (s2.mem block).size then
          heap_split_block s2 block size
        else (block, s2)
      let s4 : HeapState := wrH r.2 r.1
        { r.2.mem r.1 with flags := (r.2.mem r.1).flags &&& 0xFFFFFFFE }
      let s5 : HeapState := { s4 with
        usedSpace := (s4.usedSpace + (((s4.mem r.1).size + HDR) % U64)) % U64 }
      ((r.1 + HDR) % U64, s5)

/-- Lines 99-116 of heap.c: `kmalloc` — size validation, 8-alignment,
minimum-size clamp, then `heap_allocate_block`. -/
def kmalloc (s : HeapState) (size : Nat) : Nat × HeapState :=
  if size = 0 ∨ HEAP_MAX_ALLOC < size then (0, s)
  else
    let size1 : Nat := ((size + 7) % U64) &&& (U64 - 8)
    let size2 : Nat := if size1 < HEAP_MIN_ALLOC then HEAP_MIN_ALLOC else size1
    heap_allocate_block s size2

/-- One pass of the forward-coalescing loop body (heap.c lines 546-567):
unlink the physical successor `next` from the free list, transfer its
LAST flag, grow `block` over it, and scrub its magic. -/
def heap_merge_fwd_step (s : HeapState) (block next : Nat) : HeapState :=
  let s2 : HeapState := heap_unlink s next
  let s3 : HeapState := if (s2.mem next).flags &&& BLOCK_LAST ≠ 0 then
      wrH s2 block { s2.mem block with flags := (s2.mem block).flags ||| BLOCK_LAST }
    else s2
  let s4 : HeapState := wrH s3 block
    { s3.mem block with
      size := ((s3.mem block).size + ((HDR + (s3.mem next).size) % U64)) % U64 }
  wrH s4 next { s4.mem next with magic := 0 }

/-- Lines 541-572 of heap.c: the forward-coalescing loop of
`heap_merge_blocks` — while `block` is not last and its physical
successor is a valid free block, absorb the successor.  Each pass
consumes at least one header, so `heapSize` fuel over-approximates the
iteration count. -/
def heap_merge_fwd (s : HeapState) :
    Nat → Nat → Bool → Bool × HeapState
  | 0, _, acc => (acc, s)
  | fuel + 1, block, acc =>
    if (s.mem block).flags &&& BLOCK_LAST ≠ 0 then (acc, s)
    else
      let next : Nat := (block + HDR + (s.mem block).size) % U64
      if (s.mem next).magic = HEAP_MAGIC ∧ (s.mem next).flags &&& BLOCK_FREE ≠ 0 then
        heap_merge_fwd (heap_merge_fwd_step s block next) fuel block true
      else (acc, s)

/-- One pass of the backward-coalescing loop body (heap.c lines 579-604):
unlink `block`, transfer its LAST flag to the adjacent predecessor, grow
the predecessor over it, relink, and scrub the magic. -/
def heap_merge_bwd_step (s : HeapState) (block prev : Nat) : HeapState :=
  let s2 : HeapState := heap_unlink s block
  let s3 : HeapState := if (s2.mem block).flags &&& BLOCK_LAST ≠ 0 then
      wrH s2 prev { s2.mem prev with flags := (s2.mem prev).flags ||| BLOCK_LAST }
    else s2
  let s4 : HeapState := wrH s3 prev
    { s3.mem prev with
      size := ((s3.mem prev).size + ((HDR + (s3.mem block).size) % U64)) % U64 }
  let s5 : HeapState := wrH s4 prev { s4.mem prev with next := (s4.mem block).next }
  wrH s5 block { s5.mem block with magic := 0 }

/-- Lines 575-609 of heap.c: the backward-coalescing loop of
`heap_merge_blocks` — while the list-`prev` of `block` is free and
physically adjacent, absorb `block` into it and continue from there. -/
def heap_merge_bwd (s : HeapState) :
    Nat → Nat → Bool → Bool × HeapState
  | 0, _, acc => (acc, s)
  | fuel + 1, block, acc =>
    if (s.mem block).prev ≠ 0 ∧
        (s.mem ((s.mem block).prev)).flags &&& BLOCK_FREE ≠ 0 then
      let prev : Nat := (s.mem block).prev
      if (prev + HDR + (s.mem prev).size) % U64 = block then
        heap_merge_bwd (heap_merge_bwd_step s block prev) fuel prev true
      else (acc, s)
    else (acc, s)

/-- Lines 537-612 of heap.c: `heap_merge_blocks` — the forward loop, then
the backward loop from the (unchanged) starting block. -/
def heap_merge_blocks (s : HeapState) (block : Nat) : Bool × HeapState :=
  let r1 : Bool × HeapState := heap_merge_fwd s s.heapSize block false
  heap_merge_bwd r1.2 s.heapSize block r1.1

/-- Lines 431-442 of heap.c: mark `block` free, de-account its space, and
push it onto the free-list head with `prev = NULL`. -/
def heap_free_push (s : HeapState) (block : Nat) : HeapState :=
  let s1 : HeapState := wrH s block
    { s.mem block with flags := (s.mem block).flags ||| BLOCK_FREE }
  let s2 : HeapState := { s1 with
    usedSpace := sub64 s1.usedSpace (((s1.mem block).size + HDR) % U64) }
  let s3 : HeapState := wrH s2 block { s2.mem block with next := s2.freeList }
  let s4 : HeapState := wrH s3 block { s3.mem block with prev := 0 }
  let s5 : HeapState := if s4.freeList ≠ 0 then
      wrH s4 s4.freeList { s4.mem s4.freeList with prev := block }
    else s4
  { s5 with freeList := block }

/-- Lines 414-448 of heap.c: `heap_free_block` — magic and double-free
checks (logging and returning false, heap untouched), then mark free and
push (`heap_free_push`), and coalesce. -/
def heap_free_block (s : HeapState) (ptr : Nat) : Bool × HeapState :=
  let block : Nat := sub64 ptr HDR
  if (s.mem block).magic ≠ HEAP_MAGIC then (false, s)
  else if (s.mem block).flags &&& BLOCK_FREE ≠ 0 then (false, s)
  else (true, (heap_merge_blocks (heap_free_push s block) block).2)

/-- Lines 167-201 of heap.c: `kfree` — NULL check, direct-header probe,
then the aligned-allocation fallback that reads the stashed offset word
just below the pointer. -/
def kfree (s : HeapState) (ptr : Nat) : HeapState :=
  if ptr = 0 then s
  else
    let block : Nat := sub64 ptr HDR
    if (s.mem block).magic = HEAP_MAGIC ∧ (s.mem block).flags &&& BLOCK_FREE = 0 then
      (heap_free_block s ptr).2
    else
      if (s.heapStart + 8) % U64 ≤ ptr ∧ ptr < s.heapEnd then
        let offset : Nat := s.words (sub64 ptr 8)
        if 0 < offset ∧ offset < HEAP_MAX_ALLOC then
          (heap_free_block s (sub64 ptr offset)).2
        else s
      else s

/-- Lines 257-267 of heap.c (krealloc's in-place shrink): update the
shrunken header, then transfer the LAST flag or fix the back pointer of
the new block's (stale) list successor. -/
def krealloc_shrink_mid (s : HeapState) (header nb size2 : Nat) : HeapState :=
  let s6 : HeapState := wrH s header { s.mem header with size := size2 }
  let s7 : HeapState := wrH s6 header { s6.mem header with next := nb }
  if (s7.mem header).flags &&& BLOCK_LAST ≠ 0 then
    let s8a : HeapState := wrH s7 header
      { s7.mem header with flags := (s7.mem header).flags &&& 0xFFFFFFFD }
    wrH s8a nb { s8a.mem nb with flags := (s8a.mem nb).flags ||| BLOCK_LAST }
  else if (s7.mem nb).next ≠ 0 then
    wrH s7 ((s7.mem nb).next) { s7.mem ((s7.mem nb).next) with prev := nb }
  else s7

/-- Lines 270-277 of heap.c: push the new block onto the free list and
de-account its space. -/
def krealloc_shrink_push (s : HeapState) (nb : Nat) : HeapState :=
  let s9 : HeapState := wrH s nb { s.mem nb with next := s.freeList }
  let s10 : HeapState := if s9.freeList ≠ 0 then
      wrH s9 s9.freeList { s9.mem s9.freeList with prev := nb }
    else s9
  let s11 : HeapState := { s10 with freeList := nb }
  { s11 with usedSpace := sub64 s11.usedSpace (((s11.mem nb).size + HDR) % U64) }

/-- Lines 210-296 of heap.c: `krealloc` — NULL/0/oversize handling,
header validation, the in-place shrink path (whose inline split shares
the new-block write sequence of `heap_split_block`), and the
allocate-copy-free growth path (the data copy is outside the header
model). -/
def krealloc (s : HeapState) (ptr size : Nat) : Nat × HeapState :=
  if ptr = 0 then kmalloc s size
  else if size = 0 then (0, kfree s ptr)
  else if HEAP_MAX_ALLOC < size then (0, s)
  else
    let header : Nat := sub64 ptr HDR
    if ¬((s.mem header).magic = HEAP_MAGIC ∧
        (s.mem header).flags &&& BLOCK_FREE = 0) then (0, s)
    else if size ≤ (s.mem header).size then
      let size1 : Nat := ((size + 7) % U64) &&& (U64 - 8)
      let size2 : Nat := if size1 < HEAP_MIN_ALLOC then HEAP_MIN_ALLOC else size1
      if HDR + HEAP_MIN_ALLOC ≤ sub64 ((s.mem header).size) size2 then
        let nb : Nat := (header + HDR + size2) % U64
        (ptr, krealloc_shrink_push
          (krealloc_shrink_mid (heap_split_write_new s header nb size2) header nb size2)
          nb)
      else (ptr, s)
    else
      let r : Nat × HeapState := kmalloc s size
      if r.1 = 0 then (0, r.2)
      else (r.1, kfree r.2 ptr)

/-- An 8 KiB heap at `0x1000` freshly initialized: one free+last block at
`0x1000` of size 8160. -/
def heapTrace1 : HeapState := heap_init heap0 0x1000 8192

/-- After `kmalloc(100)` (returns `0x1020`, block header `0x1000`). -/
def heapTrace2 : HeapState := (kmalloc heapTrace1 100).2

/-- After a second `kmalloc(100)` (returns `0x10A8`, header `0x1088`). -/
def heapTrace3 : HeapState := (kmalloc heapTrace2 100).2

/-- After a third `kmalloc(100)` (returns `0x1130`, header `0x1110`). -/
def heapTrace4 : HeapState := (kmalloc heapTrace3 100).2

/-- After `kfree(0x1020)`: block `0x1000` free. -/
def heapTrace5 : HeapState := kfree heapTrace4 0x1020

/-- After `kfree(0x10A8)`: blocks `0x1000` and `0x1088` both free. -/
def heapTrace6 : HeapState := kfree heapTrace5 0x10A8

/-- Claim C2 fails as a code bug: allocate three adjacent 104-byte blocks
(headers `0x1000`, `0x1088`, `0x1110`), free the first, then free the
second.  The second `kfree` cannot merge forward (the third block is
allocated) and its backward merge is dead code: `heap_free_block`
(heap.c line 438) sets `block->prev = NULL` before calling
`heap_merge_blocks`, so the `while (block->prev != NULL && ...)` loop
(line 575) never runs.  After the call the two physically adjacent blocks
`0x1000` and `0x1088` are both marked free, unmerged. -/
theorem C2_adjacent_free_after_kfree :
    (kmalloc heapTrace1 100).1 = 0x1020 ∧
    (kmalloc heapTrace2 100).1 = 0x10A8 ∧
    (kmalloc heapTrace3 100).1 = 0x1130 ∧
    (heapTrace6.mem 0x1000).magic = HEAP_MAGIC ∧
    (heapTrace6.mem 0x1088).magic = HEAP_MAGIC ∧
    (heapTrace6.mem 0x1000).flags &&& BLOCK_FREE ≠ 0 ∧
    (heapTrace6.mem 0x1088).flags &&& BLOCK_FREE ≠ 0 ∧
    0x1000 + HDR + (heapTrace6.mem 0x1000).size = 0x1088 := by
  decide

/-- Counterexample to claim C3: double frees do not reach any panic path
(heap.c and memory.c contain none).  Freeing `0x1020` a second time hits
the `BLOCK_FREE` check of `heap_free_block` (heap.c line 425), which
logs and returns `false` with the heap untouched; and `mm_free_page` on a
frame whose bit is already clear (page 256 of an all-free bitmap) returns
normally, silently decrementing `used_pages`. -/
theorem C3_counterexample :
    (heap_free_block heapTrace5 0x1020).1 = false ∧
    (heap_free_block heapTrace5 0x1020).2 = heapTrace5 ∧
    (mm_free_page ⟨[0, 0, 0, 0, 0], 5, 320, 5⟩ 0x100000).bitmap = [0, 0, 0, 0, 0] ∧
    (mm_free_page ⟨[0, 0, 0, 0, 0], 5, 320, 5⟩ 0x100000).usedPages = 4 := by
  refine ⟨by decide, rfl, by decide, by decide⟩

/-- Claim C3 (amended).  Neither allocator panics on a double free — no
panic path exists in heap.c or memory.c.  Instead: `heap_free_block` on a
block whose `BLOCK_FREE` flag is already set (or whose magic is corrupt)
logs an error and returns `false` with the heap state unchanged; and
`mm_free_page` on an in-range frame whose bitmap bit is already clear
returns normally, leaving every bitmap bit as it was while silently
decrementing `used_pages`. -/
theorem C3_double_free_tolerated (s : HeapState) (ptr : Nat)
    (fs : FrameState) (addr : Nat)
    (hfree : (s.mem (sub64 ptr HDR)).flags &&& BLOCK_FREE ≠ 0)
    (haddr : managed_memory_start ≤ addr)
    (hrange : addr / PAGE_SIZE < fs.totalPages)
    (hclear : bitmap_test fs (addr / PAGE_SIZE) = false)
    (hlen : fs.bitmap.length = fs.bitmapEntries)
    (htp : fs.totalPages ≤ 64 * fs.bitmapEntries) :
    heap_free_block s ptr = (false, s) ∧
    (mm_free_page fs addr).usedPages = (fs.usedPages + (U64 - 1)) % U64 ∧
    ∀ q, bitmap_test (mm_free_page fs addr) q = bitmap_test fs q := by
  refine ⟨?_, ?_, ?_⟩
  · unfold heap_free_block
    by_cases hm : (s.mem (sub64 ptr HDR)).magic ≠ HEAP_MAGIC
    · rw [if_pos hm]
    · rw [if_neg hm, if_pos hfree]
  · unfold mm_free_page
    rw [if_neg (by omega : ¬addr < managed_memory_start),
      if_neg (by omega : ¬fs.totalPages ≤ addr / PAGE_SIZE)]
    show ((bitmap_clear fs (addr / PAGE_SIZE)).usedPages + (U64 - 1)) % U64
      = (fs.usedPages + (U64 - 1)) % U64
    rw [bitmap_clear_usedPages]
  · intro q
    have hdivlen : addr / PAGE_SIZE / 64 < fs.bitmap.length := by
      rw [hlen]
      omega
    unfold mm_free_page
    rw [if_neg (by omega : ¬addr < managed_memory_start),
      if_neg (by omega : ¬fs.totalPages ≤ addr / PAGE_SIZE)]
    show bitmap_test { bitmap_clear fs (addr / PAGE_SIZE) with
      usedPages := ((bitmap_clear fs (addr / PAGE_SIZE)).usedPages + (U64 - 1)) % U64 } q
      = bitmap_test fs q
    rw [bitmap_test_withUsed, bitmap_test_clear fs (addr / PAGE_SIZE) q hdivlen]
    by_cases hq : q = addr / PAGE_SIZE
    · rw [if_pos hq, hq, hclear]
    · rw [if_neg hq]

/-- Witness for C3 (amended): a second free of `0x1020` on the concrete
trace heap returns `false` and leaves the state unchanged, and
`mm_free_page` at 1 MiB on an all-clear five-word bitmap keeps every bit
clear and drops `used_pages` from 5 to 4. -/
theorem C3_double_free_tolerated_witness :
    heap_free_block heapTrace5 0x1020 = (false, heapTrace5) ∧
    (mm_free_page ⟨[0, 0, 0, 0, 0], 5, 320, 5⟩ 0x100000).usedPages = 4 ∧
    bitmap_test (mm_free_page ⟨[0, 0, 0, 0, 0], 5, 320, 5⟩ 0x100000) 256 = false := by
  have H := C3_double_free_tolerated heapTrace5 0x1020 ⟨[0, 0, 0, 0, 0], 5, 320, 5⟩
    0x100000 (by decide) (by decide) (by decide) (by decide) (by decide) (by decide)
  refine ⟨H.1, ?_, ?_⟩
  · rw [H.2.1]
    decide
  · rw [H.2.2 256]
    decide

/-- The free list of `s` starting at `b` enumerates exactly the addresses
in `l` (following the `next` links, ending in NULL). -/
def isChain (s : HeapState) : Nat → List Nat → Prop
  | b, [] => b = 0
  | b, a :: l => b = a ∧ a ≠ 0 ∧ isChain s ((s.mem a).next) l

instance isChainDec (s : HeapState) : (b : Nat) → (l : List Nat) → Decidable (isChain s b l)
  | b, [] => by unfold isChain; infer_instance
  | b, a :: l => by
    unfold isChain
    have := isChainDec s ((s.mem a).next) l
    infer_instance

/-- The candidates of the best-fit scan: list members that are free and
large enough (the condition of heap.c line 465). -/
def cands (s : HeapState) (size : Nat) (l : List Nat) : List Nat :=
  l.filter (fun a => decide ((s.mem a).flags &&& BLOCK_FREE ≠ 0 ∧ size ≤ (s.mem a).size))

/-- List form of the best-fit scan, mirroring `heap_find_free_go` branch
for branch. -/
def findBest (s : HeapState) (size : Nat) : List Nat → Nat → Nat → Nat
  | [], bb, _ => bb
  | a :: l, bb, bs =>
    if (s.mem a).flags &&& BLOCK_FREE ≠ 0 ∧ size ≤ (s.mem a).size then
      if (s.mem a).size < bs then
        if (s.mem a).size = size then a
        else findBest s size l a ((s.mem a).size)
      else findBest s size l bb bs
    else findBest s size l bb bs

theorem isChain_ne_zero (s : HeapState) (l : List Nat) :
    ∀ b, isChain s b l → ∀ x ∈ l, x ≠ 0 := by
  induction l with
  | nil =>
    intro b _ x hx
    exact absurd hx (List.not_mem_nil x)
  | cons a l ih =>
    intro b hchain x hx
    obtain ⟨hb, ha0, hrest⟩ := hchain
    rcases List.mem_cons.mp hx with rfl | hx'
    · exact ha0
    · exact ih ((s.mem a).next) hrest x hx'

/-- With enough fuel, the fueled scan agrees with the list scan over the
chain enumeration. -/
theorem go_eq_findBest (s : HeapState) (size : Nat) (l : List Nat) :
    ∀ (fuel b bb bs : Nat), isChain s b l → l.length < fuel →
    heap_find_free_go s size fuel b bb bs = findBest s size l bb bs := by
  induction l with
  | nil =>
    intro fuel b bb bs hchain hfuel
    have hb : b = 0 := hchain
    subst hb
    cases fuel with
    | zero => simp at hfuel
    | succ f => simp [heap_find_free_go, findBest]
  | cons a l ih =>
    intro fuel b bb bs hchain hfuel
    obtain ⟨hb, ha0, hrest⟩ := hchain
    subst hb
    cases fuel with
    | zero => simp at hfuel
    | succ f =>
      have hflen : l.length < f := by
        simp at hfuel
        omega
      simp only [heap_find_free_go, findBest]
      rw [if_neg ha0]
      by_cases hcand : (s.mem b).flags &&& BLOCK_FREE ≠ 0 ∧ size ≤ (s.mem b).size
      · rw [if_pos hcand, if_pos hcand]
        by_cases hlt : (s.mem b).size < bs
        · rw [if_pos hlt, if_pos hlt]
          by_cases heqs : (s.mem b).size = size
          · rw [if_pos heqs, if_pos heqs]
          · rw [if_neg heqs, if_neg heqs]
            exact ih f ((s.mem b).next) b ((s.mem b).size) hrest hflen
        · rw [if_neg hlt, if_neg hlt]
          exact ih f ((s.mem b).next) bb bs hrest hflen
      · rw [if_neg hcand, if_neg hcand]
        exact ih f ((s.mem b).next) bb bs hrest hflen

/-- Accumulator characterisation of the best-fit scan: either no candidate
beats the running best (`bs`), or the result is a candidate smaller than
`bs`, strictly smaller than every earlier candidate and no larger than
every later one (first-tie, minimal) — the early exit on an exact fit is
covered because an exact fit is automatically minimal among candidates. -/
theorem findBest_spec_aux (s : HeapState) (size : Nat) (l : List Nat) :
    ∀ bb bs,
    (findBest s size l bb bs = bb ∧ ∀ x ∈ cands s size l, bs ≤ (s.mem x).size) ∨
    (∃ l1 l2, cands s size l = l1 ++ findBest s size l bb bs :: l2 ∧
      (s.mem (findBest s size l bb bs)).size < bs ∧
      (∀ x ∈ l1, (s.mem (findBest s size l bb bs)).size < (s.mem x).size) ∧
      (∀ x ∈ l2, (s.mem (findBest s size l bb bs)).size ≤ (s.mem x).size)) := by
  induction l with
  | nil =>
    intro bb bs
    left
    refine ⟨rfl, ?_⟩
    intro x hx
    simp [cands] at hx
  | cons a l ih =>
    intro bb bs
    by_cases hcand : (s.mem a).flags &&& BLOCK_FREE ≠ 0 ∧ size ≤ (s.mem a).size
    · have hcands : cands s size (a :: l) = a :: cands s size l := by
        unfold cands
        rw [List.filter_cons, if_pos (decide_eq_true hcand)]
      by_cases hlt : (s.mem a).size < bs
      · by_cases heqs : (s.mem a).size = size
        · have hres : findBest s size (a :: l) bb bs = a := by
            simp only [findBest]
            rw [if_pos hcand, if_pos hlt, if_pos heqs]
          right
          refine ⟨[], cands s size l, ?_, ?_, ?_, ?_⟩
          · rw [hres, hcands]
            rfl
          · rw [hres]
            exact hlt
          · intro x hx
            exact absurd hx (List.not_mem_nil x)
          · intro x hx
            rw [hres, heqs]
            exact (of_decide_eq_true (List.mem_filter.mp hx).2).2
        · have hres : findBest s size (a :: l) bb bs
              = findBest s size l a ((s.mem a).size) := by
            simp only [findBest]
            rw [if_pos hcand, if_pos hlt, if_neg heqs]
          rcases ih a ((s.mem a).size) with ⟨hr, hall⟩ | ⟨l1, l2, hc, hlt2, h1, h2⟩
          · right
            refine ⟨[], cands s size l, ?_, ?_, ?_, ?_⟩
            · rw [hres, hr, hcands]
              rfl
            · rw [hres, hr]
              exact hlt
            · intro x hx
              exact absurd hx (List.not_mem_nil x)
            · intro x hx
              rw [hres, hr]
              exact hall x hx
          · right
            refine ⟨a :: l1, l2, ?_, ?_, ?_, ?_⟩
            · rw [hres, hcands, hc]
              rfl
            · rw [hres]
              exact lt_trans hlt2 hlt
            · intro x hx
              rcases List.mem_cons.mp hx with rfl | hx'
              · rw [hres]
                exact hlt2
              · rw [hres]
                exact h1 x hx'
            · intro x hx
              rw [hres]
              exact h2 x hx
      · have hres : findBest s size (a :: l) bb bs = findBest s size l bb bs := by
          simp only [findBest]
          rw [if_pos hcand, if_neg hlt]
        rcases ih bb bs with ⟨hr, hall⟩ | ⟨l1, l2, hc, hlt2, h1, h2⟩
        · left
          refine ⟨by rw [hres, hr], ?_⟩
          intro x hx
          rw [hcands] at hx
          rcases List.mem_cons.mp hx with rfl | hx'
          · exact Nat.le_of_not_lt hlt
          · exact hall x hx'
        · right
          refine ⟨a :: l1, l2, ?_, ?_, ?_, ?_⟩
          · rw [hres, hcands, hc]
            rfl
          · rw [hres]
            exact hlt2
          · intro x hx
            rcases List.mem_cons.mp hx with rfl | hx'
            · rw [hres]
              exact lt_of_lt_of_le hlt2 (Nat.le_of_not_lt hlt)
            · rw [hres]
              exact h1 x hx'
          · intro x hx
            rw [hres]
            exact h2 x hx
    · have hcands : cands s size (a :: l) = cands s size l := by
        unfold cands
        rw [List.filter_cons, if_neg (by simpa using hcand)]
      have hres : findBest s size (a :: l) bb bs = findBest s size l bb bs := by
        simp only [findBest]
        rw [if_neg hcand]
      rw [hres, hcands]
      exact ih bb bs

/-- When the scan fails, `heap_allocate_block` returns NULL with the heap
untouched (heap.c lines 370-380). -/
theorem heap_allocate_block_none (s : HeapState) (size : Nat)
    (hfind : heap_find_free_block s size = 0) :
    heap_allocate_block s size = (0, s) := by
  simp only [heap_allocate_block]
  by_cases hs0 : s.heapStart = 0
  · rw [if_pos hs0]
  · rw [if_neg hs0, if_pos hfind]

theorem split_fst_or (G : Prop) [Decidable G] (s2 : HeapState) (b size : Nat) :
    (if G then heap_split_block s2 b size else (b, s2)).1 = b := by
  split
  · rfl
  · rfl

/-- On success, the pointer `heap_allocate_block` returns is the data area
of exactly the block chosen by the best-fit scan (splitting keeps the
block's own address, heap.c lines 393-405). -/
theorem heap_allocate_block_fst (s : HeapState) (size : Nat)
    (hs0 : ¬s.heapStart = 0) (hb0 : ¬heap_find_free_block s size = 0) :
    (heap_allocate_block s size).1 = (heap_find_free_block s size + HDR) % U64 := by
  simp only [heap_allocate_block]
  rw [if_neg hs0, if_neg hb0, split_fst_or]

/-- Claim C8 (confirmed): the block `heap_allocate_block`/`kmalloc` takes
from the free list is the best fit.  With the free list enumerated by `l`
(shorter than the `heapSize` scan bound) and no candidate of size
`SIZE_MAX`: if no free block is at least `size` bytes the scan returns
NULL and allocation fails with the heap untouched; otherwise the chosen
block is a candidate, strictly smaller than every candidate before it and
no larger than any candidate after it (smallest size, ties to the first
found — the early exit on an exact fit cannot change this, an exact fit
being minimal), and the returned pointer is that block's data area.
`kmalloc` delegates with the 8-aligned, minimum-clamped size. -/
theorem C8_best_fit (s : HeapState) (size : Nat) (l : List Nat)
    (hchain : isChain s s.freeList l)
    (hfuel : l.length < s.heapSize)
    (hs0 : s.heapStart ≠ 0)
    (hsz : ∀ x ∈ cands s size l, (s.mem x).size < U64 - 1) :
    (cands s size l = [] → heap_find_free_block s size = 0 ∧
      heap_allocate_block s size = (0, s)) ∧
    (cands s size l ≠ [] →
      heap_find_free_block s size ∈ cands s size l ∧
      (∃ l1 l2, cands s size l = l1 ++ heap_find_free_block s size :: l2 ∧
        (∀ x ∈ l1, (s.mem (heap_find_free_block s size)).size < (s.mem x).size) ∧
        (∀ x ∈ l2, (s.mem (heap_find_free_block s size)).size ≤ (s.mem x).size)) ∧
      (heap_allocate_block s size).1 = (heap_find_free_block s size + HDR) % U64) ∧
    (∀ sz, ¬(sz = 0 ∨ HEAP_MAX_ALLOC < sz) →
      kmalloc s sz = heap_allocate_block s
        (if ((sz + 7) % U64) &&& (U64 - 8) < HEAP_MIN_ALLOC then HEAP_MIN_ALLOC
         else ((sz + 7) % U64) &&& (U64 - 8))) := by
  have hgo : heap_find_free_block s size = findBest s size l 0 (U64 - 1) := by
    unfold heap_find_free_block
    exact go_eq_findBest s size l s.heapSize s.freeList 0 (U64 - 1) hchain hfuel
  refine ⟨?_, ?_, ?_⟩
  · intro hnil
    rcases findBest_spec_aux s size l 0 (U64 - 1) with ⟨hr, _⟩ | ⟨l1, l2, hc, _⟩
    · have hfind : heap_find_free_block s size = 0 := by rw [hgo, hr]
      exact ⟨hfind, heap_allocate_block_none s size hfind⟩
    · rw [hnil] at hc
      exact absurd hc.symm (List.append_ne_nil_of_right_ne_nil l1 (List.cons_ne_nil _ l2))
  · intro hne
    rcases findBest_spec_aux s size l 0 (U64 - 1) with ⟨hr, hall⟩ | ⟨l1, l2, hc, hlt, h1, h2⟩
    · obtain ⟨x, hx⟩ := List.exists_mem_of_ne_nil _ hne
      exact absurd (hall x hx) (Nat.not_le_of_lt (hsz x hx))
    · rw [← hgo] at hc h1 h2 hlt
      have hmem : heap_find_free_block s size ∈ cands s size l := by
        rw [hc]
        exact List.mem_append_right l1 (List.mem_cons_self _ _)
      have hb0 : heap_find_free_block s size ≠ 0 :=
        isChain_ne_zero s l s.freeList hchain _ (List.mem_of_mem_filter hmem)
      exact ⟨hmem, ⟨l1, l2, hc, h1, h2⟩, heap_allocate_block_fst s size hs0 hb0⟩
  · intro sz hsz'
    simp only [kmalloc]
    rw [if_neg hsz']

/-- A two-block free list: a 48-byte free block at `0x1000` followed by a
16-byte free (and last) block at `0x2000`. -/
def bestFitTestState : HeapState where
  mem := fun a =>
    if a = 0x1000 then ⟨HEAP_MAGIC, 1, 48, 0, 0x2000⟩
    else if a = 0x2000 then ⟨HEAP_MAGIC, 3, 16, 0x1000, 0⟩
    else ⟨0, 0, 0, 0, 0⟩
  words := fun _ => 0
  heapStart := 0x1000
  heapEnd := 0x3000
  heapSize := 100
  usedSpace := 0
  freeList := 0x1000

/-- Witness for C8: requesting 16 bytes on a free list holding a 48-byte
block then a 16-byte block picks the exact-fit second block, and the
allocator returns its data pointer. -/
theorem C8_best_fit_witness :
    heap_find_free_block bestFitTestState 16 ∈ cands bestFitTestState 16 [0x1000, 0x2000] ∧
    (heap_allocate_block bestFitTestState 16).1
      = (heap_find_free_block bestFitTestState 16 + HDR) % U64 := by
  have H := C8_best_fit bestFitTestState 16 [0x1000, 0x2000]
    (by decide) (by decide) (by decide) (by decide)
  obtain ⟨hmem, _, hfst⟩ := H.2.1 (by decide)
  exact ⟨hmem, hfst⟩

/-! ## Arena tiling (spec section: walking physical blocks start to Last) -/

/-- A valid physical walk from block `b` to the end of the arena: each
step advances by `sizeof(header) + size`, and the block carrying the
`BLOCK_LAST` flag ends exactly at `heapEnd` — so the `(header + size)`
sums tile the arena with no gap and no overlap. -/
inductive Walks (s : HeapState) : Nat → Prop
  | last (b : Nat) : (s.mem b).flags &&& BLOCK_LAST ≠ 0 →
      b + HDR + (s.mem b).size = s.heapEnd → Walks s b
  | step (b : Nat) : (s.mem b).flags &&& BLOCK_LAST = 0 →
      Walks s (b + HDR + (s.mem b).size) → Walks s b

/-- `b` lies on the physical walk starting at `h`. -/
inductive Reach (s : HeapState) : Nat → Nat → Prop
  | refl (b : Nat) : Reach s b b
  | step (a b : Nat) : (s.mem a).flags &&& BLOCK_LAST = 0 →
      Reach s (a + HDR + (s.mem a).size) b → Reach s a b

/-- The arena tiling invariant: the heap bounds are consistent (no wrap)
and the walk from `heapStart` tiles the arena exactly. -/
def tiling (s : HeapState) : Prop :=
  s.heapEnd = s.heapStart + s.heapSize ∧ s.heapEnd < U64 ∧ Walks s s.heapStart

theorem wrH_mem (s : HeapState) (a : Nat) (h : Header) (x : Nat) :
    (wrH s a h).mem x = if x = a then h else s.mem x := rfl

theorem wrH_mem_hit (s : HeapState) (a : Nat) (h : Header) :
    (wrH s a h).mem a = h := by
  rw [wrH_mem, if_pos rfl]

theorem wrH_mem_ne (s : HeapState) (a : Nat) (h : Header) (x : Nat) (hx : x ≠ a) :
    (wrH s a h).mem x = s.mem x := by
  rw [wrH_mem, if_neg hx]

theorem wrH_heapStart (s : HeapState) (a : Nat) (h : Header) :
    (wrH s a h).heapStart = s.heapStart := rfl

theorem wrH_heapEnd (s : HeapState) (a : Nat) (h : Header) :
    (wrH s a h).heapEnd = s.heapEnd := rfl

theorem wrH_heapSize (s : HeapState) (a : Nat) (h : Header) :
    (wrH s a h).heapSize = s.heapSize := rfl

theorem wrH_freeList (s : HeapState) (a : Nat) (h : Header) :
    (wrH s a h).freeList = s.freeList := rfl

/-- `(f | g) & c` distributes. -/
theorem or_land (f g c : Nat) : (f ||| g) &&& c = (f &&& c) ||| (g &&& c) := by
  apply Nat.eq_of_testBit_eq
  intro i
  rw [Nat.testBit_land, Nat.testBit_lor, Nat.testBit_lor, Nat.testBit_land,
    Nat.testBit_land]
  cases f.testBit i <;> cases g.testBit i <;> cases c.testBit i <;> rfl

/-- Setting `BLOCK_FREE` keeps the `BLOCK_LAST` bit. -/
theorem or_free_last (f : Nat) :
    (f ||| BLOCK_FREE) &&& BLOCK_LAST = f &&& BLOCK_LAST := by
  rw [or_land, show BLOCK_FREE &&& BLOCK_LAST = 0 from by decide, Nat.or_zero]

/-- Setting `BLOCK_LAST` makes the `BLOCK_LAST` test succeed. -/
theorem or_last_last (f : Nat) : (f ||| BLOCK_LAST) &&& BLOCK_LAST ≠ 0 := by
  rw [or_land, show BLOCK_LAST &&& BLOCK_LAST = BLOCK_LAST from by decide]
  intro h
  have h1 : ((f &&& BLOCK_LAST) ||| BLOCK_LAST).testBit 1 = true := by
    rw [Nat.testBit_lor]
    simp [show BLOCK_LAST.testBit 1 = true from by decide]
  rw [h] at h1
  simp at h1

/-- Setting `BLOCK_LAST` keeps the `BLOCK_FREE` bit. -/
theorem or_last_free (f : Nat) :
    (f ||| BLOCK_LAST) &&& BLOCK_FREE = f &&& BLOCK_FREE := by
  rw [or_land, show BLOCK_LAST &&& BLOCK_FREE = 0 from by decide, Nat.or_zero]

/-- `flags &= ~BLOCK_LAST` clears the `BLOCK_LAST` test. -/
theorem and_not_last (f : Nat) : (f &&& 0xFFFFFFFD) &&& BLOCK_LAST = 0 := by
  rw [Nat.land_assoc, show ((0xFFFFFFFD : Nat) &&& BLOCK_LAST) = 0 from by decide,
    Nat.and_zero]

/-- `flags &= ~BLOCK_LAST` keeps the `BLOCK_FREE` bit. -/
theorem and_not_last_free (f : Nat) :
    (f &&& 0xFFFFFFFD) &&& BLOCK_FREE = f &&& BLOCK_FREE := by
  rw [Nat.land_assoc, show ((0xFFFFFFFD : Nat) &&& BLOCK_FREE) = BLOCK_FREE from by decide]

/-- `flags &= ~BLOCK_FREE` keeps the `BLOCK_LAST` bit. -/
theorem and_not_free_last (f : Nat) :
    (f &&& 0xFFFFFFFE) &&& BLOCK_LAST = f &&& BLOCK_LAST := by
  rw [Nat.land_assoc, show ((0xFFFFFFFE : Nat) &&& BLOCK_LAST) = BLOCK_LAST from by decide]

/-- Flags-size agreement: `s'` has the same heap bounds and, at every
address, the same flags and size as `s` — everything the physical walk
reads.  Pointer-field, magic and accounting writes are `FS`-neutral. -/
def FS (s s' : HeapState) : Prop :=
  s'.heapStart = s.heapStart ∧ s'.heapEnd = s.heapEnd ∧ s'.heapSize = s.heapSize ∧
  ∀ x, (s'.mem x).flags = (s.mem x).flags ∧ (s'.mem x).size = (s.mem x).size

theorem FS_refl (s : HeapState) : FS s s :=
  ⟨rfl, rfl, rfl, fun _ => ⟨rfl, rfl⟩⟩

theorem FS_trans (s1 s2 s3 : HeapState) (h12 : FS s1 s2) (h23 : FS s2 s3) : FS s1 s3 :=
  ⟨h23.1.trans h12.1, h23.2.1.trans h12.2.1, h23.2.2.1.trans h12.2.2.1,
   fun x => ⟨(h23.2.2.2 x).1.trans (h12.2.2.2 x).1,
     (h23.2.2.2 x).2.trans (h12.2.2.2 x).2⟩⟩

theorem FS_wrH (s : HeapState) (a : Nat) (h : Header)
    (hf : h.flags = (s.mem a).flags) (hs : h.size = (s.mem a).size) :
    FS s (wrH s a h) := by
  refine ⟨rfl, rfl, rfl, ?_⟩
  intro x
  rw [wrH_mem]
  by_cases hx : x = a
  · rw [if_pos hx, hx, hf, hs]
    exact ⟨rfl, rfl⟩
  · rw [if_neg hx]
    exact ⟨rfl, rfl⟩

theorem FS_wrH_prev (s : HeapState) (a p : Nat) :
    FS s (wrH s a { s.mem a with prev := p }) :=
  FS_wrH s a _ rfl rfl

theorem FS_wrH_next (s : HeapState) (a n : Nat) :
    FS s (wrH s a { s.mem a with next := n }) :=
  FS_wrH s a _ rfl rfl

theorem FS_wrH_magic (s : HeapState) (a m : Nat) :
    FS s (wrH s a { s.mem a with magic := m }) :=
  FS_wrH s a _ rfl rfl

theorem FS_freeList (s : HeapState) (v : Nat) : FS s { s with freeList := v } :=
  ⟨rfl, rfl, rfl, fun _ => ⟨rfl, rfl⟩⟩

theorem FS_usedSpace (s : HeapState) (u : Nat) : FS s { s with usedSpace := u } :=
  ⟨rfl, rfl, rfl, fun _ => ⟨rfl, rfl⟩⟩

theorem FS_unlink1 (s : HeapState) (b : Nat) :
    FS s (if (s.mem b).prev ≠ 0 ∧
        (s.mem ((s.mem b).prev)).flags &&& BLOCK_FREE ≠ 0 then
      wrH s ((s.mem b).prev) { s.mem ((s.mem b).prev) with next := (s.mem b).next }
    else { s with freeList := (s.mem b).next }) := by
  split
  · exact FS_wrH_next s _ _
  · exact FS_freeList s _

theorem FS_unlink2 (t : HeapState) (b : Nat) :
    FS t (if (t.mem b).next ≠ 0 ∧
        (t.mem ((t.mem b).next)).flags &&& BLOCK_FREE ≠ 0 then
      wrH t ((t.mem b).next) { t.mem ((t.mem b).next) with prev := (t.mem b).prev }
    else t) := by
  split
  · exact FS_wrH_prev t _ _
  · exact FS_refl t

/-- The free-list unlink only rewires pointer fields. -/
theorem FS_heap_unlink (s : HeapState) (b : Nat) : FS s (heap_unlink s b) :=
  FS_trans _ _ _ (FS_unlink1 s b) (FS_unlink2 _ b)

theorem walks_congr_FS (s s' : HeapState) (hfs : FS s s') :
    ∀ b, Walks s b → Walks s' b := by
  intro b hw
  induction hw with
  | last b hl he =>
    exact Walks.last b (by rw [(hfs.2.2.2 b).1]; exact hl)
      (by rw [(hfs.2.2.2 b).2, hfs.2.1]; exact he)
  | step b hl _ ih =>
    refine Walks.step b (by rw [(hfs.2.2.2 b).1]; exact hl) ?_
    rw [(hfs.2.2.2 b).2]
    exact ih

theorem reach_congr_FS (s s' : HeapState) (hfs : FS s s') :
    ∀ h b, Reach s h b → Reach s' h b := by
  intro h b hr
  induction hr with
  | refl b => exact Reach.refl b
  | step a b hl _ ih =>
    refine Reach.step a b (by rw [(hfs.2.2.2 a).1]; exact hl) ?_
    rw [(hfs.2.2.2 a).2]
    exact ih

theorem reach_le (s : HeapState) (h b : Nat) (hr : Reach s h b) : h ≤ b := by
  induction hr with
  | refl b => exact Nat.le_refl b
  | step a b hl _ ih =>
    have hH : HDR = 32 := rfl
    omega

theorem reach_snoc (s : HeapState) (h b : Nat) (hr : Reach s h b)
    (hl : (s.mem b).flags &&& BLOCK_LAST = 0) :
    Reach s h (b + HDR + (s.mem b).size) := by
  induction hr with
  | refl b => exact Reach.step b _ hl (Reach.refl _)
  | step a b hl2 hr2 ih => exact Reach.step a _ hl2 (ih hl)

theorem reach_walks (s : HeapState) (h b : Nat) (hr : Reach s h b)
    (hw : Walks s h) : Walks s b := by
  induction hr with
  | refl b => exact hw
  | step a b hl hr2 ih =>
    cases hw with
    | last _ hl2 _ => exact absurd hl2 (by rw [hl]; exact fun h => h rfl)
    | step _ _ hnext => exact ih hnext

theorem walks_end_le (s : HeapState) (b : Nat) (hw : Walks s b) :
    b + HDR + (s.mem b).size ≤ s.heapEnd := by
  induction hw with
  | last b hl he => omega
  | step b hl hnext ih =>
    have hH : HDR = 32 := rfl
    omega

/-- Rebuild a walk from `h` when everything strictly before `b` reads the
same and the walk holds from `b` in the new state. -/
theorem walks_prefix (s s' : HeapState) :
    ∀ b h, Reach s h b →
    (∀ a, a < b → (s'.mem a).flags &&& BLOCK_LAST = (s.mem a).flags &&& BLOCK_LAST
      ∧ (s'.mem a).size = (s.mem a).size) →
    Walks s' b → Walks s' h := by
  intro b h hr
  induction hr with
  | refl b =>
    intro _ hw
    exact hw
  | step a b hl hnext ih =>
    intro hag hw
    have hH : HDR = 32 := rfl
    have hab : a < b := by
      have := reach_le s _ _ hnext
      omega
    have hga := hag a hab
    refine Walks.step a (by rw [hga.1]; exact hl) ?_
    rw [hga.2]
    exact ih hag hw

/-- Transport reachability when everything strictly before the target
reads the same. -/
theorem reach_prefix_congr (s s' : HeapState) :
    ∀ b h, Reach s h b →
    (∀ a, a < b → (s'.mem a).flags &&& BLOCK_LAST = (s.mem a).flags &&& BLOCK_LAST
      ∧ (s'.mem a).size = (s.mem a).size) →
    Reach s' h b := by
  intro b h hr
  induction hr with
  | refl b =>
    intro _
    exact Reach.refl b
  | step a b hl hnext ih =>
    intro hag
    have hH : HDR = 32 := rfl
    have hab : a < b := by
      have := reach_le s _ _ hnext
      omega
    have hga := hag a hab
    refine Reach.step a b (by rw [hga.1]; exact hl) ?_
    rw [hga.2]
    exact ih hag

/-- Transport a walk from `c` upward when everything from `c` on reads the
same. -/
theorem walks_congr_ge (s s' : HeapState) (c : Nat)
    (hend : s'.heapEnd = s.heapEnd)
    (hag : ∀ a, c ≤ a → (s'.mem a).flags &&& BLOCK_LAST = (s.mem a).flags &&& BLOCK_LAST
      ∧ (s'.mem a).size = (s.mem a).size) :
    ∀ b, Walks s b → c ≤ b → Walks s' b := by
  intro b hw
  induction hw with
  | last b hl he =>
    intro hcb
    exact Walks.last b (by rw [(hag b hcb).1]; exact hl)
      (by rw [(hag b hcb).2, hend]; exact he)
  | step b hl hnext ih =>
    intro hcb
    refine Walks.step b (by rw [(hag b hcb).1]; exact hl) ?_
    rw [(hag b hcb).2]
    exact ih (by omega)

theorem sub64_eq (a b : Nat) (hb : b ≤ a) (ha : a < U64) : sub64 a b = a - b := by
  unfold sub64
  rw [U64_eq] at ha ⊢
  omega

theorem land_U64_sub8 (a : Nat) (ha : a < U64) : a &&& (U64 - 8) = a / 8 * 8 := by
  have h1 : (U64 - 8 : Nat) = (2 ^ 61 - 1) <<< 3 := by
    rw [U64_eq]
    rfl
  have h2 : a / 8 * 8 = (a >>> 3) <<< 3 := by
    rw [Nat.shiftRight_eq_div_pow, Nat.shiftLeft_eq]
  apply Nat.eq_of_testBit_eq
  intro i
  rw [Nat.testBit_land, h1, h2, Nat.testBit_shiftLeft, Nat.testBit_shiftLeft,
    Nat.testBit_shiftRight, Nat.testBit_two_pow_sub_one]
  by_cases h3 : 3 ≤ i
  · have h4 : 3 + (i - 3) = i := by omega
    rw [h4]
    by_cases h5 : i < 64
    · have h6 : i - 3 < 61 := by omega
      simp [h3, h6]
    · rw [high_bit_zero a i ha (by omega)]
      simp
  · simp [h3]

/-- `heap_init` establishes the tiling invariant: the single initial block
is last and spans from the aligned start exactly to `heap_end`. -/
theorem heap_init_tiling (s : HeapState) (start size : Nat)
    (hmin : HEAP_MIN_SIZE ≤ size) (hlt : start + size < U64) :
    tiling (heap_init s start size) := by
  have hU : U64 = 18446744073709551616 := U64_eq
  have hM : HEAP_MIN_SIZE = 4096 := rfl
  have hH : HDR = 32 := rfl
  have hs7 : start + 7 < U64 := by omega
  set A := (start + 7) / 8 * 8 with hA0
  have hA1 : start ≤ A := by omega
  have hA2 : A ≤ start + 7 := by omega
  set S := size - (A - start) with hS0
  have hchar : heap_init s start size
      = wrH { s with
            heapStart := A,
            heapEnd := A + S,
            heapSize := S,
            usedSpace := 0,
            freeList := A } A
          ⟨HEAP_MAGIC, BLOCK_FREE ||| BLOCK_LAST, S - HDR, 0, 0⟩ := by
    simp only [heap_init]
    rw [if_neg (by omega : ¬size < HEAP_MIN_SIZE)]
    rw [Nat.mod_eq_of_lt hs7, land_U64_sub8 (start + 7) hs7, ← hA0]
    rw [sub64_eq A start hA1 (by omega)]
    rw [sub64_eq size (A - start) (by omega) (by omega), ← hS0]
    rw [Nat.mod_eq_of_lt (by omega : A + S < U64)]
    rw [sub64_eq S HDR (by omega) (by omega)]
    rfl
  rw [hchar]
  refine ⟨rfl, ?_, ?_⟩
  · show A + S < U64
    omega
  refine Walks.last A ?_ ?_
  · rw [wrH_mem_hit]
    exact or_last_last BLOCK_FREE
  · rw [wrH_mem_hit]
    show A + HDR + (S - HDR) = A + S
    omega

theorem heap_split_write_new_mem (s : HeapState) (block nb size : Nat)
    (hnb : nb ≠ block) :
    ∀ x, (heap_split_write_new s block nb size).mem x
      = if x = nb then
          ⟨HEAP_MAGIC, BLOCK_FREE, sub64 (sub64 ((s.mem block).size) size) HDR,
            block, (s.mem block).next⟩
        else s.mem x := by
  intro x
  simp only [heap_split_write_new, wrH_mem]
  by_cases hx : x = nb <;> simp [hx, Ne.symm hnb]

theorem heap_split_write_new_heapStart (s : HeapState) (block nb size : Nat) :
    (heap_split_write_new s block nb size).heapStart = s.heapStart := rfl

theorem heap_split_write_new_heapEnd (s : HeapState) (block nb size : Nat) :
    (heap_split_write_new s block nb size).heapEnd = s.heapEnd := rfl

theorem heap_split_write_new_heapSize (s : HeapState) (block nb size : Nat) :
    (heap_split_write_new s block nb size).heapSize = s.heapSize := rfl

theorem heap_split_neighbor_FS (s : HeapState) (block nb : Nat)
    (h : (s.mem block).flags &&& BLOCK_LAST = 0) :
    FS s (heap_split_neighbor s block nb) := by
  simp only [heap_split_neighbor]
  rw [if_pos h]
  split
  · exact FS_wrH_prev s _ _
  · exact FS_refl s

theorem heap_split_neighbor_last_mem (s : HeapState) (block nb : Nat)
    (h : (s.mem block).flags &&& BLOCK_LAST ≠ 0) (hnb : nb ≠ block) :
    ∀ x, (heap_split_neighbor s block nb).mem x
      = if x = block then { s.mem block with flags := (s.mem block).flags &&& 0xFFFFFFFD }
        else if x = nb then { s.mem nb with flags := (s.mem nb).flags ||| BLOCK_LAST }
        else s.mem x := by
  intro x
  simp only [heap_split_neighbor]
  rw [if_neg h]
  simp only [wrH_mem]
  by_cases hxb : x = block <;> by_cases hxn : x = nb <;>
    simp [hxb, hxn, hnb, Ne.symm hnb]

theorem heap_split_neighbor_heapStart (s : HeapState) (block nb : Nat) :
    (heap_split_neighbor s block nb).heapStart = s.heapStart := by
  simp only [heap_split_neighbor]
  split
  · split
    · rfl
    · rfl
  · rfl

theorem heap_split_neighbor_heapEnd (s : HeapState) (block nb : Nat) :
    (heap_split_neighbor s block nb).heapEnd = s.heapEnd := by
  simp only [heap_split_neighbor]
  split
  · split
    · rfl
    · rfl
  · rfl

theorem heap_split_neighbor_heapSize (s : HeapState) (block nb : Nat) :
    (heap_split_neighbor s block nb).heapSize = s.heapSize := by
  simp only [heap_split_neighbor]
  split
  · split
    · rfl
    · rfl
  · rfl

theorem heap_split_close_fs (s : HeapState) (block nb size : Nat) :
    ∀ x, ((heap_split_close s block nb size).mem x).flags = ((s.mem x)).flags ∧
      ((heap_split_close s block nb size).mem x).size
        = if x = block then size else (s.mem x).size := by
  have h7 : ∀ x, ((wrH s block { s.mem block with size := size }).mem x).flags
        = (s.mem x).flags ∧
      ((wrH s block { s.mem block with size := size }).mem x).size
        = if x = block then size else (s.mem x).size := by
    intro x
    rw [wrH_mem]
    by_cases hx : x = block
    · simp [hx]
    · simp [hx]
  have hFS : FS (wrH s block { s.mem block with size := size })
      (heap_split_close s block nb size) := by
    simp only [heap_split_close]
    set s7 := wrH s block { s.mem block with size := size } with h7d
    set s8 := wrH s7 block { s7.mem block with next := nb } with h8d
    set s9 := wrH s8 nb { s8.mem nb with next := s8.freeList } with h9d
    refine FS_trans _ _ _ ?_ (FS_freeList _ nb)
    refine FS_trans _ _ _ (FS_wrH_next s7 block nb) ?_
    refine FS_trans _ _ _ (FS_wrH_next s8 nb s8.freeList) ?_
    split
    · exact FS_wrH_prev s9 s9.freeList nb
    · exact FS_refl s9
  intro x
  have h1 := hFS.2.2.2 x
  exact ⟨h1.1.trans (h7 x).1, h1.2.trans (h7 x).2⟩

theorem heap_split_close_heapStart (s : HeapState) (block nb size : Nat) :
    (heap_split_close s block nb size).heapStart = s.heapStart := by
  simp only [heap_split_close]
  split
  · rfl
  · rfl

theorem heap_split_close_heapEnd (s : HeapState) (block nb size : Nat) :
    (heap_split_close s block nb size).heapEnd = s.heapEnd := by
  simp only [heap_split_close]
  split
  · rfl
  · rfl

theorem heap_split_close_heapSize (s : HeapState) (block nb size : Nat) :
    (heap_split_close s block nb size).heapSize = s.heapSize := by
  simp only [heap_split_close]
  split
  · rfl
  · rfl

/-- `heap_split_block` preserves the tiling: the block on the walk is
replaced by two consecutive blocks covering exactly its extent, the LAST
flag moving to the tail part when needed. -/
theorem heap_split_block_tiling (s : HeapState) (b size : Nat)
    (ht : tiling s) (hreach : Reach s s.heapStart b)
    (hguard : size + HDR + HEAP_MIN_ALLOC < (s.mem b).size) :
    tiling (heap_split_block s b size).2 := by
  obtain ⟨hEq, hU64, hw⟩ := ht
  have hH : HDR = 32 := rfl
  have hM : HEAP_MIN_ALLOC = 16 := rfl
  have hwb : Walks s b := reach_walks s _ b hreach hw
  have hendle : b + HDR + (s.mem b).size ≤ s.heapEnd := walks_end_le s b hwb
  have hszb : size < (s.mem b).size := by omega
  have hnb0 : (b + HDR + size) % U64 = b + HDR + size := Nat.mod_eq_of_lt (by omega)
  have hbne : b + HDR + size ≠ b := by omega
  simp only [heap_split_block]
  rw [hnb0]
  set W := heap_split_write_new s b (b + HDR + size) size with hWd
  set N := heap_split_neighbor W b (b + HDR + size) with hNd
  set F := heap_split_close N b (b + HDR + size) size with hFd
  have hWmem := heap_split_write_new_mem s b (b + HDR + size) size hbne
  have hWb : W.mem b = s.mem b := by
    rw [hWd, hWmem b, if_neg (Ne.symm hbne)]
  have hWnb : W.mem (b + HDR + size)
      = ⟨HEAP_MAGIC, BLOCK_FREE, sub64 (sub64 ((s.mem b).size) size) HDR, b,
          (s.mem b).next⟩ := by
    rw [hWd, hWmem (b + HDR + size), if_pos rfl]
  have hsub : sub64 (sub64 ((s.mem b).size) size) HDR = (s.mem b).size - size - HDR := by
    rw [sub64_eq ((s.mem b).size) size (le_of_lt hszb) (by omega),
      sub64_eq _ HDR (by omega) (by omega)]
  by_cases hlast : (s.mem b).flags &&& BLOCK_LAST = 0
  · have hNFS : FS W N := heap_split_neighbor_FS W b (b + HDR + size)
      (by rw [hWb]; exact hlast)
    have hFflags : ∀ x, (F.mem x).flags = (W.mem x).flags := fun x =>
      ((heap_split_close_fs N b (b + HDR + size) size x).1).trans ((hNFS.2.2.2 x).1)
    have hFsize : ∀ x, (F.mem x).size = if x = b then size else (W.mem x).size := by
      intro x
      rw [(heap_split_close_fs N b (b + HDR + size) size x).2]
      by_cases hx : x = b
      · rw [if_pos hx, if_pos hx]
      · rw [if_neg hx, if_neg hx, (hNFS.2.2.2 x).2]
    have hFend : F.heapEnd = s.heapEnd := by
      calc F.heapEnd = N.heapEnd := heap_split_close_heapEnd N b (b + HDR + size) size
        _ = W.heapEnd := hNFS.2.1
        _ = s.heapEnd := heap_split_write_new_heapEnd s b (b + HDR + size) size
    have hFstart : F.heapStart = s.heapStart := by
      calc F.heapStart = N.heapStart := heap_split_close_heapStart N b (b + HDR + size) size
        _ = W.heapStart := hNFS.1
        _ = s.heapStart := heap_split_write_new_heapStart s b (b + HDR + size) size
    have hFsz : F.heapSize = s.heapSize := by
      calc F.heapSize = N.heapSize := heap_split_close_heapSize N b (b + HDR + size) size
        _ = W.heapSize := hNFS.2.2.1
        _ = s.heapSize := heap_split_write_new_heapSize s b (b + HDR + size) size
    have hWsb : Walks F b := by
      refine Walks.step b ?_ ?_
      · rw [hFflags b, hWb]
        exact hlast
      · rw [hFsize b, if_pos rfl]
        refine Walks.step (b + HDR + size) ?_ ?_
        · rw [hFflags (b + HDR + size), hWnb]
          show BLOCK_FREE &&& BLOCK_LAST = 0
          decide
        · rw [hFsize (b + HDR + size), if_neg hbne, hWnb]
          have hstep : b + HDR + size + HDR +
              (Header.mk HEAP_MAGIC BLOCK_FREE (sub64 (sub64 ((s.mem b).size) size) HDR)
                b ((s.mem b).next)).size
              = b + HDR + (s.mem b).size := by
            show b + HDR + size + HDR + sub64 (sub64 ((s.mem b).size) size) HDR
              = b + HDR + (s.mem b).size
            rw [hsub]
            omega
          rw [hstep]
          have hsnext : Walks s (b + HDR + (s.mem b).size) := by
            cases hwb with
            | last _ hl _ => exact absurd hlast hl
            | step _ _ hnext => exact hnext
          refine walks_congr_ge s F (b + HDR + (s.mem b).size) hFend ?_ _ hsnext
            (le_refl _)
          intro a ha
          constructor
          · rw [hFflags a, hWmem a, if_neg (by omega : a ≠ b + HDR + size)]
          · rw [hFsize a, if_neg (by omega : a ≠ b), hWmem a,
              if_neg (by omega : a ≠ b + HDR + size)]
    refine ⟨?_, ?_, ?_⟩
    · rw [hFend, hFstart, hFsz]
      exact hEq
    · rw [hFend]
      exact hU64
    · rw [hFstart]
      refine walks_prefix s F b s.heapStart hreach ?_ hWsb
      intro a ha
      constructor
      · rw [hFflags a, hWmem a, if_neg (by omega : a ≠ b + HDR + size)]
      · rw [hFsize a, if_neg (by omega : a ≠ b), hWmem a,
          if_neg (by omega : a ≠ b + HDR + size)]
  · have hNmem := heap_split_neighbor_last_mem W b (b + HDR + size)
      (by rw [hWb]; exact hlast) hbne
    have hNb : N.mem b = { s.mem b with flags := (s.mem b).flags &&& 0xFFFFFFFD } := by
      rw [hNd, hNmem b, if_pos rfl, hWb]
    have hNnb : N.mem (b + HDR + size)
        = ⟨HEAP_MAGIC, BLOCK_FREE ||| BLOCK_LAST,
            sub64 (sub64 ((s.mem b).size) size) HDR, b, (s.mem b).next⟩ := by
      rw [hNd, hNmem (b + HDR + size), if_neg hbne, if_pos rfl, hWnb]
    have hNo : ∀ x, x ≠ b → x ≠ b + HDR + size → N.mem x = s.mem x := by
      intro x hx1 hx2
      rw [hNd, hNmem x, if_neg hx1, if_neg hx2, hWmem x, if_neg hx2]
    have hFflags : ∀ x, (F.mem x).flags = (N.mem x).flags := fun x =>
      (heap_split_close_fs N b (b + HDR + size) size x).1
    have hFsize : ∀ x, (F.mem x).size = if x = b then size else (N.mem x).size :=
      fun x => (heap_split_close_fs N b (b + HDR + size) size x).2
    have hFend : F.heapEnd = s.heapEnd := by
      calc F.heapEnd = N.heapEnd := heap_split_close_heapEnd N b (b + HDR + size) size
        _ = W.heapEnd := heap_split_neighbor_heapEnd W b (b + HDR + size)
        _ = s.heapEnd := heap_split_write_new_heapEnd s b (b + HDR + size) size
    have hFstart : F.heapStart = s.heapStart := by
      calc F.heapStart = N.heapStart := heap_split_close_heapStart N b (b + HDR + size) size
        _ = W.heapStart := heap_split_neighbor_heapStart W b (b + HDR + size)
        _ = s.heapStart := heap_split_write_new_heapStart s b (b + HDR + size) size
    have hFsz : F.heapSize = s.heapSize := by
      calc F.heapSize = N.heapSize := heap_split_close_heapSize N b (b + HDR + size) size
        _ = W.heapSize := heap_split_neighbor_heapSize W b (b + HDR + size)
        _ = s.heapSize := heap_split_write_new_heapSize s b (b + HDR + size) size
    have hbend : b + HDR + (s.mem b).size = s.heapEnd := by
      cases hwb with
      | last _ _ he => exact he
      | step _ hl _ => exact absurd hl hlast
    have hWsb : Walks F b := by
      refine Walks.step b ?_ ?_
      · rw [hFflags b, hNb]
        show ((s.mem b).flags &&& 0xFFFFFFFD) &&& BLOCK_LAST = 0
        exact and_not_last _
      · rw [hFsize b, if_pos rfl]
        refine Walks.last (b + HDR + size) ?_ ?_
        · rw [hFflags (b + HDR + size), hNnb]
          show (BLOCK_FREE ||| BLOCK_LAST) &&& BLOCK_LAST ≠ 0
          exact or_last_last _
        · rw [hFsize (b + HDR + size), if_neg hbne, hNnb]
          show b + HDR + size + HDR + sub64 (sub64 ((s.mem b).size) size) HDR
            = F.heapEnd
          rw [hsub, hFend]
          omega
    refine ⟨?_, ?_, ?_⟩
    · rw [hFend, hFstart, hFsz]
      exact hEq
    · rw [hFend]
      exact hU64
    · rw [hFstart]
      refine walks_prefix s F b s.heapStart hreach ?_ hWsb
      intro a ha
      constructor
      · rw [hFflags a, hNo a (by omega) (by omega)]
      · rw [hFsize a, if_neg (by omega : a ≠ b), hNo a (by omega) (by omega)]

theorem walks_congr_all (s s' : HeapState) (hend : s'.heapEnd = s.heapEnd)
    (hag : ∀ a, (s'.mem a).flags &&& BLOCK_LAST = (s.mem a).flags &&& BLOCK_LAST
      ∧ (s'.mem a).size = (s.mem a).size) :
    ∀ b, Walks s b → Walks s' b :=
  fun b hw => walks_congr_ge s s' 0 hend (fun a _ => hag a) b hw (Nat.zero_le b)

theorem tiling_congr_all (s s' : HeapState)
    (hstart : s'.heapStart = s.heapStart) (hend : s'.heapEnd = s.heapEnd)
    (hsz : s'.heapSize = s.heapSize)
    (hag : ∀ a, (s'.mem a).flags &&& BLOCK_LAST = (s.mem a).flags &&& BLOCK_LAST
      ∧ (s'.mem a).size = (s.mem a).size)
    (ht : tiling s) : tiling s' := by
  refine ⟨?_, ?_, ?_⟩
  · rw [hend, hstart, hsz]
    exact ht.1
  · rw [hend]
    exact ht.2.1
  · rw [hstart]
    exact walks_congr_all s s' hend hag s.heapStart ht.2.2

theorem tiling_FS (s s' : HeapState) (hfs : FS s s') (ht : tiling s) : tiling s' :=
  tiling_congr_all s s' hfs.1 hfs.2.1 hfs.2.2.1
    (fun a => ⟨by rw [(hfs.2.2.2 a).1], (hfs.2.2.2 a).2⟩) ht

theorem tiling_alloc_finish (t : HeapState) (b1 u : Nat) (ht : tiling t) :
    tiling { (wrH t b1 { t.mem b1 with flags := (t.mem b1).flags &&& 0xFFFFFFFE })
      with usedSpace := u } := by
  refine tiling_congr_all t _ rfl rfl rfl ?_ ht
  intro a
  constructor
  · show ((wrH t b1 { t.mem b1 with
        flags := (t.mem b1).flags &&& 0xFFFFFFFE }).mem a).flags &&& BLOCK_LAST
      = (t.mem a).flags &&& BLOCK_LAST
    rw [wrH_mem]
    by_cases hx : a = b1
    · rw [if_pos hx, hx]
      exact and_not_free_last _
    · rw [if_neg hx]
  · show ((wrH t b1 { t.mem b1 with
        flags := (t.mem b1).flags &&& 0xFFFFFFFE }).mem a).size = (t.mem a).size
    rw [wrH_mem]
    by_cases hx : a = b1
    · rw [if_pos hx, hx]
    · rw [if_neg hx]

theorem heap_allocate_block_tiling (s : HeapState) (size : Nat)
    (ht : tiling s)
    (hfind : heap_find_free_block s size ≠ 0 →
      Reach s s.heapStart (heap_find_free_block s size))
    (hszlt : size + HDR + HEAP_MIN_ALLOC < U64) :
    tiling (heap_allocate_block s size).2 := by
  simp only [heap_allocate_block]
  by_cases h0 : s.heapStart = 0
  · rw [if_pos h0]
    exact ht
  · rw [if_neg h0]
    by_cases hb0 : heap_find_free_block s size = 0
    · rw [if_pos hb0]
      exact ht
    · rw [if_neg hb0]
      have hFS2 : FS s (heap_unlink s (heap_find_free_block s size)) :=
        FS_heap_unlink s _
      have ht2 : tiling (heap_unlink s (heap_find_free_block s size)) :=
        tiling_FS s _ hFS2 ht
      have hreach2 : Reach (heap_unlink s (heap_find_free_block s size))
          (heap_unlink s (heap_find_free_block s size)).heapStart
          (heap_find_free_block s size) := by
        rw [hFS2.1]
        exact reach_congr_FS s _ hFS2 _ _ (hfind hb0)
      by_cases hg : (size + HDR + HEAP_MIN_ALLOC) % U64 <
          ((heap_unlink s (heap_find_free_block s size)).mem
            (heap_find_free_block s size)).size
      · rw [if_pos hg]
        have ht3 : tiling (heap_split_block
            (heap_unlink s (heap_find_free_block s size))
            (heap_find_free_block s size) size).2 := by
          refine heap_split_block_tiling _ _ size ht2 hreach2 ?_
          rw [Nat.mod_eq_of_lt hszlt] at hg
          exact hg
        exact tiling_alloc_finish _ _ _ ht3
      · rw [if_neg hg]
        exact tiling_alloc_finish _ _ _ ht2

theorem kmalloc_tiling (s : HeapState) (size : Nat) (ht : tiling s)
    (hfind : ∀ n, heap_find_free_block s n ≠ 0 →
      Reach s s.heapStart (heap_find_free_block s n)) :
    tiling (kmalloc s size).2 := by
  simp only [kmalloc]
  by_cases h0 : size = 0 ∨ HEAP_MAX_ALLOC < size
  · rw [if_pos h0]
    exact ht
  · rw [if_neg h0]
    refine heap_allocate_block_tiling s _ ht (hfind _) ?_
    have h1 : ((size + 7) % U64) &&& (U64 - 8) ≤ (size + 7) % U64 :=
      Nat.and_le_left
    have h2 : (size + 7) % U64 ≤ size + 7 := Nat.mod_le _ _
    have hU : U64 = 18446744073709551616 := U64_eq
    have hA : HEAP_MAX_ALLOC = 268435456 := rfl
    have hH : HDR = 32 := rfl
    have hM : HEAP_MIN_ALLOC = 16 := rfl
    by_cases hc : ((size + 7) % U64) &&& (U64 - 8) < HEAP_MIN_ALLOC
    · rw [if_pos hc]
      omega
    · rw [if_neg hc]
      omega

theorem unlink2_prev (s0 s1 : HeapState) (b x : Nat)
    (hprev : ∀ y, (s1.mem y).prev = (s0.mem y).prev)
    (hnext : (s1.mem b).next = (s0.mem b).next)
    (hx : (s0.mem b).next ≠ x) :
    (((if (s1.mem b).next ≠ 0 ∧
        (s1.mem ((s1.mem b).next)).flags &&& BLOCK_FREE ≠ 0 then
      wrH s1 ((s1.mem b).next)
        { s1.mem ((s1.mem b).next) with prev := (s1.mem b).prev }
      else s1)).mem x).prev = (s0.mem x).prev := by
  by_cases h2 : (s1.mem b).next ≠ 0 ∧
      (s1.mem ((s1.mem b).next)).flags &&& BLOCK_FREE ≠ 0
  · rw [if_pos h2, wrH_mem, if_neg (by intro h; rw [hnext] at h; exact hx h.symm)]
    exact hprev x
  · rw [if_neg h2]
    exact hprev x

theorem unlink2_next (s0 s1 : HeapState) (b x : Nat)
    (hnext : ∀ y, (s1.mem y).next = (s0.mem y).next ∨
      (s1.mem y).next = (s0.mem b).next) :
    (((if (s1.mem b).next ≠ 0 ∧
        (s1.mem ((s1.mem b).next)).flags &&& BLOCK_FREE ≠ 0 then
      wrH s1 ((s1.mem b).next)
        { s1.mem ((s1.mem b).next) with prev := (s1.mem b).prev }
      else s1)).mem x).next = (s0.mem x).next ∨
    (((if (s1.mem b).next ≠ 0 ∧
        (s1.mem ((s1.mem b).next)).flags &&& BLOCK_FREE ≠ 0 then
      wrH s1 ((s1.mem b).next)
        { s1.mem ((s1.mem b).next) with prev := (s1.mem b).prev }
      else s1)).mem x).next = (s0.mem b).next := by
  by_cases h2 : (s1.mem b).next ≠ 0 ∧
      (s1.mem ((s1.mem b).next)).flags &&& BLOCK_FREE ≠ 0
  · rw [if_pos h2, wrH_mem]
    by_cases hx : x = (s1.mem b).next
    · rw [if_pos hx, hx]
      exact hnext _
    · rw [if_neg hx]
      exact hnext x
  · rw [if_neg h2]
    exact hnext x

/-- Unlinking `b` never changes the `prev` field of an address other than
the one `b.next` points at. -/
theorem heap_unlink_mem_prev (s : HeapState) (b x : Nat)
    (hx : (s.mem b).next ≠ x) :
    ((heap_unlink s b).mem x).prev = (s.mem x).prev := by
  simp only [heap_unlink]
  by_cases h1 : (s.mem b).prev ≠ 0 ∧
      (s.mem ((s.mem b).prev)).flags &&& BLOCK_FREE ≠ 0
  · rw [if_pos h1]
    refine unlink2_prev s _ b x ?_ ?_ hx
    · intro y
      rw [wrH_mem]
      by_cases hy : y = (s.mem b).prev
      · rw [if_pos hy, hy]
      · rw [if_neg hy]
    · rw [wrH_mem]
      by_cases hb : b = (s.mem b).prev
      · rw [if_pos hb]
      · rw [if_neg hb]
  · rw [if_neg h1]
    refine unlink2_prev s _ b x (fun _ => rfl) rfl hx

/-- Every `next` field after unlinking `b` is either its old value or the
value of `b.next`. -/
theorem heap_unlink_mem_next (s : HeapState) (b x : Nat) :
    ((heap_unlink s b).mem x).next = (s.mem x).next ∨
    ((heap_unlink s b).mem x).next = (s.mem b).next := by
  simp only [heap_unlink]
  by_cases h1 : (s.mem b).prev ≠ 0 ∧
      (s.mem ((s.mem b).prev)).flags &&& BLOCK_FREE ≠ 0
  · rw [if_pos h1]
    refine unlink2_next s _ b x ?_
    intro y
    rw [wrH_mem]
    by_cases hy : y = (s.mem b).prev
    · rw [if_pos hy]
      exact Or.inr rfl
    · rw [if_neg hy]
      exact Or.inl rfl
  · rw [if_neg h1]
    exact unlink2_next s _ b x (fun _ => Or.inl rfl)

/-- The forward-merge pass never touches the `prev` field of `block`
itself (beyond what the unlink did). -/
theorem heap_merge_fwd_step_mem_prev (s u : HeapState) (block next : Nat)
    (hbn : next ≠ block) (hu : heap_unlink s next = u) :
    ((heap_merge_fwd_step s block next).mem block).prev = (u.mem block).prev := by
  have hbn' : block ≠ next := Ne.symm hbn
  simp only [heap_merge_fwd_step, hu]
  by_cases hc : (u.mem next).flags &&& BLOCK_LAST ≠ 0
  · rw [if_pos hc, wrH_mem, if_neg hbn', wrH_mem, if_pos rfl]
    show ((wrH u block { u.mem block with
      flags := (u.mem block).flags ||| BLOCK_LAST }).mem block).prev
      = (u.mem block).prev
    rw [wrH_mem, if_pos rfl]
  · rw [if_neg hc, wrH_mem, if_neg hbn', wrH_mem, if_pos rfl]

/-- The forward-merge pass preserves every `next` field of the unlinked
state. -/
theorem heap_merge_fwd_step_mem_next (s u : HeapState) (block next : Nat)
    (hbn : next ≠ block) (hu : heap_unlink s next = u) :
    ∀ x, ((heap_merge_fwd_step s block next).mem x).next = (u.mem x).next := by
  have hbn' : block ≠ next := Ne.symm hbn
  intro x
  simp only [heap_merge_fwd_step, hu]
  by_cases hc : (u.mem next).flags &&& BLOCK_LAST ≠ 0
  · rw [if_pos hc, wrH_mem]
    by_cases hx : x = next
    · rw [if_pos hx, hx]
      show ((wrH (wrH u block { u.mem block with
          flags := (u.mem block).flags ||| BLOCK_LAST }) block _).mem next).next
        = (u.mem next).next
      rw [wrH_mem, if_neg hbn, wrH_mem, if_neg hbn]
    · rw [if_neg hx, wrH_mem]
      by_cases hxb : x = block
      · rw [if_pos hxb, hxb]
        show ((wrH u block { u.mem block with
            flags := (u.mem block).flags ||| BLOCK_LAST }).mem block).next
          = (u.mem block).next
        rw [wrH_mem, if_pos rfl]
      · rw [if_neg hxb, wrH_mem, if_neg hxb]
  · rw [if_neg hc, wrH_mem]
    by_cases hx : x = next
    · rw [if_pos hx, hx]
      show ((wrH u block _).mem next).next = (u.mem next).next
      rw [wrH_mem, if_neg hbn]
    · rw [if_neg hx, wrH_mem]
      by_cases hxb : x = block
      · rw [if_pos hxb, hxb]
      · rw [if_neg hxb]

/-- Pointwise flags/size reads after one forward-merge pass, relative to
the unlinked state `u` (which agrees with `s` on flags and sizes). -/
theorem heap_merge_fwd_step_fs (s u : HeapState) (block next : Nat)
    (hbn : next ≠ block) (hu : heap_unlink s next = u) :
    (heap_merge_fwd_step s block next).heapStart = u.heapStart ∧
    (heap_merge_fwd_step s block next).heapEnd = u.heapEnd ∧
    (heap_merge_fwd_step s block next).heapSize = u.heapSize ∧
    ∀ x, ((heap_merge_fwd_step s block next).mem x).flags
        = (if x = block ∧ (u.mem next).flags &&& BLOCK_LAST ≠ 0
           then (u.mem block).flags ||| BLOCK_LAST else (u.mem x).flags) ∧
      ((heap_merge_fwd_step s block next).mem x).size
        = (if x = block
           then ((u.mem block).size + ((HDR + (u.mem next).size) % U64)) % U64
           else (u.mem x).size) := by
  have hbn' : block ≠ next := Ne.symm hbn
  simp only [heap_merge_fwd_step, hu]
  by_cases hc : (u.mem next).flags &&& BLOCK_LAST ≠ 0
  · rw [if_pos hc]
    refine ⟨rfl, rfl, rfl, ?_⟩
    intro x
    by_cases hx : x = next
    · subst hx
      simp [wrH_mem, hbn', hbn, hc]
    · by_cases hxb : x = block
      · subst hxb
        simp [wrH_mem, hx, hbn, hc]
      · simp [wrH_mem, hx, hxb, hc]
  · rw [if_neg hc]
    refine ⟨rfl, rfl, rfl, ?_⟩
    intro x
    by_cases hx : x = next
    · subst hx
      simp [wrH_mem, hbn', hbn, hc]
    · by_cases hxb : x = block
      · subst hxb
        simp [wrH_mem, hx, hbn, hc]
      · simp [wrH_mem, hx, hxb, hc]

/-- The forward-coalescing loop preserves the tiling, the reachability of
`block`, its null back pointer, and the absence of free-list links into
`block`. -/
theorem heap_merge_fwd_tiling :
    ∀ (fuel : Nat) (s : HeapState) (block : Nat) (acc : Bool),
    tiling s → Reach s s.heapStart block →
    (s.mem block).prev = 0 →
    (∀ a, (s.mem a).flags &&& BLOCK_FREE ≠ 0 → (s.mem a).next ≠ block) →
    tiling (heap_merge_fwd s fuel block acc).2 ∧
    ((heap_merge_fwd s fuel block acc).2.mem block).prev = 0 := by
  intro fuel
  induction fuel with
  | zero =>
    intro s block acc ht hr hp hinv
    exact ⟨ht, hp⟩
  | succ fuel ih =>
    intro s block acc ht hr hp hinv
    simp only [heap_merge_fwd]
    by_cases hlast : (s.mem block).flags &&& BLOCK_LAST ≠ 0
    · rw [if_pos hlast]
      exact ⟨ht, hp⟩
    · rw [if_neg hlast]
      by_cases hok : (s.mem ((block + HDR + (s.mem block).size) % U64)).magic
            = HEAP_MAGIC ∧
          (s.mem ((block + HDR + (s.mem block).size) % U64)).flags
            &&& BLOCK_FREE ≠ 0
      · rw [if_pos hok]
        obtain ⟨hEq, hU64, hw⟩ := ht
        have hH : HDR = 32 := rfl
        have hlast' : (s.mem block).flags &&& BLOCK_LAST = 0 := not_not.mp hlast
        have hwb : Walks s block := reach_walks s _ block hr hw
        have hwsucc : Walks s (block + HDR + (s.mem block).size) := by
          cases hwb with
          | last _ hl _ => exact absurd hlast' hl
          | step _ _ hnext => exact hnext
        have hle2 := walks_end_le s _ hwsucc
        have hmod : (block + HDR + (s.mem block).size) % U64
            = block + HDR + (s.mem block).size := Nat.mod_eq_of_lt (by omega)
        rw [hmod] at hok ⊢
        set nx := block + HDR + (s.mem block).size with hnx
        have hbn : nx ≠ block := by omega
        have hufs : FS s (heap_unlink s nx) := FS_heap_unlink s nx
        obtain ⟨hP1, hP2, hP3, hSfs⟩ :=
          heap_merge_fwd_step_fs s (heap_unlink s nx) block nx hbn rfl
        have hstart' : (heap_merge_fwd_step s block nx).heapStart = s.heapStart :=
          hP1.trans hufs.1
        have hend' : (heap_merge_fwd_step s block nx).heapEnd = s.heapEnd :=
          hP2.trans hufs.2.1
        have hsize' : (heap_merge_fwd_step s block nx).heapSize = s.heapSize :=
          hP3.trans hufs.2.2.1
        have hflags : ∀ x, ((heap_merge_fwd_step s block nx).mem x).flags
            = if x = block ∧ (s.mem nx).flags &&& BLOCK_LAST ≠ 0
              then (s.mem block).flags ||| BLOCK_LAST else (s.mem x).flags := by
          intro x
          rw [(hSfs x).1, (hufs.2.2.2 nx).1, (hufs.2.2.2 block).1,
            (hufs.2.2.2 x).1]
        have hsizes : ∀ x, ((heap_merge_fwd_step s block nx).mem x).size
            = if x = block
              then ((s.mem block).size + ((HDR + (s.mem nx).size) % U64)) % U64
              else (s.mem x).size := by
          intro x
          rw [(hSfs x).2, (hufs.2.2.2 block).2, (hufs.2.2.2 nx).2,
            (hufs.2.2.2 x).2]
        have hmlt1 : HDR + (s.mem nx).size < U64 := by omega
        have hmlt2 : (s.mem block).size + (HDR + (s.mem nx).size) < U64 := by
          omega
        have hsz : ((heap_merge_fwd_step s block nx).mem block).size
            = (s.mem block).size + HDR + (s.mem nx).size := by
          rw [hsizes block, if_pos rfl, Nat.mod_eq_of_lt hmlt1,
            Nat.mod_eq_of_lt hmlt2]
          omega
        have hagree_lt : ∀ a, a < block →
            ((heap_merge_fwd_step s block nx).mem a).flags &&& BLOCK_LAST
              = (s.mem a).flags &&& BLOCK_LAST ∧
            ((heap_merge_fwd_step s block nx).mem a).size = (s.mem a).size := by
          intro a ha
          constructor
          · rw [hflags a, if_neg (fun h => absurd h.1 (by omega))]
          · rw [hsizes a, if_neg (by omega)]
        have hwblock : Walks (heap_merge_fwd_step s block nx) block := by
          cases hwsucc with
          | last _ hlnx hend =>
            refine Walks.last block ?_ ?_
            · rw [hflags block, if_pos ⟨rfl, hlnx⟩]
              exact or_last_last _
            · rw [hsz, hend']
              omega
          | step _ hlnx hnext2 =>
            refine Walks.step block ?_ ?_
            · rw [hflags block, if_neg (fun h => h.2 hlnx)]
              exact hlast'
            · have haddr : block + HDR + ((heap_merge_fwd_step s block nx).mem
                  block).size = nx + HDR + (s.mem nx).size := by
                rw [hsz]
                omega
              rw [haddr]
              refine walks_congr_ge s _ (nx + HDR + (s.mem nx).size) hend' ?_ _
                hnext2 (Nat.le_refl _)
              intro a hca
              constructor
              · rw [hflags a, if_neg (fun h => absurd h.1 (by omega))]
              · rw [hsizes a, if_neg (by omega)]
        have ht' : tiling (heap_merge_fwd_step s block nx) := by
          refine ⟨?_, ?_, ?_⟩
          · rw [hend', hstart', hsize']
            exact hEq
          · rw [hend']
            exact hU64
          · rw [hstart']
            exact walks_prefix s _ block s.heapStart hr hagree_lt hwblock
        have hr' : Reach (heap_merge_fwd_step s block nx)
            (heap_merge_fwd_step s block nx).heapStart block := by
          rw [hstart']
          exact reach_prefix_congr s _ block s.heapStart hr hagree_lt
        have hp' : ((heap_merge_fwd_step s block nx).mem block).prev = 0 := by
          rw [heap_merge_fwd_step_mem_prev s (heap_unlink s nx) block nx hbn rfl,
            heap_unlink_mem_prev s nx block (hinv nx hok.2)]
          exact hp
        have hinv' : ∀ a,
            ((heap_merge_fwd_step s block nx).mem a).flags &&& BLOCK_FREE ≠ 0 →
            ((heap_merge_fwd_step s block nx).mem a).next ≠ block := by
          intro a ha
          have hfree_a : (s.mem a).flags &&& BLOCK_FREE ≠ 0 := by
            rw [hflags a] at ha
            by_cases hcda : a = block ∧ (s.mem nx).flags &&& BLOCK_LAST ≠ 0
            · rw [if_pos hcda, or_last_free] at ha
              rw [hcda.1]
              exact ha
            · rw [if_neg hcda] at ha
              exact ha
          rw [heap_merge_fwd_step_mem_next s (heap_unlink s nx) block nx hbn rfl a]
          rcases heap_unlink_mem_next s nx a with h | h
          · rw [h]
            exact hinv a hfree_a
          · rw [h]
            exact hinv nx hok.2
        exact ih (heap_merge_fwd_step s block nx) block true ht' hr' hp' hinv'
      · rw [if_neg hok]
        exact ⟨ht, hp⟩

/-- With a null back pointer the backward-coalescing loop exits at once. -/
theorem heap_merge_bwd_noop (s : HeapState) (fuel block : Nat) (acc : Bool)
    (hp : (s.mem block).prev = 0) :
    heap_merge_bwd s fuel block acc = (acc, s) := by
  cases fuel with
  | zero => rfl
  | succ fuel =>
    simp only [heap_merge_bwd]
    rw [if_neg (fun h => h.1 hp)]

/-- `heap_merge_blocks` preserves the tiling whenever `block` is a
reachable block with a null back pointer that no free block links to. -/
theorem heap_merge_blocks_tiling (s : HeapState) (block : Nat)
    (ht : tiling s) (hr : Reach s s.heapStart block)
    (hp : (s.mem block).prev = 0)
    (hinv : ∀ a, (s.mem a).flags &&& BLOCK_FREE ≠ 0 → (s.mem a).next ≠ block) :
    tiling (heap_merge_blocks s block).2 := by
  obtain ⟨ht1, hp1⟩ := heap_merge_fwd_tiling s.heapSize s block false ht hr hp hinv
  simp only [heap_merge_blocks]
  rw [heap_merge_bwd_noop _ _ _ _ hp1]
  exact ht1

theorem upd_used_mem (t : HeapState) (u : Nat) :
    ({ t with usedSpace := u } : HeapState).mem = t.mem := rfl

theorem upd_used_freeList (t : HeapState) (u : Nat) :
    ({ t with usedSpace := u } : HeapState).freeList = t.freeList := rfl

theorem upd_free_mem (t : HeapState) (b : Nat) :
    ({ t with freeList := b } : HeapState).mem = t.mem := rfl

theorem upd_free_heapStart (t : HeapState) (b : Nat) :
    ({ t with freeList := b } : HeapState).heapStart = t.heapStart := rfl

theorem upd_free_heapEnd (t : HeapState) (b : Nat) :
    ({ t with freeList := b } : HeapState).heapEnd = t.heapEnd := rfl

theorem upd_free_heapSize (t : HeapState) (b : Nat) :
    ({ t with freeList := b } : HeapState).heapSize = t.heapSize := rfl

/-- Pointwise reads after `heap_free_push`: the freed block gets
`FREE`-marked with null `prev` and the old list head as `next`; the old
list head (if any) gets its back pointer set; all else is untouched. -/
theorem heap_free_push_mem (s : HeapState) (block : Nat)
    (hfl : s.freeList ≠ block) :
    ∀ x, (heap_free_push s block).mem x
      = if x = block then
          ⟨(s.mem block).magic, (s.mem block).flags ||| BLOCK_FREE,
            (s.mem block).size, 0, s.freeList⟩
        else if x = s.freeList ∧ s.freeList ≠ 0 then
          { s.mem x with prev := block }
        else s.mem x := by
  intro x
  simp only [heap_free_push, upd_free_mem, upd_used_mem, upd_used_freeList,
    wrH_freeList]
  by_cases hfl0 : s.freeList ≠ 0
  · rw [if_pos hfl0, wrH_mem]
    by_cases hxf : x = s.freeList
    · rw [if_pos hxf, wrH_mem, if_neg hfl, wrH_mem, if_neg hfl, wrH_mem,
        if_neg hfl, if_neg (by rw [hxf]; exact hfl),
        if_pos ⟨hxf, hfl0⟩, hxf]
    · rw [if_neg hxf]
      by_cases hx : x = block
      · rw [wrH_mem, if_pos hx, wrH_mem, if_pos rfl, wrH_mem, if_pos rfl,
          if_pos hx]
      · rw [wrH_mem, if_neg hx, wrH_mem, if_neg hx, wrH_mem, if_neg hx,
          if_neg hx, if_neg (fun h => hxf h.1)]
  · rw [if_neg hfl0]
    by_cases hx : x = block
    · rw [wrH_mem, if_pos hx, wrH_mem, if_pos rfl, wrH_mem, if_pos rfl,
        if_pos hx]
    · rw [wrH_mem, if_neg hx, wrH_mem, if_neg hx, wrH_mem, if_neg hx,
        if_neg hx, if_neg (fun h => hfl0 h.2)]

theorem heap_free_push_bounds (s : HeapState) (block : Nat) :
    (heap_free_push s block).heapStart = s.heapStart ∧
    (heap_free_push s block).heapEnd = s.heapEnd ∧
    (heap_free_push s block).heapSize = s.heapSize := by
  simp only [heap_free_push, upd_free_heapStart, upd_free_heapEnd,
    upd_free_heapSize, upd_used_freeList, wrH_freeList]
  by_cases hfl0 : s.freeList ≠ 0
  · rw [if_pos hfl0]
    exact ⟨rfl, rfl, rfl⟩
  · rw [if_neg hfl0]
    exact ⟨rfl, rfl, rfl⟩

/-- `heap_free_block` preserves the tiling: when the checks pass, the
freed block must be reachable, off the free list, and not the target of
any free-list `next` link. -/
theorem heap_free_block_tiling (s : HeapState) (ptr : Nat) (ht : tiling s)
    (hok : (s.mem (sub64 ptr HDR)).magic = HEAP_MAGIC →
      (s.mem (sub64 ptr HDR)).flags &&& BLOCK_FREE = 0 →
      Reach s s.heapStart (sub64 ptr HDR) ∧ s.freeList ≠ sub64 ptr HDR ∧
      ∀ a, (s.mem a).flags &&& BLOCK_FREE ≠ 0 →
        (s.mem a).next ≠ sub64 ptr HDR) :
    tiling (heap_free_block s ptr).2 := by
  simp only [heap_free_block]
  by_cases h1 : (s.mem (sub64 ptr HDR)).magic ≠ HEAP_MAGIC
  · rw [if_pos h1]
    exact ht
  · rw [if_neg h1]
    by_cases h2 : (s.mem (sub64 ptr HDR)).flags &&& BLOCK_FREE ≠ 0
    · rw [if_pos h2]
      exact ht
    · rw [if_neg h2]
      obtain ⟨hre, hfl, hinv⟩ := hok (not_not.mp h1) (not_not.mp h2)
      have hmem := heap_free_push_mem s (sub64 ptr HDR) hfl
      obtain ⟨hps, hpe, hpz⟩ := heap_free_push_bounds s (sub64 ptr HDR)
      have hag : ∀ a, ((heap_free_push s (sub64 ptr HDR)).mem a).flags
            &&& BLOCK_LAST = (s.mem a).flags &&& BLOCK_LAST ∧
          ((heap_free_push s (sub64 ptr HDR)).mem a).size = (s.mem a).size := by
        intro a
        rw [hmem a]
        by_cases hx : a = sub64 ptr HDR
        · rw [if_pos hx]
          constructor
          · show ((s.mem (sub64 ptr HDR)).flags ||| BLOCK_FREE) &&& BLOCK_LAST
              = (s.mem a).flags &&& BLOCK_LAST
            rw [or_free_last, hx]
          · show (s.mem (sub64 ptr HDR)).size = (s.mem a).size
            rw [hx]
        · rw [if_neg hx]
          by_cases hxf : a = s.freeList ∧ s.freeList ≠ 0
          · rw [if_pos hxf]
            exact ⟨rfl, rfl⟩
          · rw [if_neg hxf]
            exact ⟨rfl, rfl⟩
      have htP : tiling (heap_free_push s (sub64 ptr HDR)) :=
        tiling_congr_all s _ hps hpe hpz hag ht
      have hrP : Reach (heap_free_push s (sub64 ptr HDR))
          (heap_free_push s (sub64 ptr HDR)).heapStart (sub64 ptr HDR) := by
        rw [hps]
        exact reach_prefix_congr s _ (sub64 ptr HDR) s.heapStart hre
          (fun a _ => hag a)
      have hpP : ((heap_free_push s (sub64 ptr HDR)).mem (sub64 ptr HDR)).prev
          = 0 := by
        rw [hmem (sub64 ptr HDR), if_pos rfl]
      have hinvP : ∀ a,
          ((heap_free_push s (sub64 ptr HDR)).mem a).flags &&& BLOCK_FREE ≠ 0 →
          ((heap_free_push s (sub64 ptr HDR)).mem a).next ≠ sub64 ptr HDR := by
        intro a ha
        rw [hmem a] at ha ⊢
        by_cases hx : a = sub64 ptr HDR
        · rw [if_pos hx] at ha ⊢
          exact hfl
        · rw [if_neg hx] at ha ⊢
          by_cases hxf : a = s.freeList ∧ s.freeList ≠ 0
          · rw [if_pos hxf] at ha ⊢
            exact hinv a ha
          · rw [if_neg hxf] at ha ⊢
            exact hinv a ha
      exact heap_merge_blocks_tiling _ (sub64 ptr HDR) htP hrP hpP hinvP

theorem krealloc_shrink_mid_bounds (t : HeapState) (header nb size2 : Nat) :
    (krealloc_shrink_mid t header nb size2).heapStart = t.heapStart ∧
    (krealloc_shrink_mid t header nb size2).heapEnd = t.heapEnd ∧
    (krealloc_shrink_mid t header nb size2).heapSize = t.heapSize := by
  simp only [krealloc_shrink_mid]
  split
  · exact ⟨rfl, rfl, rfl⟩
  · split
    · exact ⟨rfl, rfl, rfl⟩
    · exact ⟨rfl, rfl, rfl⟩

theorem krealloc_shrink_mid_flags (t : HeapState) (header nb size2 : Nat)
    (hnb : nb ≠ header) :
    ∀ x, ((krealloc_shrink_mid t header nb size2).mem x).flags
      = if (t.mem header).flags &&& BLOCK_LAST ≠ 0 then
          if x = header then (t.mem header).flags &&& 0xFFFFFFFD
          else if x = nb then (t.mem nb).flags ||| BLOCK_LAST
          else (t.mem x).flags
        else (t.mem x).flags := by
  intro x
  have h7f : ∀ y, ((wrH (wrH t header { t.mem header with size := size2 })
      header { (wrH t header { t.mem header with size := size2 }).mem header
        with next := nb }).mem y).flags = (t.mem y).flags := by
    intro y
    rw [wrH_mem]
    by_cases hy : y = header
    · rw [if_pos hy, hy, show ({ (wrH t header { t.mem header with
        size := size2 }).mem header with next := nb } : Header).flags
        = ((wrH t header { t.mem header with size := size2 }).mem
          header).flags from rfl, wrH_mem, if_pos rfl]
    · rw [if_neg hy, wrH_mem, if_neg hy]
  simp only [krealloc_shrink_mid]
  split
  · rename_i hc
    rw [h7f header] at hc
    rw [if_pos hc, wrH_mem]
    by_cases hx : x = nb
    · rw [if_pos hx, if_neg (by rw [hx]; exact hnb), if_pos hx,
        show ({ (wrH (wrH (wrH t header { t.mem header with size := size2 })
          header { (wrH t header { t.mem header with size := size2 }).mem
            header with next := nb }) header _).mem nb with
          flags := ((wrH (wrH (wrH t header { t.mem header with
            size := size2 }) header { (wrH t header { t.mem header with
            size := size2 }).mem header with next := nb }) header _).mem
            nb).flags ||| BLOCK_LAST } : Header).flags
          = ((wrH (wrH (wrH t header { t.mem header with size := size2 })
          header { (wrH t header { t.mem header with size := size2 }).mem
            header with next := nb }) header _).mem nb).flags |||
            BLOCK_LAST from rfl, wrH_mem, if_neg hnb, h7f nb]
    · rw [if_neg hx, wrH_mem]
      by_cases hxh : x = header
      · rw [if_pos hxh, if_pos hxh, show ({ (wrH (wrH t header
          { t.mem header with size := size2 }) header { (wrH t header
          { t.mem header with size := size2 }).mem header with
          next := nb }).mem header with flags := ((wrH (wrH t header
          { t.mem header with size := size2 }) header { (wrH t header
          { t.mem header with size := size2 }).mem header with
          next := nb }).mem header).flags &&& 0xFFFFFFFD } : Header).flags
          = ((wrH (wrH t header { t.mem header with size := size2 })
          header { (wrH t header { t.mem header with size := size2 }).mem
            header with next := nb }).mem header).flags &&& 0xFFFFFFFD
          from rfl, h7f header]
      · rw [if_neg hxh, if_neg hxh, if_neg hx, h7f x]
  · rename_i hc
    rw [h7f header] at hc
    rw [if_neg hc]
    split
    · rw [wrH_mem]
      by_cases hx : x = (((wrH (wrH t header { t.mem header with
          size := size2 }) header { (wrH t header { t.mem header with
          size := size2 }).mem header with next := nb }).mem nb).next)
      · rw [if_pos hx, show ∀ (h : Header) (v : Nat),
          ({ h with prev := v } : Header).flags = h.flags from
          fun _ _ => rfl, hx, h7f _]
      · rw [if_neg hx, h7f x]
    · exact h7f x

theorem krealloc_shrink_mid_size (t : HeapState) (header nb size2 : Nat)
    (hnb : nb ≠ header) :
    ∀ x, ((krealloc_shrink_mid t header nb size2).mem x).size
      = if x = header then size2 else (t.mem x).size := by
  intro x
  have h7s : ∀ y, ((wrH (wrH t header { t.mem header with size := size2 })
      header { (wrH t header { t.mem header with size := size2 }).mem header
        with next := nb }).mem y).size
      = if y = header then size2 else (t.mem y).size := by
    intro y
    rw [wrH_mem]
    by_cases hy : y = header
    · rw [if_pos hy, if_pos hy, show ({ (wrH t header { t.mem header with
        size := size2 }).mem header with next := nb } : Header).size
        = ((wrH t header { t.mem header with size := size2 }).mem
          header).size from rfl, wrH_mem, if_pos rfl]
    · rw [if_neg hy, if_neg hy, wrH_mem, if_neg hy]
  simp only [krealloc_shrink_mid]
  split
  · rw [wrH_mem]
    by_cases hx : x = nb
    · rw [if_pos hx, if_neg (by rw [hx]; exact hnb),
        show ∀ (h : Header) (v : Nat),
          ({ h with flags := v } : Header).size = h.size from fun _ _ => rfl,
        wrH_mem, if_neg hnb, h7s nb, if_neg hnb, hx]
    · rw [if_neg hx, wrH_mem]
      by_cases hxh : x = header
      · rw [if_pos hxh, if_pos hxh,
          show ∀ (h : Header) (v : Nat),
            ({ h with flags := v } : Header).size = h.size from fun _ _ => rfl,
          h7s header, if_pos rfl]
      · rw [if_neg hxh, if_neg hxh, h7s x, if_neg hxh]
  · split
    · rw [wrH_mem]
      by_cases hx : x = (((wrH (wrH t header { t.mem header with
          size := size2 }) header { (wrH t header { t.mem header with
          size := size2 }).mem header with next := nb }).mem nb).next)
      · rw [if_pos hx, show ∀ (h : Header) (v : Nat),
          ({ h with prev := v } : Header).size = h.size from
          fun _ _ => rfl, hx, h7s _]
      · rw [if_neg hx, h7s x]
    · exact h7s x

theorem FS_krealloc_shrink_push (s : HeapState) (nb : Nat) :
    FS s (krealloc_shrink_push s nb) := by
  have hprevf : ∀ (h : Header) (v : Nat),
      ({ h with prev := v } : Header).flags = h.flags := fun _ _ => rfl
  have hprevs : ∀ (h : Header) (v : Nat),
      ({ h with prev := v } : Header).size = h.size := fun _ _ => rfl
  have h9 : ∀ x, ((wrH s nb { s.mem nb with next := s.freeList }).mem x).flags
      = (s.mem x).flags ∧
      ((wrH s nb { s.mem nb with next := s.freeList }).mem x).size
      = (s.mem x).size := by
    intro x
    rw [wrH_mem]
    by_cases hx : x = nb
    · rw [if_pos hx, hx]
      exact ⟨rfl, rfl⟩
    · rw [if_neg hx]
      exact ⟨rfl, rfl⟩
  simp only [krealloc_shrink_push, upd_used_mem, upd_free_mem, wrH_freeList]
  split
  · refine ⟨rfl, rfl, rfl, ?_⟩
    intro x
    rw [wrH_mem]
    by_cases hx2 : x = s.freeList
    · rw [if_pos hx2, hprevf, hprevs, (h9 s.freeList).1, (h9 s.freeList).2, hx2]
      exact ⟨rfl, rfl⟩
    · rw [if_neg hx2]
      exact ⟨(h9 x).1, (h9 x).2⟩
  · exact ⟨rfl, rfl, rfl, fun x => ⟨(h9 x).1, (h9 x).2⟩⟩
